import Mathlib

/-!
HaiLuck keyboard firmware transfer protocol

A shallow embedding of `plugins/hailuck/fu-hailuck-kbd-device.c`.

* Bytes are natural numbers held in `List Nat`; a buffer is the list of its bytes.
* The feature-report transport (`fu_hid_device_set_report`, `fu_hid_device_get_report`,
  `g_usb_device_reset`) is a parameter: a state machine `Transport σ` that answers each
  call with success (`none`) or a failure code (`some e`).
* Every call that leaves the device code is appended to `World.log`, in order, with its
  arguments and its outcome.
* The opcodes and report ids of `fu-hailuck-common.h` are parameters (`Consts`).
* A function that can return `FALSE`/`NULL` returns an `Except Error _` next to the new world.
-/

namespace Hailuck

/-- The macros of `fu-hailuck-common.h` used by the keyboard device; the header lies
outside the plugin source file, so their values are parameters. -/
structure Consts where
  FU_HAILUCK_KBD_REPORT_ID_SHORT : Nat
  FU_HAILUCK_KBD_REPORT_ID_LONG : Nat
  FU_HAILUCK_CMD_ERASE : Nat
  FU_HAILUCK_CMD_READ_BLOCK_START : Nat
  FU_HAILUCK_CMD_READ_BLOCK : Nat
  FU_HAILUCK_CMD_WRITE_BLOCK_START : Nat
  FU_HAILUCK_CMD_WRITE_BLOCK : Nat
  deriving DecidableEq, Repr

/-- The `FwupdStatus` values the device code sets. -/
inductive Status where
  | device_restart
  | device_read
  | device_erase
  | device_write
  deriving DecidableEq, Repr

/-- One call leaving the device code. `err` is the outcome the callee reported:
`none` for success, `some e` for failure with error `e`. Every report call of the
source passes `FU_HID_DEVICE_FLAG_IS_FEATURE`, so the flag is not recorded. -/
inductive Event where
  | set_report (value : Nat) (buf : List Nat) (timeout : Nat) (err : Option Nat)
  | get_report (value : Nat) (buf : List Nat) (timeout : Nat) (err : Option Nat)
  | usb_reset (err : Option Nat)
  | usleep (us : Nat)
  | sleep_with_progress (secs : Nat)
  | set_status (s : Status)
  | set_progress_full (i n : Nat)
  deriving DecidableEq, Repr

/-- What a failing call of the device code reports. -/
inductive Error where
  | transport (e : Nat)
  | length_mismatch
  | compare_failed
  | no_image
  | out_of_bounds
  deriving DecidableEq, Repr

/-- The collaborator on the other side of the feature-report channel: each call maps the
collaborator state to an outcome and a new state. `get_report` also yields the bytes the
device sends back. -/
structure Transport (σ : Type) where
  set_report : Nat → List Nat → Nat → σ → Option Nat × σ
  get_report : Nat → List Nat → Nat → σ → Option Nat × List Nat × σ
  reset : σ → Option Nat × σ

/-- The `FuDevice` fields the code reads or writes, the collaborator state and the log. -/
structure World (σ : Type) where
  hid : σ
  log : List Event
  wait_for_replug : Bool
  firmware_size_max : Nat

/-- The size type `gsize` is 64 bits wide. -/
def G_MAXSIZE : Nat := 2 ^ 64 - 1

/-- The function `fu_hid_device_set_report (self, value, buf, bufsz, timeout, IS_FEATURE, error)`:
hands the request to the transport and records it. -/
def fu_hid_device_set_report {σ : Type} (T : Transport σ) (value : Nat) (buf : List Nat)
    (timeout : Nat) (w : World σ) : Except Error Unit × World σ :=
  match T.set_report value buf timeout w.hid with
  | (none, s) =>
    (.ok (), { w with hid := s, log := w.log ++ [Event.set_report value buf timeout none] })
  | (some e, s) =>
    (.error (.transport e),
      { w with hid := s, log := w.log ++ [Event.set_report value buf timeout (some e)] })

/-- The buffer `buf` after the device wrote `reply` into it from its start: the buffer
keeps its size (a shorter reply leaves the tail as it was, a longer one is cut). -/
def overwrite (buf reply : List Nat) : List Nat :=
  (reply ++ buf.drop reply.length).take buf.length

/-- The function `fu_hid_device_get_report (self, value, buf, bufsz, timeout, IS_FEATURE, error)`:
on success the reply overwrites the caller's buffer. -/
def fu_hid_device_get_report {σ : Type} (T : Transport σ) (value : Nat) (buf : List Nat)
    (timeout : Nat) (w : World σ) : Except Error (List Nat) × World σ :=
  match T.get_report value buf timeout w.hid with
  | (none, reply, s) =>
    (.ok (overwrite buf reply),
      { w with hid := s, log := w.log ++ [Event.get_report value buf timeout none] })
  | (some e, _, s) =>
    (.error (.transport e),
      { w with hid := s, log := w.log ++ [Event.get_report value buf timeout (some e)] })

/-- The function `g_usb_device_reset (fu_usb_device_get_dev (device), error)`. -/
def g_usb_device_reset {σ : Type} (T : Transport σ) (w : World σ) :
    Except Error Unit × World σ :=
  match T.reset w.hid with
  | (none, s) => (.ok (), { w with hid := s, log := w.log ++ [Event.usb_reset none] })
  | (some e, s) =>
    (.error (.transport e), { w with hid := s, log := w.log ++ [Event.usb_reset (some e)] })

/-- The function `g_usleep (us)`. -/
def g_usleep {σ : Type} (us : Nat) (w : World σ) : World σ :=
  { w with log := w.log ++ [Event.usleep us] }

/-- The function `fu_device_sleep_with_progress (device, secs)`. -/
def fu_device_sleep_with_progress {σ : Type} (secs : Nat) (w : World σ) : World σ :=
  { w with log := w.log ++ [Event.sleep_with_progress secs] }

/-- The function `fu_device_set_status (device, status)`. -/
def fu_device_set_status {σ : Type} (s : Status) (w : World σ) : World σ :=
  { w with log := w.log ++ [Event.set_status s] }

/-- The function `fu_device_set_progress_full (device, i, n)`. -/
def fu_device_set_progress_full {σ : Type} (i n : Nat) (w : World σ) : World σ :=
  { w with log := w.log ++ [Event.set_progress_full i n] }

/-- The function `fu_device_add_flag (device, FWUPD_DEVICE_FLAG_WAIT_FOR_REPLUG)`. -/
def fu_device_add_flag_wait_for_replug {σ : Type} (w : World σ) : World σ :=
  { w with wait_for_replug := true }

/-- Modelled from the spec: `fu_memcpy_safe` (libfwupdplugin) is defined outside the plugin
source file. A bounds-checked copy of `n` bytes from `src` at `src_offset` to `dst` at `dst_offset`:
a copy that does not fit the stated size of either buffer is a length mismatch (`none`),
never a truncated or padded copy; otherwise exactly the `n` bytes are replaced. -/
def fu_memcpy_safe (dst : List Nat) (dst_sz dst_offset : Nat) (src : List Nat)
    (src_sz src_offset n : Nat) : Option (List Nat) :=
  if n = 0 then some dst
  else if src_sz < n + src_offset then none
  else if dst_sz < n + dst_offset then none
  else some (dst.take dst_offset ++ (src.drop src_offset).take n ++ dst.drop (dst_offset + n))

/-- A `FuChunk`: `data` is the span of the chunked buffer that starts `offset` bytes into
it, `data_sz` is its length. -/
structure Chunk where
  offset : Nat
  data : List Nat
  deriving DecidableEq, Repr

/-- The field `data_sz` of a `FuChunk`. -/
def Chunk.data_sz (chk : Chunk) : Nat := chk.data.length

/-- The chunks of `data`, which starts `offset` bytes into the chunked buffer; `fuel`
bounds the number of chunks. -/
def fu_chunk_array_go (packet_sz : Nat) : Nat → Nat → List Nat → List Chunk
  | 0, _, _ => []
  | fuel + 1, offset, data =>
    if data = [] then []
    else { offset := offset, data := data.take packet_sz } ::
      fu_chunk_array_go packet_sz fuel (offset + packet_sz) (data.drop packet_sz)

/-- Modelled from the spec: `fu_chunk_array_new (data, data_sz, 0x0, 0x0, packet_sz)`
(libfwupdplugin/fu-chunk.c) is defined outside the plugin source file. It partitions the buffer
into an ordered sequence of blocks of at most `packet_sz` bytes that cover it exactly, with
no overlap and no gap: every block but the last holds `packet_sz` bytes. The spec fixes the
result only for a positive packet size; with `packet_sz = 0` the buffer is left in one
block. An empty buffer has no block. -/
def fu_chunk_array_new (data : List Nat) (packet_sz : Nat) : List Chunk :=
  if packet_sz = 0 then
    (if data = [] then [] else [{ offset := 0, data := data }])
  else fu_chunk_array_go packet_sz data.length 0 data

/-- Modelled from the spec: `fu_common_bytes_compare (bytes1, bytes2, error)`
(libfwupdplugin) is defined outside the plugin source file. A byte compare of the two buffers: a
different length or a mismatch at any byte is a failure. -/
def fu_common_bytes_compare (bytes1 bytes2 : List Nat) : Except Error Unit :=
  if bytes1.length ≠ bytes2.length then .error .compare_failed
  else if bytes1 = bytes2 then .ok ()
  else .error .compare_failed

/-- The function `fu_hailuck_kbd_device_detach`. -/
def fu_hailuck_kbd_device_detach {σ : Type} (T : Transport σ) (c : Consts) (w : World σ) :
    Except Error Unit × World σ :=
  let data := [c.FU_HAILUCK_KBD_REPORT_ID_SHORT, 0x75, 0, 0, 0, 0]
  let w := fu_device_set_status .device_restart w
  match fu_hid_device_set_report T 0x05 data 1000 w with
  | (.error e, w) => (.error e, w)
  | (.ok (), w) => (.ok (), fu_device_add_flag_wait_for_replug w)

/-- The function `fu_hailuck_kbd_device_attach`. -/
def fu_hailuck_kbd_device_attach {σ : Type} (T : Transport σ) (c : Consts) (w : World σ) :
    Except Error Unit × World σ :=
  let data := [c.FU_HAILUCK_KBD_REPORT_ID_SHORT, 0x55, 0x55, 0x55, 0x55, 0x55]
  let w := fu_device_set_status .device_restart w
  match fu_hid_device_set_report T 0x05 data 1000 w with
  | (.error e, w) => (.error e, w)
  | (.ok (), w) =>
    match g_usb_device_reset T w with
    | (.error e, w) => (.error e, w)
    | (.ok (), w) => (.ok (), fu_device_add_flag_wait_for_replug w)

/-- The function `fu_hailuck_kbd_device_read_block_start`; the parameter `length` is a `guint16`, so
the argument is narrowed to 16 bits on entry. -/
def fu_hailuck_kbd_device_read_block_start {σ : Type} (T : Transport σ) (c : Consts)
    (length : Nat) (w : World σ) : Except Error Unit × World σ :=
  let length := length % 65536
  let buf := [c.FU_HAILUCK_KBD_REPORT_ID_SHORT, c.FU_HAILUCK_CMD_READ_BLOCK_START,
    0x00, 0x00, length &&& 0xFF, (length >>> 8) &&& 0xFF]
  fu_hid_device_set_report T 0x05 buf 100 w

/-- The function `fu_hailuck_kbd_device_read_block (self, data, data_sz, error)`: `data` is the caller's
buffer of `data_sz` bytes; the second component of the result is that buffer afterwards. -/
def fu_hailuck_kbd_device_read_block {σ : Type} (T : Transport σ) (c : Consts)
    (data : List Nat) (w : World σ) : Except Error Unit × List Nat × World σ :=
  let data_sz := data.length
  let bufsz := (data_sz + 2) % 2 ^ 64
  let buf := List.replicate bufsz 0
  let buf := buf.set 0 c.FU_HAILUCK_KBD_REPORT_ID_LONG
  let buf := buf.set 1 c.FU_HAILUCK_CMD_READ_BLOCK
  match fu_hid_device_get_report T 0x06 buf 2000 w with
  | (.error e, w) => (.error e, data, w)
  | (.ok buf, w) =>
    match fu_memcpy_safe data data_sz 0x0 buf bufsz 0x02 data_sz with
    | none => (.error .length_mismatch, data, w)
    | some data => (.ok (), data, g_usleep 10000 w)

/-- The loop of `fu_hailuck_kbd_device_dump_firmware` from index `i` on: `chunks` are the
chunks not yet read, `len` is `chunks->len`. Each chunk's `data` points into `fwbuf`, so
the block is read into `fwbuf` at the chunk's offset. -/
def fu_hailuck_kbd_device_dump_firmware_loop {σ : Type} (T : Transport σ) (c : Consts)
    (len : Nat) : List Chunk → Nat → List Nat → World σ → Except Error (List Nat) × World σ
  | [], _, fwbuf, w => (.ok fwbuf, w)
  | chk :: chunks, i, fwbuf, w =>
    match fu_hailuck_kbd_device_read_block T c
        ((fwbuf.drop chk.offset).take chk.data_sz) w with
    | (.error e, _, w) => (.error e, w)
    | (.ok (), data, w) =>
      let fwbuf := fwbuf.take chk.offset ++ data ++ fwbuf.drop (chk.offset + chk.data_sz)
      let w := fu_device_set_progress_full i (len - 1) w
      fu_hailuck_kbd_device_dump_firmware_loop T c len chunks (i + 1) fwbuf w

/-- The function `fu_hailuck_kbd_device_dump_firmware`; `fu_byte_array_set_size` gives a zeroed buffer
of `fwsz` bytes. -/
def fu_hailuck_kbd_device_dump_firmware {σ : Type} (T : Transport σ) (c : Consts)
    (w : World σ) : Except Error (List Nat) × World σ :=
  let fwsz := w.firmware_size_max
  let w := fu_device_set_status .device_read w
  match fu_hailuck_kbd_device_read_block_start T c fwsz w with
  | (.error e, w) => (.error e, w)
  | (.ok (), w) =>
    let fwbuf := List.replicate fwsz 0
    let chunks := fu_chunk_array_new fwbuf 2048
    fu_hailuck_kbd_device_dump_firmware_loop T c chunks.length chunks 0 fwbuf w

/-- The function `fu_hailuck_kbd_device_erase`. -/
def fu_hailuck_kbd_device_erase {σ : Type} (T : Transport σ) (c : Consts) (w : World σ) :
    Except Error Unit × World σ :=
  let buf := [c.FU_HAILUCK_KBD_REPORT_ID_SHORT, c.FU_HAILUCK_CMD_ERASE,
    0x45, 0x45, 0x45, 0x45]
  match fu_hid_device_set_report T 0x05 buf 100 w with
  | (.error e, w) => (.error e, w)
  | (.ok (), w) => (.ok (), fu_device_sleep_with_progress 2 w)

/-- The function `fu_hailuck_kbd_device_write_block_start`; the parameter `length` is a `guint16`, so
the argument is narrowed to 16 bits on entry. -/
def fu_hailuck_kbd_device_write_block_start {σ : Type} (T : Transport σ) (c : Consts)
    (length : Nat) (w : World σ) : Except Error Unit × World σ :=
  let length := length % 65536
  let buf := [c.FU_HAILUCK_KBD_REPORT_ID_SHORT, c.FU_HAILUCK_CMD_WRITE_BLOCK_START,
    0x00, 0x00, length &&& 0xFF, (length >>> 8) &&& 0xFF]
  fu_hid_device_set_report T 0x05 buf 100 w

/-- The frame `fu_hailuck_kbd_device_write_block` builds for `data`: `none` when the
bounds-checked copy reports a length mismatch. -/
def fu_hailuck_kbd_device_write_block_buf (c : Consts) (data : List Nat) :
    Option (List Nat) :=
  let data_sz := data.length
  let bufsz := (data_sz + 2) % 2 ^ 64
  let buf := List.replicate bufsz 0
  let buf := buf.set 0 c.FU_HAILUCK_KBD_REPORT_ID_LONG
  let buf := buf.set 1 c.FU_HAILUCK_CMD_WRITE_BLOCK
  fu_memcpy_safe buf bufsz 0x02 data data_sz 0x0 data_sz

/-- The function `fu_hailuck_kbd_device_write_block (self, data, data_sz, error)` with
`data_sz = data.length`. -/
def fu_hailuck_kbd_device_write_block {σ : Type} (T : Transport σ) (c : Consts)
    (data : List Nat) (w : World σ) : Except Error Unit × World σ :=
  match fu_hailuck_kbd_device_write_block_buf c data with
  | none => (.error .length_mismatch, w)
  | some buf =>
    match fu_hid_device_set_report T 0x06 buf 2000 w with
    | (.error e, w) => (.error e, w)
    | (.ok (), w) => (.ok (), g_usleep 10000 w)

/-- The loop of `fu_hailuck_kbd_device_write_firmware` over the chunks from index `i` on:
`chunks` are the chunks not yet sent, `len` is `chunks->len`. -/
def fu_hailuck_kbd_device_write_firmware_loop {σ : Type} (T : Transport σ) (c : Consts)
    (len : Nat) : List Chunk → Nat → World σ → Except Error Unit × World σ
  | [], _, w => (.ok (), w)
  | chk :: chunks, i, w =>
    match fu_hailuck_kbd_device_write_block T c chk.data w with
    | (.error e, w) => (.error e, w)
    | (.ok (), w) =>
      let w := fu_device_set_progress_full i len w
      fu_hailuck_kbd_device_write_firmware_loop T c len chunks (i + 1) w

/-- Lines 247 to 280 of `fu_hailuck_kbd_device_write_firmware`: everything the function
does with the image `fw` before the step marked `verify`. Indexing an empty chunk array
and writing byte 0 of an empty copy are out of bounds. -/
def fu_hailuck_kbd_device_write_firmware_before_verify {σ : Type} (T : Transport σ)
    (c : Consts) (fw : List Nat) (w : World σ) : Except Error Unit × World σ :=
  let w := fu_device_set_status .device_erase w
  match fu_hailuck_kbd_device_erase T c w with
  | (.error e, w) => (.error e, w)
  | (.ok (), w) =>
    let w := fu_device_set_status .device_write w
    match fu_hailuck_kbd_device_write_block_start T c fw.length w with
    | (.error e, w) => (.error e, w)
    | (.ok (), w) =>
      let chunks := fu_chunk_array_new fw 2048
      match chunks with
      | [] => (.error .out_of_bounds, w)
      | chk0 :: _ =>
        match chk0.data with
        | [] => (.error .out_of_bounds, w)
        | _ :: _ =>
          let chk0_data := chk0.data.set 0 0x00
          match fu_hailuck_kbd_device_write_block T c chk0_data w with
          | (.error e, w) => (.error e, w)
          | (.ok (), w) =>
            match fu_hailuck_kbd_device_write_firmware_loop T c chunks.length
                (chunks.drop 1) 1 w with
            | (.error e, w) => (.error e, w)
            | (.ok (), w) =>
              match fu_hailuck_kbd_device_write_block_start T c fw.length w with
              | (.error e, w) => (.error e, w)
              | (.ok (), w) =>
                match fu_hailuck_kbd_device_write_block T c chk0.data w with
                | (.error e, w) => (.error e, w)
                | (.ok (), w) =>
                  (.ok (), fu_device_set_progress_full chunks.length chunks.length w)

/-- The function `fu_hailuck_kbd_device_write_firmware`; `firmware` is the default image of the
`FuFirmware`, `none` when it has none. When the dump fails `fw_new` is `NULL`, the compare
rejects it and the error stays the one the dump set. -/
def fu_hailuck_kbd_device_write_firmware {σ : Type} (T : Transport σ) (c : Consts)
    (firmware : Option (List Nat)) (w : World σ) : Except Error Unit × World σ :=
  match firmware with
  | none => (.error .no_image, w)
  | some fw =>
    match fu_hailuck_kbd_device_write_firmware_before_verify T c fw w with
    | (.error e, w) => (.error e, w)
    | (.ok (), w) =>
      match fu_hailuck_kbd_device_dump_firmware T c w with
      | (.error e, w) => (.error e, w)
      | (.ok fw_new, w) => (fu_common_bytes_compare fw fw_new, w)

/-- The function `fu_hailuck_kbd_device_init`: `fu_device_set_firmware_size (device, 0x4000)` sets the
maximum (and minimum) firmware size. -/
def fu_hailuck_kbd_device_init {σ : Type} (w : World σ) : World σ :=
  { w with firmware_size_max := 0x4000 }

/-! ## The protocol view of a run -/

/-- A protocol command of the block transfer engine, named as in the spec. The length of
a block-start command is the 16-bit value it announces; `read_block n` asks for `n` bytes. -/
inductive Cmd where
  | erase
  | begin_write (length : Nat)
  | write_block (data : List Nat)
  | begin_read (length : Nat)
  | read_block (length : Nat)
  deriving DecidableEq, Repr

/-- A feature-report request on the wire: `get` tells a get-report from a set-report,
`value` is the report number, `buf` the frame. -/
structure Request where
  get : Bool
  value : Nat
  buf : List Nat
  timeout : Nat
  deriving DecidableEq, Repr

/-- The 6-byte short frame of a block-start command: the length is split into its low and
high byte. -/
def short_frame (c : Consts) (opcode length : Nat) : List Nat :=
  [c.FU_HAILUCK_KBD_REPORT_ID_SHORT, opcode, 0x00, 0x00, length % 256, length / 256 % 256]

/-- The request that carries a command. -/
def Cmd.request (c : Consts) : Cmd → Request
  | .erase =>
    ⟨false, 0x05, [c.FU_HAILUCK_KBD_REPORT_ID_SHORT, c.FU_HAILUCK_CMD_ERASE,
      0x45, 0x45, 0x45, 0x45], 100⟩
  | .begin_write n => ⟨false, 0x05, short_frame c c.FU_HAILUCK_CMD_WRITE_BLOCK_START n, 100⟩
  | .write_block data =>
    ⟨false, 0x06, c.FU_HAILUCK_KBD_REPORT_ID_LONG :: c.FU_HAILUCK_CMD_WRITE_BLOCK :: data, 2000⟩
  | .begin_read n => ⟨false, 0x05, short_frame c c.FU_HAILUCK_CMD_READ_BLOCK_START n, 100⟩
  | .read_block n =>
    ⟨true, 0x06, c.FU_HAILUCK_KBD_REPORT_ID_LONG :: c.FU_HAILUCK_CMD_READ_BLOCK ::
      List.replicate n 0, 2000⟩

/-- The log entry of a request with outcome `err`. -/
def Request.event (r : Request) (err : Option Nat) : Event :=
  if r.get then Event.get_report r.value r.buf r.timeout err
  else Event.set_report r.value r.buf r.timeout err

/-- The delay the code takes after a command that succeeded. -/
def Cmd.settle : Cmd → List Event
  | .erase => [Event.sleep_with_progress 2]
  | .write_block _ => [Event.usleep 10000]
  | .read_block _ => [Event.usleep 10000]
  | .begin_write _ => []
  | .begin_read _ => []

/-- The number of payload bytes a command carries. -/
def Cmd.payload : Cmd → Nat
  | .write_block data => data.length
  | .read_block n => n
  | _ => 0

/-- The payload of the command fits a frame: adding the 2-byte header does not overflow
the size type. -/
def Cmd.fits (x : Cmd) : Prop := x.payload + 2 ≤ G_MAXSIZE

/-- The request and outcome of a log entry, when the entry is a report call. -/
def Event.call : Event → Option (Request × Option Nat)
  | .set_report value buf timeout err => some (⟨false, value, buf, timeout⟩, err)
  | .get_report value buf timeout err => some (⟨true, value, buf, timeout⟩, err)
  | _ => none

/-- The report calls of a log with their outcomes, in order. -/
def calls (log : List Event) : List (Request × Option Nat) := log.filterMap Event.call

/-- The requests sent in a log, in order. -/
def sent (log : List Event) : List Request := (calls log).map Prod.fst

/-- Every report call of the log succeeded. -/
def all_succeeded (log : List Event) : Prop := ∀ p ∈ calls log, p.2 = none

/-- Whether every report call of a log succeeded can be checked entry by entry. -/
instance all_succeeded_decidable (log : List Event) : Decidable (all_succeeded log) :=
  inferInstanceAs (Decidable (∀ p ∈ calls log, p.2 = none))

/-- The device function that carries out a command; the result holds the bytes read. -/
def Cmd.run {σ : Type} (T : Transport σ) (c : Consts) :
    Cmd → World σ → Except Error (List Nat) × World σ
  | .erase, w =>
    match fu_hailuck_kbd_device_erase T c w with
    | (.error e, w) => (.error e, w)
    | (.ok (), w) => (.ok [], w)
  | .begin_write n, w =>
    match fu_hailuck_kbd_device_write_block_start T c n w with
    | (.error e, w) => (.error e, w)
    | (.ok (), w) => (.ok [], w)
  | .write_block data, w =>
    match fu_hailuck_kbd_device_write_block T c data w with
    | (.error e, w) => (.error e, w)
    | (.ok (), w) => (.ok [], w)
  | .begin_read n, w =>
    match fu_hailuck_kbd_device_read_block_start T c n w with
    | (.error e, w) => (.error e, w)
    | (.ok (), w) => (.ok [], w)
  | .read_block n, w =>
    match fu_hailuck_kbd_device_read_block T c (List.replicate n 0) w with
    | (.error e, _, w) => (.error e, w)
    | (.ok (), data, w) => (.ok data, w)

/-- One step of an operation: a protocol command or a report to the framework. -/
inductive Step where
  | cmd (x : Cmd)
  | status (s : Status)
  | progress (i n : Nat)
  deriving DecidableEq, Repr

/-- The log entries of a step whose command succeeds. -/
def Step.events (c : Consts) : Step → List Event
  | .cmd x => (x.request c).event none :: x.settle
  | .status s => [Event.set_status s]
  | .progress i n => [Event.set_progress_full i n]

/-- The commands of a list of steps. -/
def cmds_of : List Step → List Cmd
  | [] => []
  | .cmd x :: rest => x :: cmds_of rest
  | _ :: rest => cmds_of rest

/-- Runs the steps in order and stops at the first failure; the result is the
concatenation of the bytes read. -/
def exec {σ : Type} (T : Transport σ) (c : Consts) :
    List Step → World σ → Except Error (List Nat) × World σ
  | [], w => (.ok [], w)
  | .cmd x :: rest, w =>
    match x.run T c w with
    | (.error e, w) => (.error e, w)
    | (.ok d, w) =>
      match exec T c rest w with
      | (.error e, w) => (.error e, w)
      | (.ok ds, w) => (.ok (d ++ ds), w)
  | .status s :: rest, w => exec T c rest (fu_device_set_status s w)
  | .progress i n :: rest, w => exec T c rest (fu_device_set_progress_full i n w)

/-- The steps of the loop of `write_firmware` over `chunks`, from index `i`. -/
def write_loop_steps (len : Nat) : List Chunk → Nat → List Step
  | [], _ => []
  | chk :: chunks, i =>
    .cmd (.write_block chk.data) :: .progress i len :: write_loop_steps len chunks (i + 1)

/-- The commands `write_firmware` sends for the image `fw` before the verify step, in
order: erase, announce, block 0 with its first byte zeroed, the other blocks, announce
again, block 0 as it is. -/
def write_cmds (fw : List Nat) : List Cmd :=
  match (fu_chunk_array_new fw 2048).map Chunk.data with
  | [] => []
  | b0 :: rest =>
    [.erase, .begin_write (fw.length % 65536), .write_block (b0.set 0 0x00)] ++
      rest.map Cmd.write_block ++ [.begin_write (fw.length % 65536), .write_block b0]

/-- The steps of `write_firmware` for the image `fw` before the verify step. -/
def write_steps (fw : List Nat) : List Step :=
  match fu_chunk_array_new fw 2048 with
  | [] => []
  | chk0 :: rest =>
    [.status .device_erase, .cmd .erase, .status .device_write,
      .cmd (.begin_write (fw.length % 65536)), .cmd (.write_block (chk0.data.set 0 0x00))] ++
    write_loop_steps (rest.length + 1) rest 1 ++
    [.cmd (.begin_write (fw.length % 65536)), .cmd (.write_block chk0.data),
      .progress (rest.length + 1) (rest.length + 1)]

/-- The steps of the loop of `dump_firmware` over `chunks`, from index `i`. -/
def dump_loop_steps (len : Nat) : List Chunk → Nat → List Step
  | [], _ => []
  | chk :: chunks, i =>
    .cmd (.read_block chk.data_sz) :: .progress i (len - 1) ::
      dump_loop_steps len chunks (i + 1)

/-- The commands `dump_firmware` sends for a device whose maximum firmware size is `fwsz`:
one announce, then one read per chunk of a buffer of `fwsz` bytes. -/
def dump_cmds (fwsz : Nat) : List Cmd :=
  .begin_read (fwsz % 65536) ::
    (fu_chunk_array_new (List.replicate fwsz 0) 2048).map (fun chk => .read_block chk.data_sz)

/-- The steps of `dump_firmware` for a device whose maximum firmware size is `fwsz`. -/
def dump_steps (fwsz : Nat) : List Step :=
  [.status .device_read, .cmd (.begin_read (fwsz % 65536))] ++
    dump_loop_steps (fu_chunk_array_new (List.replicate fwsz 0) 2048).length
      (fu_chunk_array_new (List.replicate fwsz 0) 2048) 0

/-- The bytes that follow a block-start command: the payload of the commands up to the
next block-start command. -/
def transferred : List Cmd → Nat
  | [] => 0
  | .begin_write _ :: _ => 0
  | .begin_read _ :: _ => 0
  | x :: rest => x.payload + transferred rest

/-- For each block-start command of the list, in order: the length it announces and the
number of payload bytes that follow it. -/
def sessions : List Cmd → List (Nat × Nat)
  | [] => []
  | .begin_write n :: rest => (n, transferred rest) :: sessions rest
  | .begin_read n :: rest => (n, transferred rest) :: sessions rest
  | _ :: rest => sessions rest


/-- The number of bytes a command reads back. -/
def Cmd.reads : Cmd → Nat
  | .read_block n => n
  | _ => 0

/-- The world `w2` is `w1` after the calls `es`: the log grew by `es` and the device
fields are the same. -/
def World.grows {σ : Type} (w1 w2 : World σ) (es : List Event) : Prop :=
  w2.log = w1.log ++ es ∧ w2.firmware_size_max = w1.firmware_size_max ∧
    w2.wait_for_replug = w1.wait_for_replug

/-- Drops the bytes read from a result. -/
def discard {σ : Type} (r : Except Error (List Nat) × World σ) : Except Error Unit × World σ :=
  match r with
  | (.error e, w) => (.error e, w)
  | (.ok _, w) => (.ok (), w)

/-- Hands a request to the transport in state `s`: the outcome, the reply bytes (none for
a set-report) and the next state. -/
def Request.ask {σ : Type} (T : Transport σ) (r : Request) (s : σ) : Option Nat × List Nat × σ :=
  if r.get then T.get_report r.value r.buf r.timeout s
  else ((T.set_report r.value r.buf r.timeout s).1, [], (T.set_report r.value r.buf r.timeout s).2)

/-- The bytes a command hands back to its caller when the device answered `reply`:
`read_block n` copies `n` bytes from offset 2 of the overwritten request buffer. -/
def Cmd.result (c : Consts) (x : Cmd) (reply : List Nat) : List Nat :=
  match x with
  | .read_block n => ((overwrite (x.request c).buf reply).drop 2).take n
  | _ => []

/-- Hands the requests of the commands to the transport, in order, as long as each
succeeds: the bytes read and the final transport state, or `none` after a failure. -/
def ask_all {σ : Type} (T : Transport σ) (c : Consts) : List Cmd → σ → Option (List Nat × σ)
  | [], s => some ([], s)
  | x :: xs, s =>
    match (x.request c).ask T s with
    | (none, reply, s1) =>
      match ask_all T c xs s1 with
      | some (d, s2) => some (x.result c reply ++ d, s2)
      | none => none
    | (some _, _, _) => none

/-- The entries the log of `w2` holds beyond the log of the earlier world `w1`. -/
def new_log {σ : Type} (w1 w2 : World σ) : List Event := w2.log.drop w1.log.length

/-- A transport that answers every request with success, in every state. -/
def Transport.reliable {σ : Type} (T : Transport σ) : Prop :=
  (∀ value buf timeout s, (T.set_report value buf timeout s).1 = none) ∧
    (∀ value buf timeout s, (T.get_report value buf timeout s).1 = none)

/-! ## Concrete collaborators for runs on explicit inputs -/

/-- A sample choice of the report ids and opcodes, pairwise distinct. -/
def sample_consts : Consts :=
  { FU_HAILUCK_KBD_REPORT_ID_SHORT := 0x05
    FU_HAILUCK_KBD_REPORT_ID_LONG := 0x06
    FU_HAILUCK_CMD_ERASE := 0x45
    FU_HAILUCK_CMD_READ_BLOCK_START := 0x52
    FU_HAILUCK_CMD_READ_BLOCK := 0x72
    FU_HAILUCK_CMD_WRITE_BLOCK_START := 0x57
    FU_HAILUCK_CMD_WRITE_BLOCK := 0x77 }

/-- A transport that accepts every request and leaves a read buffer as it was sent. -/
def quiet_transport : Transport Unit :=
  { set_report := fun _ _ _ s => (none, s)
    get_report := fun _ _ _ s => (none, [], s)
    reset := fun s => (none, s) }

/-- A transport that counts the report calls it has seen and fails call number `k`
(counted from 1) with error `e`; every other call succeeds. -/
def failing_transport (k e : Nat) : Transport Nat :=
  { set_report := fun _ _ _ s => (if s + 1 = k then some e else none, s + 1)
    get_report := fun _ _ _ s => (if s + 1 = k then some e else none, [], s + 1)
    reset := fun s => (none, s) }

/-- A device right after `fu_hailuck_kbd_device_init`, with an empty log, in front of a
collaborator in state `s`. -/
def fresh_world {σ : Type} (s : σ) : World σ :=
  fu_hailuck_kbd_device_init
    { hid := s, log := [], wait_for_replug := false, firmware_size_max := 0 }

/-- An image of exactly 4096 bytes: two full blocks. -/
def image_4096 : List Nat := List.replicate 4096 0x5A

/-- A transport that accepts every request and answers a read with the fixed bytes
`reply`. -/
def fixed_reply_transport (reply : List Nat) : Transport Unit :=
  { set_report := fun _ _ _ s => (none, s)
    get_report := fun _ _ _ s => (none, reply, s)
    reset := fun s => (none, s) }

/-- The state of a device that stores what is written to it: the stored bytes and the
positions of the next write and of the next read. -/
structure Flash where
  mem : List Nat
  wpos : Nat
  rpos : Nat
  deriving DecidableEq, Repr

/-- The `n` bytes a read at position `r` returns: the stored bytes, and 0xFF (erased
flash) where nothing is stored. -/
def flash_view (mem : List Nat) (r n : Nat) : List Nat :=
  (List.range n).map (fun i => mem.getD (r + i) 0xFF)

/-- A device model that stores the bytes of the blocks written to it and returns them on
read. A long set-report (report 0x06) stores its payload at the write position; a long
get-report returns the bytes at the read position after the 2-byte header; of the short
frames, erase empties the store, begin_write rewinds the write position and begin_read
rewinds the read position. It never fails. -/
def flash_device (c : Consts) : Transport Flash :=
  { set_report := fun value buf _ s =>
      if value = 0x06 then
        (none, { s with
          mem := s.mem.take s.wpos ++ buf.drop 2 ++ s.mem.drop (s.wpos + (buf.drop 2).length)
          wpos := s.wpos + (buf.drop 2).length })
      else if buf[1]? = some c.FU_HAILUCK_CMD_ERASE then (none, { s with mem := [] })
      else if buf[1]? = some c.FU_HAILUCK_CMD_WRITE_BLOCK_START then (none, { s with wpos := 0 })
      else if buf[1]? = some c.FU_HAILUCK_CMD_READ_BLOCK_START then (none, { s with rpos := 0 })
      else (none, s)
    get_report := fun _ buf _ s =>
      (none, buf.take 2 ++ flash_view s.mem s.rpos (buf.length - 2),
        { s with rpos := s.rpos + (buf.length - 2) })
    reset := fun s => (none, s) }

/-- The three opcodes carried by short frames are pairwise distinct, so that a device can
tell erase, begin_write and begin_read apart. -/
def Consts.distinct (c : Consts) : Prop :=
  c.FU_HAILUCK_CMD_ERASE ≠ c.FU_HAILUCK_CMD_WRITE_BLOCK_START ∧
    c.FU_HAILUCK_CMD_ERASE ≠ c.FU_HAILUCK_CMD_READ_BLOCK_START ∧
    c.FU_HAILUCK_CMD_WRITE_BLOCK_START ≠ c.FU_HAILUCK_CMD_READ_BLOCK_START

/-! ## Delays, timeouts and payloads of a run -/

/-- The 6-byte short frame of erase. -/
def erase_frame (c : Consts) : List Nat :=
  [c.FU_HAILUCK_KBD_REPORT_ID_SHORT, c.FU_HAILUCK_CMD_ERASE, 0x45, 0x45, 0x45, 0x45]

/-- Whether a log entry is a delay. -/
def Event.is_delay : Event → Bool
  | .usleep _ => true
  | .sleep_with_progress _ => true
  | _ => false

/-- The delay a log entry calls for before the next command: 10 ms after a long-frame
call (write_block, read_block) that succeeded, 2 s after an erase that succeeded, none
after any other entry. -/
def required_delay (c : Consts) : Event → Option Event
  | .set_report value buf _ none =>
    if value = 0x06 then some (Event.usleep 10000)
    else if buf = erase_frame c then some (Event.sleep_with_progress 2)
    else none
  | .get_report value _ _ none => if value = 0x06 then some (Event.usleep 10000) else none
  | _ => none

/-- Whether the delays of a log are in place, reading it from the left with the delay
still owed by the last command in `owed`: an owed delay must be the very next entry, and
a delay that no command owes is not allowed. -/
def well_delayed (c : Consts) : Option Event → List Event → Bool
  | none, [] => true
  | some _, [] => false
  | some d, ev :: rest => decide (ev = d) && well_delayed c none rest
  | none, ev :: rest => !ev.is_delay && well_delayed c (required_delay c ev) rest

/-- The shape of the log of a run: the entries of steps that succeeded, then nothing or the
request of the one command that failed. -/
def run_shape (c : Consts) (log : List Event) : Prop :=
  ∃ (steps : List Step) (last : List Event), log = steps.flatMap (Step.events c) ++ last ∧
    (last = [] ∨ ∃ (x : Cmd) (e : Nat), last = [(x.request c).event (some e)])

/-- The timeout of a request is the one of its frame kind among the block transfer
commands: 100 ms for a 6-byte short frame on report 0x05, 2000 ms for a long frame on
report 0x06. -/
def timeout_by_kind (r : Request) : Prop :=
  (r.value = 0x05 ∧ r.buf.length = 6 ∧ r.timeout = 100) ∨ (r.value = 0x06 ∧ r.timeout = 2000)

/-- Every command of the log that owes a delay is followed at once by that delay. -/
def delays_follow (c : Consts) (log : List Event) : Prop :=
  ∀ (i : Nat) (ev d : Event), log[i]? = some ev → required_delay c ev = some d →
    log[i + 1]? = some d

/-- Every delay of the log is the one owed by the entry right before it, so no delay is
taken twice and none is taken that no command owes. -/
def delays_owed (c : Consts) (log : List Event) : Prop :=
  ∀ (i : Nat) (ev : Event), log[i]? = some ev → ev.is_delay = true →
    ∃ (j : Nat) (prev : Event), i = j + 1 ∧ log[j]? = some prev ∧
      required_delay c prev = some ev

/-- The bytes each command of the list hands back, one entry per command, when the
requests are handed to the transport in order from state `s`. -/
def payloads_of {σ : Type} (T : Transport σ) (c : Consts) : List Cmd → σ → List (List Nat)
  | [], _ => []
  | x :: xs, s =>
    x.result c ((x.request c).ask T s).2.1 :: payloads_of T c xs ((x.request c).ask T s).2.2

/-! ## Properties -/

theorem and_0xFF (n : Nat) : n &&& 0xFF = n % 256 := by
  have h := Nat.and_pow_two_sub_one_eq_mod n 8
  simpa using h

theorem shift_and_0xFF (n : Nat) : (n >>> 8) &&& 0xFF = n / 256 % 256 := by
  rw [and_0xFF, Nat.shiftRight_eq_div_pow]

theorem World.grows_refl {σ : Type} (w : World σ) : w.grows w [] := by
  simp [World.grows]

theorem World.grows_trans {σ : Type} {w1 w2 w3 : World σ} {es fs : List Event}
    (h12 : w1.grows w2 es) (h23 : w2.grows w3 fs) : w1.grows w3 (es ++ fs) := by
  obtain ⟨a1, a2, a3⟩ := h12
  obtain ⟨b1, b2, b3⟩ := h23
  refine ⟨?_, ?_, ?_⟩
  · rw [b1, a1, List.append_assoc]
  · rw [b2, a2]
  · rw [b3, a3]

theorem set_status_grows {σ : Type} (s : Status) (w : World σ) :
    w.grows (fu_device_set_status s w) [Event.set_status s] := by
  simp [World.grows, fu_device_set_status]

theorem set_progress_grows {σ : Type} (i n : Nat) (w : World σ) :
    w.grows (fu_device_set_progress_full i n w) [Event.set_progress_full i n] := by
  simp [World.grows, fu_device_set_progress_full]

/-- The two outcomes of a set-report call. -/
theorem set_report_cases {σ : Type} (T : Transport σ) (value : Nat) (buf : List Nat)
    (timeout : Nat) (w : World σ) :
    (∃ w2, fu_hid_device_set_report T value buf timeout w = (.ok (), w2) ∧
        w.grows w2 [Event.set_report value buf timeout none] ∧
        T.set_report value buf timeout w.hid = (none, w2.hid)) ∨
    (∃ e w2, fu_hid_device_set_report T value buf timeout w = (.error (.transport e), w2) ∧
        w.grows w2 [Event.set_report value buf timeout (some e)] ∧
        T.set_report value buf timeout w.hid = (some e, w2.hid)) := by
  unfold fu_hid_device_set_report
  rcases h : T.set_report value buf timeout w.hid with ⟨_ | e, s⟩
  · left
    exact ⟨_, rfl, by simp [World.grows], rfl⟩
  · right
    exact ⟨e, _, rfl, by simp [World.grows], rfl⟩

/-- The two outcomes of a get-report call. -/
theorem get_report_cases {σ : Type} (T : Transport σ) (value : Nat) (buf : List Nat)
    (timeout : Nat) (w : World σ) :
    (∃ reply w2, fu_hid_device_get_report T value buf timeout w =
          (.ok (overwrite buf reply), w2) ∧
        w.grows w2 [Event.get_report value buf timeout none] ∧
        T.get_report value buf timeout w.hid = (none, reply, w2.hid)) ∨
    (∃ e reply w2, fu_hid_device_get_report T value buf timeout w =
          (.error (.transport e), w2) ∧
        w.grows w2 [Event.get_report value buf timeout (some e)] ∧
        T.get_report value buf timeout w.hid = (some e, reply, w2.hid)) := by
  unfold fu_hid_device_get_report
  rcases h : T.get_report value buf timeout w.hid with ⟨_ | e, reply, s⟩
  · left
    exact ⟨reply, _, rfl, by simp [World.grows], rfl⟩
  · right
    exact ⟨e, reply, _, rfl, by simp [World.grows], rfl⟩

/-- The frame of `write_block` is the 2-byte header followed by the payload. -/
theorem write_block_buf_eq (c : Consts) (data : List Nat) (h : data.length + 2 ≤ G_MAXSIZE) :
    fu_hailuck_kbd_device_write_block_buf c data =
      some (c.FU_HAILUCK_KBD_REPORT_ID_LONG :: c.FU_HAILUCK_CMD_WRITE_BLOCK :: data) := by
  have hlt : (data.length + 2) % 2 ^ 64 = data.length + 2 := by
    apply Nat.mod_eq_of_lt
    unfold G_MAXSIZE at h
    omega
  unfold fu_hailuck_kbd_device_write_block_buf
  simp only [hlt, List.replicate_succ, List.set_cons_zero, List.set_cons_succ]
  unfold fu_memcpy_safe
  by_cases h0 : data.length = 0
  · have : data = [] := List.length_eq_zero.mp h0
    subst this
    simp
  · simp [h0, Nat.add_comm]

/-- The frame of a read request and the bytes copied out of the reply. -/
theorem read_block_buf_eq (c : Consts) (n : Nat) (h : n + 2 ≤ G_MAXSIZE) :
    ((List.replicate ((n + 2) % 2 ^ 64) 0).set 0 c.FU_HAILUCK_KBD_REPORT_ID_LONG).set 1
        c.FU_HAILUCK_CMD_READ_BLOCK =
      c.FU_HAILUCK_KBD_REPORT_ID_LONG :: c.FU_HAILUCK_CMD_READ_BLOCK :: List.replicate n 0 := by
  have hlt : (n + 2) % 2 ^ 64 = n + 2 := by
    apply Nat.mod_eq_of_lt
    unfold G_MAXSIZE at h
    omega
  simp only [hlt, List.replicate_succ, List.set_cons_zero, List.set_cons_succ]

theorem overwrite_length (buf reply : List Nat) : (overwrite buf reply).length = buf.length := by
  unfold overwrite
  simp only [List.length_take, List.length_append, List.length_drop]
  omega

/-- The bytes `read_block` copies out of the reply buffer: `n` bytes from offset 2. -/
theorem read_block_copy (data buf : List Nat) (hbuf : buf.length = data.length + 2) :
    fu_memcpy_safe data data.length 0x0 buf (data.length + 2) 0x02 data.length =
      some ((buf.drop 2).take data.length) := by
  unfold fu_memcpy_safe
  by_cases h0 : data.length = 0
  · have : data = [] := List.length_eq_zero.mp h0
    subst this
    simp
  · simp [h0]

/-- The two outcomes of `read_block` for a caller's buffer of `data.length` bytes. -/
theorem read_block_cases {σ : Type} (T : Transport σ) (c : Consts) (data : List Nat)
    (w : World σ) (h : data.length + 2 ≤ G_MAXSIZE) :
    (∃ reply w2, fu_hailuck_kbd_device_read_block T c data w =
          (.ok (), ((overwrite ((Cmd.read_block data.length).request c).buf reply).drop 2).take
            data.length, w2) ∧
        w.grows w2 [((Cmd.read_block data.length).request c).event none, Event.usleep 10000] ∧
        T.get_report 0x06 ((Cmd.read_block data.length).request c).buf 2000 w.hid =
          (none, reply, w2.hid)) ∨
    (∃ e reply w2, fu_hailuck_kbd_device_read_block T c data w =
          (.error (.transport e), data, w2) ∧
        w.grows w2 [((Cmd.read_block data.length).request c).event (some e)] ∧
        T.get_report 0x06 ((Cmd.read_block data.length).request c).buf 2000 w.hid =
          (some e, reply, w2.hid)) := by
  have hlt : (data.length + 2) % 2 ^ 64 = data.length + 2 := by
    apply Nat.mod_eq_of_lt
    unfold G_MAXSIZE at h
    omega
  unfold fu_hailuck_kbd_device_read_block
  simp only [read_block_buf_eq c data.length h, Cmd.request, Request.event, if_true]
  rcases get_report_cases T 0x06 (c.FU_HAILUCK_KBD_REPORT_ID_LONG ::
      c.FU_HAILUCK_CMD_READ_BLOCK :: List.replicate data.length 0) 2000 w with
    ⟨reply, w2, hr, hg, hT⟩ | ⟨e, reply, w2, hr, hg, hT⟩
  · left
    refine ⟨reply, g_usleep 10000 w2, ?_, ?_, ?_⟩
    · rw [hr]
      simp only [hlt]
      rw [read_block_copy data _ (by rw [overwrite_length]; simp)]
    · have := World.grows_trans hg (show w2.grows (g_usleep 10000 w2) [Event.usleep 10000] by
        simp [World.grows, g_usleep])
      simpa using this
    · simpa [g_usleep] using hT
  · right
    refine ⟨e, reply, w2, ?_, hg, hT⟩
    rw [hr]

/-- The two outcomes of a command: it succeeds, logs its request and its delay and hands
back the bytes read; or the transport fails, the request is the last entry logged and the
transport's error is returned. -/
theorem Cmd.run_cases {σ : Type} (T : Transport σ) (c : Consts) (x : Cmd) (w : World σ)
    (h : x.fits) :
    (∃ reply w2, x.run T c w = (.ok (x.result c reply), w2) ∧
        w.grows w2 (Step.events c (.cmd x)) ∧
        (x.request c).ask T w.hid = (none, reply, w2.hid)) ∨
    (∃ e reply w2, x.run T c w = (.error (.transport e), w2) ∧
        w.grows w2 [(x.request c).event (some e)] ∧
        (x.request c).ask T w.hid = (some e, reply, w2.hid)) := by
  cases x with
  | erase =>
    simp only [Cmd.run, fu_hailuck_kbd_device_erase, Cmd.request, Request.ask, Step.events,
      Request.event, Cmd.settle, Cmd.result]
    rcases set_report_cases T 0x05 [c.FU_HAILUCK_KBD_REPORT_ID_SHORT, c.FU_HAILUCK_CMD_ERASE,
      0x45, 0x45, 0x45, 0x45] 100 w with ⟨w2, hr, hg, hT⟩ | ⟨e, w2, hr, hg, hT⟩
    · left
      refine ⟨[], fu_device_sleep_with_progress 2 w2, by simp [hr], ?_, ?_⟩
      · have := World.grows_trans hg (show w2.grows (fu_device_sleep_with_progress 2 w2)
          [Event.sleep_with_progress 2] by simp [World.grows, fu_device_sleep_with_progress])
        simpa using this
      · simp [hT, fu_device_sleep_with_progress]
    · right
      exact ⟨e, [], w2, by simp [hr], by simpa using hg, by simp [hT]⟩
  | begin_write n =>
    have h1 : n % 65536 % 256 = n % 256 := by omega
    have h2 : (n % 65536) >>> 8 % 256 = n / 256 % 256 := by
      rw [Nat.shiftRight_eq_div_pow]
      omega
    simp only [Cmd.run, fu_hailuck_kbd_device_write_block_start, Cmd.request, Request.ask,
      Step.events, Request.event, Cmd.settle, Cmd.result, and_0xFF, shift_and_0xFF,
      short_frame, h1, h2]
    rcases set_report_cases T 0x05 [c.FU_HAILUCK_KBD_REPORT_ID_SHORT,
      c.FU_HAILUCK_CMD_WRITE_BLOCK_START, 0x00, 0x00, n % 256, n / 256 % 256] 100 w with
      ⟨w2, hr, hg, hT⟩ | ⟨e, w2, hr, hg, hT⟩
    · left
      exact ⟨[], w2, by simp [hr], by simpa using hg, by simp [hT]⟩
    · right
      exact ⟨e, [], w2, by simp [hr], by simpa using hg, by simp [hT]⟩
  | write_block data =>
    have hfit : data.length + 2 ≤ G_MAXSIZE := h
    simp only [Cmd.run, fu_hailuck_kbd_device_write_block, write_block_buf_eq c data hfit,
      Cmd.request, Request.ask, Step.events, Request.event, Cmd.settle, Cmd.result]
    rcases set_report_cases T 0x06 (c.FU_HAILUCK_KBD_REPORT_ID_LONG ::
      c.FU_HAILUCK_CMD_WRITE_BLOCK :: data) 2000 w with ⟨w2, hr, hg, hT⟩ | ⟨e, w2, hr, hg, hT⟩
    · left
      refine ⟨[], g_usleep 10000 w2, by simp [hr], ?_, ?_⟩
      · have := World.grows_trans hg (show w2.grows (g_usleep 10000 w2)
          [Event.usleep 10000] by simp [World.grows, g_usleep])
        simpa using this
      · simp [hT, g_usleep]
    · right
      exact ⟨e, [], w2, by simp [hr], by simpa using hg, by simp [hT]⟩
  | begin_read n =>
    have h1 : n % 65536 % 256 = n % 256 := by omega
    have h2 : (n % 65536) >>> 8 % 256 = n / 256 % 256 := by
      rw [Nat.shiftRight_eq_div_pow]
      omega
    simp only [Cmd.run, fu_hailuck_kbd_device_read_block_start, Cmd.request, Request.ask,
      Step.events, Request.event, Cmd.settle, Cmd.result, and_0xFF, shift_and_0xFF,
      short_frame, h1, h2]
    rcases set_report_cases T 0x05 [c.FU_HAILUCK_KBD_REPORT_ID_SHORT,
      c.FU_HAILUCK_CMD_READ_BLOCK_START, 0x00, 0x00, n % 256, n / 256 % 256] 100 w with
      ⟨w2, hr, hg, hT⟩ | ⟨e, w2, hr, hg, hT⟩
    · left
      exact ⟨[], w2, by simp [hr], by simpa using hg, by simp [hT]⟩
    · right
      exact ⟨e, [], w2, by simp [hr], by simpa using hg, by simp [hT]⟩
  | read_block n =>
    have hfit : (List.replicate n 0).length + 2 ≤ G_MAXSIZE := by
      simpa [Cmd.fits, Cmd.payload] using h
    rcases read_block_cases T c (List.replicate n 0) w hfit with
      ⟨reply, w2, hr, hg, hT⟩ | ⟨e, reply, w2, hr, hg, hT⟩
    · left
      simp only [List.length_replicate] at hr hg hT
      refine ⟨reply, w2, ?_, ?_, ?_⟩
      · simp only [Cmd.run, hr, Cmd.result]
      · simpa [Step.events, Cmd.settle] using hg
      · simpa [Request.ask, Cmd.request] using hT
    · right
      simp only [List.length_replicate] at hr hg hT
      refine ⟨e, reply, w2, ?_, hg, ?_⟩
      · simp only [Cmd.run, hr]
      · simpa [Request.ask, Cmd.request] using hT

/-- The two outcomes of a run of steps: every command succeeds and the log grows by the
entries of all steps; or one command is the first to fail, the log ends with its request
and nothing after it runs. -/
theorem exec_cases {σ : Type} (T : Transport σ) (c : Consts) (script : List Step) :
    ∀ w : World σ, (∀ x ∈ cmds_of script, x.fits) →
    (∃ d w2, exec T c script w = (.ok d, w2) ∧
        w.grows w2 (script.flatMap (Step.events c)) ∧
        ask_all T c (cmds_of script) w.hid = some (d, w2.hid)) ∨
    (∃ pre x post e w2, script = pre ++ Step.cmd x :: post ∧
        exec T c script w = (.error (.transport e), w2) ∧
        w.grows w2 (pre.flatMap (Step.events c) ++ [(x.request c).event (some e)]) ∧
        ask_all T c (cmds_of script) w.hid = none ∧
        ∃ d1 s1 reply, ask_all T c (cmds_of pre) w.hid = some (d1, s1) ∧
          (x.request c).ask T s1 = (some e, reply, w2.hid)) := by
  induction script with
  | nil =>
    intro w _
    left
    exact ⟨[], w, rfl, World.grows_refl w, rfl⟩
  | cons st rest ih =>
    intro w hfit
    cases st with
    | cmd x =>
      have hx : x.fits := hfit x (by simp [cmds_of])
      have hrest : ∀ y ∈ cmds_of rest, y.fits := fun y hy => hfit y (by simp [cmds_of, hy])
      rcases Cmd.run_cases T c x w hx with ⟨reply, w1, hr, hg, hT⟩ | ⟨e, reply, w1, hr, hg, hT⟩
      · rcases ih w1 hrest with
          ⟨d, w2, hr2, hg2, hT2⟩ | ⟨pre, y, post, e, w2, hs, hr2, hg2, hT2, d1, s1, rp, ha, hb⟩
        · left
          refine ⟨x.result c reply ++ d, w2, ?_, ?_, ?_⟩
          · simp [exec, hr, hr2]
          · simpa using World.grows_trans hg hg2
          · simp [cmds_of, ask_all, hT, hT2]
        · right
          refine ⟨Step.cmd x :: pre, y, post, e, w2, ?_, ?_, ?_, ?_,
            x.result c reply ++ d1, s1, rp, ?_, hb⟩
          · simp [hs]
          · simp [exec, hr, hr2]
          · simpa using World.grows_trans hg hg2
          · simp [cmds_of, ask_all, hT, hT2]
          · simp [cmds_of, ask_all, hT, ha]
      · right
        refine ⟨[], x, rest, e, w1, rfl, ?_, ?_, ?_, [], w.hid, reply, rfl, hT⟩
        · simp [exec, hr]
        · simpa using hg
        · simp [cmds_of, ask_all, hT]
    | status st =>
      have hrest : ∀ y ∈ cmds_of rest, y.fits := fun y hy => hfit y (by simpa [cmds_of] using hy)
      have hg := set_status_grows st w
      rcases ih (fu_device_set_status st w) hrest with
        ⟨d, w2, hr2, hg2, hT2⟩ | ⟨pre, y, post, e, w2, hs, hr2, hg2, hT2, d1, s1, rp, ha, hb⟩
      · left
        refine ⟨d, w2, ?_, ?_, ?_⟩
        · simp [exec, hr2]
        · simpa [Step.events] using World.grows_trans hg hg2
        · simpa [cmds_of, fu_device_set_status] using hT2
      · right
        refine ⟨Step.status st :: pre, y, post, e, w2, ?_, ?_, ?_, ?_, d1, s1, rp, ?_, hb⟩
        · simp [hs]
        · simp [exec, hr2]
        · simpa [Step.events] using World.grows_trans hg hg2
        · simpa [cmds_of, fu_device_set_status] using hT2
        · simpa [cmds_of, fu_device_set_status] using ha
    | progress i n =>
      have hrest : ∀ y ∈ cmds_of rest, y.fits := fun y hy => hfit y (by simpa [cmds_of] using hy)
      have hg := set_progress_grows i n w
      rcases ih (fu_device_set_progress_full i n w) hrest with
        ⟨d, w2, hr2, hg2, hT2⟩ | ⟨pre, y, post, e, w2, hs, hr2, hg2, hT2, d1, s1, rp, ha, hb⟩
      · left
        refine ⟨d, w2, ?_, ?_, ?_⟩
        · simp [exec, hr2]
        · simpa [Step.events] using World.grows_trans hg hg2
        · simpa [cmds_of, fu_device_set_progress_full] using hT2
      · right
        refine ⟨Step.progress i n :: pre, y, post, e, w2, ?_, ?_, ?_, ?_, d1, s1, rp, ?_, hb⟩
        · simp [hs]
        · simp [exec, hr2]
        · simpa [Step.events] using World.grows_trans hg hg2
        · simpa [cmds_of, fu_device_set_progress_full] using hT2
        · simpa [cmds_of, fu_device_set_progress_full] using ha

/-- Running two lists of steps one after the other. -/
theorem exec_append {σ : Type} (T : Transport σ) (c : Consts) (a b : List Step) :
    ∀ w : World σ, exec T c (a ++ b) w =
      match exec T c a w with
      | (.error e, w1) => (.error e, w1)
      | (.ok d, w1) =>
        match exec T c b w1 with
        | (.error e, w2) => (.error e, w2)
        | (.ok d2, w2) => (.ok (d ++ d2), w2) := by
  induction a with
  | nil =>
    intro w
    simp only [List.nil_append, exec]
    rcases exec T c b w with ⟨_ | _, w2⟩ <;> simp
  | cons st rest ih =>
    intro w
    cases st with
    | cmd x =>
      simp only [List.cons_append, exec, List.append_eq]
      rcases x.run T c w with ⟨e | d, w1⟩
      · simp
      · simp only []
        rw [ih w1]
        rcases exec T c rest w1 with ⟨e | d1, w2⟩
        · simp
        · simp only
          rcases exec T c b w2 with ⟨e | d2, w3⟩ <;> simp
    | status st => simp only [List.cons_append, exec, List.append_eq, ih]
    | progress i n => simp only [List.cons_append, exec, List.append_eq, ih]

/-- The loop of `write_firmware` runs its steps. -/
theorem write_loop_eq {σ : Type} (T : Transport σ) (c : Consts) (len : Nat)
    (chunks : List Chunk) : ∀ (i : Nat) (w : World σ),
    fu_hailuck_kbd_device_write_firmware_loop T c len chunks i w =
      discard (exec T c (write_loop_steps len chunks i) w) := by
  induction chunks with
  | nil =>
    intro i w
    rfl
  | cons chk rest ih =>
    intro i w
    simp only [fu_hailuck_kbd_device_write_firmware_loop, write_loop_steps, exec, Cmd.run]
    rcases fu_hailuck_kbd_device_write_block T c chk.data w with ⟨e | u, w1⟩
    · simp [discard]
    · simp only [ih]
      rcases exec T c (write_loop_steps len rest (i + 1))
        (fu_device_set_progress_full i len w1) with ⟨e | d, w2⟩ <;> simp [discard]

theorem write_block_start_mod {σ : Type} (T : Transport σ) (c : Consts) (n : Nat)
    (w : World σ) : fu_hailuck_kbd_device_write_block_start T c (n % 65536) w =
      fu_hailuck_kbd_device_write_block_start T c n w := by
  simp [fu_hailuck_kbd_device_write_block_start]

theorem read_block_start_mod {σ : Type} (T : Transport σ) (c : Consts) (n : Nat)
    (w : World σ) : fu_hailuck_kbd_device_read_block_start T c (n % 65536) w =
      fu_hailuck_kbd_device_read_block_start T c n w := by
  simp [fu_hailuck_kbd_device_read_block_start]

/-- The part of `write_firmware` before the verify step runs the steps of `write_steps`. -/
theorem before_verify_eq {σ : Type} (T : Transport σ) (c : Consts) (fw : List Nat)
    (w : World σ) (chk0 : Chunk) (rest : List Chunk)
    (hchunks : fu_chunk_array_new fw 2048 = chk0 :: rest) (h0 : chk0.data ≠ []) :
    fu_hailuck_kbd_device_write_firmware_before_verify T c fw w =
      discard (exec T c (write_steps fw) w) := by
  obtain ⟨b, bs, hb⟩ := List.exists_cons_of_ne_nil h0
  simp only [fu_hailuck_kbd_device_write_firmware_before_verify, write_steps, hchunks, hb,
    List.cons_append, List.nil_append, exec, Cmd.run, write_block_start_mod, List.drop_one,
    List.tail_cons, List.length_cons, write_loop_eq, exec_append]
  rcases fu_hailuck_kbd_device_erase T c (fu_device_set_status Status.device_erase w) with
    ⟨e | u, w1⟩
  · simp [discard]
  simp only
  rcases fu_hailuck_kbd_device_write_block_start T c fw.length
    (fu_device_set_status Status.device_write w1) with ⟨e | u, w2⟩
  · simp [discard]
  simp only
  rcases fu_hailuck_kbd_device_write_block T c ((b :: bs).set 0 0) w2 with ⟨e | u, w3⟩
  · simp [discard]
  simp only
  rcases exec T c (write_loop_steps (rest.length + 1) rest 1) w3 with ⟨e | d, w4⟩
  · simp [discard]
  simp only [discard]
  rcases fu_hailuck_kbd_device_write_block_start T c fw.length w4 with ⟨e | u, w5⟩
  · simp
  simp only
  rcases fu_hailuck_kbd_device_write_block T c (b :: bs) w5 with ⟨e | u, w6⟩
  · simp
  simp

theorem chunk_go_nil (p fuel offset : Nat) : fu_chunk_array_go p fuel offset [] = [] := by
  cases fuel <;> simp [fu_chunk_array_go]

theorem chunk_go_cons (p fuel offset : Nat) (data : List Nat) (h : data ≠ []) :
    fu_chunk_array_go p (fuel + 1) offset data =
      { offset := offset, data := data.take p } ::
        fu_chunk_array_go p fuel (offset + p) (data.drop p) := by
  simp [fu_chunk_array_go, h]

/-- The chunks of a non-empty image: block 0 is its first 2048 bytes. -/
theorem chunks_of_nonempty (fw : List Nat) (h : fw ≠ []) :
    fu_chunk_array_new fw 2048 =
      { offset := 0, data := fw.take 2048 } ::
        fu_chunk_array_go 2048 (fw.length - 1) 2048 (fw.drop 2048) := by
  have hlen : fw.length = (fw.length - 1) + 1 := by
    have : 0 < fw.length := List.length_pos.mpr h
    omega
  unfold fu_chunk_array_new
  rw [if_neg (by decide)]
  conv_lhs => rw [hlen]
  rw [chunk_go_cons _ _ _ _ h]

/-- The blocks of the chunking, concatenated in order, give back the buffer. -/
theorem chunk_go_flatten (p : Nat) (hp : 0 < p) : ∀ (fuel offset : Nat) (data : List Nat),
    data.length ≤ fuel →
    ((fu_chunk_array_go p fuel offset data).map Chunk.data).flatten = data := by
  intro fuel
  induction fuel with
  | zero =>
    intro offset data h
    have : data = [] := List.length_eq_zero.mp (Nat.le_zero.mp h)
    simp [fu_chunk_array_go, this]
  | succ fuel ih =>
    intro offset data h
    by_cases hd : data = []
    · simp [fu_chunk_array_go, hd]
    · rw [chunk_go_cons _ _ _ _ hd]
      have hpos : 0 < data.length := List.length_pos.mpr hd
      have hl : (data.drop p).length ≤ fuel := by
        rw [List.length_drop]
        omega
      simp only [List.map_cons, List.flatten_cons, ih _ _ hl, List.take_append_drop]

/-- Every block of the chunking holds at least one byte and at most `p`. -/
theorem chunk_go_sizes (p : Nat) (hp : 0 < p) : ∀ (fuel offset : Nat) (data : List Nat),
    ∀ chk ∈ fu_chunk_array_go p fuel offset data, 1 ≤ chk.data.length ∧ chk.data.length ≤ p := by
  intro fuel
  induction fuel with
  | zero =>
    intro offset data chk h
    simp [fu_chunk_array_go] at h
  | succ fuel ih =>
    intro offset data chk h
    by_cases hd : data = []
    · simp [fu_chunk_array_go, hd] at h
    · rw [chunk_go_cons _ _ _ _ hd] at h
      rcases List.mem_cons.mp h with h1 | h1
      · subst h1
        have hpos : 0 < data.length := List.length_pos.mpr hd
        simp only [List.length_take]
        omega
      · exact ih _ _ chk h1

theorem chunks_sizes (data : List Nat) :
    ∀ chk ∈ fu_chunk_array_new data 2048, 1 ≤ chk.data.length ∧ chk.data.length ≤ 2048 := by
  intro chk h
  unfold fu_chunk_array_new at h
  rw [if_neg (by decide)] at h
  exact chunk_go_sizes 2048 (by decide) _ _ _ chk h

theorem chunks_flatten (data : List Nat) :
    ((fu_chunk_array_new data 2048).map Chunk.data).flatten = data := by
  unfold fu_chunk_array_new
  rw [if_neg (by decide)]
  exact chunk_go_flatten 2048 (by decide) _ _ _ (Nat.le_refl _)

/-- On success `read_block` hands back as many bytes as the caller's buffer holds. -/
theorem read_block_ok_length {σ : Type} (T : Transport σ) (c : Consts) (n : Nat)
    (w w1 : World σ) (d : List Nat) (hn : n + 2 ≤ G_MAXSIZE)
    (h : fu_hailuck_kbd_device_read_block T c (List.replicate n 0) w = (.ok (), d, w1)) :
    d.length = n := by
  have hfit : (List.replicate n 0).length + 2 ≤ G_MAXSIZE := by simpa using hn
  rcases read_block_cases T c (List.replicate n 0) w hfit with
    ⟨reply, w2, hr, -, -⟩ | ⟨e, reply, w2, hr, -, -⟩
  · rw [hr] at h
    simp only [Prod.mk.injEq, true_and] at h
    rw [← h.1]
    simp only [List.length_replicate, List.length_take, List.length_drop, overwrite_length,
      Cmd.request, List.length_cons]
    omega
  · rw [hr] at h
    simp at h

/-- The loop of `dump_firmware` over the chunks of the zeroed tail of the buffer runs its
steps; the bytes read replace the tail in order. -/
theorem dump_loop_eq {σ : Type} (T : Transport σ) (c : Consts) (len : Nat) :
    ∀ (fuel : Nat) (acc : List Nat) (m i : Nat) (w : World σ), m ≤ fuel →
    fu_hailuck_kbd_device_dump_firmware_loop T c len
        (fu_chunk_array_go 2048 fuel acc.length (List.replicate m 0)) i
        (acc ++ List.replicate m 0) w =
      match exec T c (dump_loop_steps len
          (fu_chunk_array_go 2048 fuel acc.length (List.replicate m 0)) i) w with
      | (.error e, w1) => (.error e, w1)
      | (.ok d, w1) => (.ok (acc ++ d), w1) := by
  intro fuel
  induction fuel with
  | zero =>
    intro acc m i w h
    have hm : m = 0 := Nat.le_zero.mp h
    subst hm
    simp [fu_chunk_array_go, fu_hailuck_kbd_device_dump_firmware_loop, dump_loop_steps, exec]
  | succ fuel ih =>
    intro acc m i w h
    by_cases hm : m = 0
    · subst hm
      simp [fu_chunk_array_go, fu_hailuck_kbd_device_dump_firmware_loop, dump_loop_steps, exec]
    · have hne : List.replicate m 0 ≠ [] := by
        intro hnil
        have := congrArg List.length hnil
        simp at this
        exact hm this
      rw [chunk_go_cons _ _ _ _ hne]
      simp only [fu_hailuck_kbd_device_dump_firmware_loop, dump_loop_steps, exec, Cmd.run,
        Chunk.data_sz, List.length_take, List.length_replicate]
      have hcaller : List.take (min 2048 m) (List.drop acc.length (acc ++ List.replicate m 0)) =
          List.replicate (min 2048 m) 0 := by
        rw [List.drop_left, List.take_replicate]
        have hmin : min (min 2048 m) m = min 2048 m := by omega
        rw [hmin]
      have htake : List.take acc.length (acc ++ List.replicate m 0) = acc := List.take_left _ _
      have hdrop : List.drop (acc.length + min 2048 m) (acc ++ List.replicate m 0) =
          List.replicate (m - 2048) 0 := by
        rw [List.drop_append, List.drop_replicate]
        have hsub : m - min 2048 m = m - 2048 := by omega
        rw [hsub]
      have hdrop2 : List.drop 2048 (List.replicate m 0) = List.replicate (m - 2048) 0 :=
        List.drop_replicate _ _ _
      rw [hcaller, htake, hdrop, hdrop2]
      have hfit : min 2048 m + 2 ≤ G_MAXSIZE := by
        unfold G_MAXSIZE
        have : min 2048 m ≤ 2048 := Nat.min_le_left _ _
        omega
      rcases hrb : fu_hailuck_kbd_device_read_block T c (List.replicate (min 2048 m) 0) w with
        ⟨e | u, d, w1⟩
      · simp only []
      · have hd : d.length = min 2048 m := read_block_ok_length T c _ w w1 d hfit hrb
        simp only []
        by_cases hbig : 2048 ≤ m
        · have hd2 : acc.length + 2048 = (acc ++ d).length := by
            rw [List.length_append, hd]
            omega
          rw [hd2, ih (acc ++ d) (m - 2048) (i + 1) _ (by omega)]
          rcases exec T c (dump_loop_steps len (fu_chunk_array_go 2048 fuel (acc ++ d).length
            (List.replicate (m - 2048) 0)) (i + 1)) (fu_device_set_progress_full i (len - 1) w1)
            with ⟨e | d2, w2⟩ <;> simp
        · have hz : m - 2048 = 0 := by omega
          simp [hz, chunk_go_nil, fu_hailuck_kbd_device_dump_firmware_loop, dump_loop_steps,
            exec]

theorem chunks_replicate (n : Nat) :
    fu_chunk_array_new (List.replicate n 0) 2048 =
      fu_chunk_array_go 2048 n 0 (List.replicate n 0) := by
  unfold fu_chunk_array_new
  rw [if_neg (by decide)]
  simp

/-- A run of `dump_firmware` runs the steps of `dump_steps` for the device's maximum
firmware size. -/
theorem dump_firmware_eq {σ : Type} (T : Transport σ) (c : Consts) (w : World σ) :
    fu_hailuck_kbd_device_dump_firmware T c w =
      exec T c (dump_steps w.firmware_size_max) w := by
  have hfs : (fu_device_set_status Status.device_read w).firmware_size_max =
      w.firmware_size_max := rfl
  simp only [fu_hailuck_kbd_device_dump_firmware, dump_steps, List.cons_append,
    List.nil_append, exec, Cmd.run, read_block_start_mod, chunks_replicate, List.append_eq]
  rcases fu_hailuck_kbd_device_read_block_start T c w.firmware_size_max
    (fu_device_set_status Status.device_read w) with ⟨e | u, w1⟩
  · simp only []
  · simp only []
    have h := dump_loop_eq T c (fu_chunk_array_go 2048 w.firmware_size_max
      0 (List.replicate w.firmware_size_max 0)).length
      w.firmware_size_max [] w.firmware_size_max 0 w1 (Nat.le_refl _)
    simp only [List.nil_append, List.length_nil] at h
    rw [h]
    rcases exec T c (dump_loop_steps (fu_chunk_array_go 2048 w.firmware_size_max
      0 (List.replicate w.firmware_size_max 0)).length
      (fu_chunk_array_go 2048 w.firmware_size_max 0
        (List.replicate w.firmware_size_max 0)) 0) w1 with ⟨e | d, w2⟩ <;> simp

theorem cmds_of_append (a b : List Step) : cmds_of (a ++ b) = cmds_of a ++ cmds_of b := by
  induction a with
  | nil => rfl
  | cons st rest ih => cases st <;> simp [cmds_of, ih]

theorem cmds_of_write_loop (len : Nat) (chunks : List Chunk) : ∀ i : Nat,
    cmds_of (write_loop_steps len chunks i) = (chunks.map Chunk.data).map Cmd.write_block := by
  induction chunks with
  | nil =>
    intro i
    rfl
  | cons chk rest ih =>
    intro i
    simp [write_loop_steps, cmds_of, ih]

theorem cmds_of_dump_loop (len : Nat) (chunks : List Chunk) : ∀ i : Nat,
    cmds_of (dump_loop_steps len chunks i) =
      chunks.map (fun chk => Cmd.read_block chk.data_sz) := by
  induction chunks with
  | nil =>
    intro i
    rfl
  | cons chk rest ih =>
    intro i
    simp [dump_loop_steps, cmds_of, ih]

/-- The commands among the steps before the verify step are `write_cmds`. -/
theorem cmds_of_write_steps (fw : List Nat) : cmds_of (write_steps fw) = write_cmds fw := by
  unfold write_steps write_cmds
  rcases fu_chunk_array_new fw 2048 with _ | ⟨chk0, rest⟩
  · rfl
  · simp [cmds_of, cmds_of_append, cmds_of_write_loop]

/-- The commands among the steps of a dump are `dump_cmds`. -/
theorem cmds_of_dump_steps (fwsz : Nat) : cmds_of (dump_steps fwsz) = dump_cmds fwsz := by
  unfold dump_steps dump_cmds
  simp [cmds_of, cmds_of_dump_loop]

theorem fits_of_le {x : Cmd} (h : x.payload ≤ 2048) : x.fits := by
  unfold Cmd.fits G_MAXSIZE
  omega

theorem write_cmds_fit (fw : List Nat) : ∀ x ∈ write_cmds fw, x.fits := by
  intro x hx
  apply fits_of_le
  unfold write_cmds at hx
  have hsz := chunks_sizes fw
  rcases hch : fu_chunk_array_new fw 2048 with _ | ⟨chk0, rest⟩
  · simp [hch] at hx
  · rw [hch] at hx hsz
    simp only [List.map_cons, List.cons_append, List.nil_append, List.mem_cons, List.mem_append,
      List.mem_map, List.mem_singleton, List.not_mem_nil, or_false] at hx
    rcases hx with h | h | h | h | h | h
    · simp [h, Cmd.payload]
    · simp [h, Cmd.payload]
    · have := (hsz chk0 (by simp)).2
      simp [h, Cmd.payload, this]
    · obtain ⟨d, ⟨chk, hmem, hd⟩, hx⟩ := h
      have := (hsz chk (by simp [hmem])).2
      simp [← hx, ← hd, Cmd.payload, this]
    · simp [h, Cmd.payload]
    · have := (hsz chk0 (by simp)).2
      simp [h, Cmd.payload, this]

theorem dump_cmds_fit (fwsz : Nat) : ∀ x ∈ dump_cmds fwsz, x.fits := by
  intro x hx
  apply fits_of_le
  unfold dump_cmds at hx
  rcases List.mem_cons.mp hx with h | h
  · simp [h, Cmd.payload]
  · obtain ⟨chk, hmem, hd⟩ := List.mem_map.mp h
    have := (chunks_sizes _ chk hmem).2
    simp [← hd, Cmd.payload, Chunk.data_sz, this]

theorem new_log_of_grows {σ : Type} {w1 w2 : World σ} {es : List Event}
    (h : w1.grows w2 es) : new_log w1 w2 = es := by
  unfold new_log
  rw [h.1]
  exact List.drop_left _ _

theorem calls_append (a b : List Event) : calls (a ++ b) = calls a ++ calls b := by
  simp [calls, List.filterMap_append]

theorem sent_append (a b : List Event) : sent (a ++ b) = sent a ++ sent b := by
  simp [sent, calls_append]

theorem calls_request_event (r : Request) (err : Option Nat) (rest : List Event) :
    calls (r.event err :: rest) = (r, err) :: calls rest := by
  unfold Request.event
  by_cases hg : r.get = true
  · have : r = ⟨true, r.value, r.buf, r.timeout⟩ := by rw [← hg]
    simp [calls, hg, Event.call, List.filterMap_cons, ← this]
  · have hf : r.get = false := by simpa using hg
    have : r = ⟨false, r.value, r.buf, r.timeout⟩ := by rw [← hf]
    simp [calls, hf, Event.call, List.filterMap_cons, ← this]

theorem calls_settle (x : Cmd) : calls x.settle = [] := by
  cases x <;> rfl

/-- The report calls logged by steps that all succeed: one per command, in order. -/
theorem calls_events (c : Consts) (script : List Step) :
    calls (script.flatMap (Step.events c)) =
      (cmds_of script).map (fun x => (x.request c, none)) := by
  induction script with
  | nil => rfl
  | cons st rest ih =>
    cases st with
    | cmd x =>
      simp only [List.flatMap_cons, Step.events, List.cons_append, calls_request_event,
        calls_append, calls_settle, List.nil_append, ih, cmds_of, List.map_cons]
    | status st =>
      simp only [List.flatMap_cons, Step.events, calls_append, ih, cmds_of]
      rfl
    | progress i n =>
      simp only [List.flatMap_cons, Step.events, calls_append, ih, cmds_of]
      rfl

/-- A run of steps in which every logged report call succeeded ran every step. -/
theorem exec_of_all_succeeded {σ : Type} (T : Transport σ) (c : Consts) (script : List Step)
    (w : World σ) (hfit : ∀ x ∈ cmds_of script, x.fits)
    (hok : all_succeeded (new_log w (exec T c script w).2)) :
    ∃ d w2, exec T c script w = (.ok d, w2) ∧
      w.grows w2 (script.flatMap (Step.events c)) ∧
      ask_all T c (cmds_of script) w.hid = some (d, w2.hid) := by
  rcases exec_cases T c script w hfit with h | ⟨pre, x, post, e, w2, -, hr, hg, -, -⟩
  · exact h
  · exfalso
    rw [hr] at hok
    simp only [new_log_of_grows hg] at hok
    have := hok (x.request c, some e) (by
      rw [calls_append, calls_request_event]
      simp)
    simp at this

/-- A run of steps over a transport that answers each of its requests with success ran
every step. -/
theorem exec_of_ask_all {σ : Type} (T : Transport σ) (c : Consts) (script : List Step)
    (w : World σ) (hfit : ∀ x ∈ cmds_of script, x.fits)
    (hok : ask_all T c (cmds_of script) w.hid ≠ none) :
    ∃ d w2, exec T c script w = (.ok d, w2) ∧
      w.grows w2 (script.flatMap (Step.events c)) ∧
      ask_all T c (cmds_of script) w.hid = some (d, w2.hid) := by
  rcases exec_cases T c script w hfit with h | ⟨pre, x, post, e, w2, -, -, -, hT, -⟩
  · exact h
  · exact absurd hT hok

theorem ask_all_reliable {σ : Type} (T : Transport σ) (c : Consts) (hT : T.reliable)
    (xs : List Cmd) : ∀ s : σ, ask_all T c xs s ≠ none := by
  induction xs with
  | nil =>
    intro s
    simp [ask_all]
  | cons x rest ih =>
    intro s
    have hask : ((x.request c).ask T s).1 = none := by
      unfold Request.ask
      split
      · exact hT.2 _ _ _ _
      · exact hT.1 _ _ _ _
    rcases hq : (x.request c).ask T s with ⟨o, reply, s1⟩
    rw [hq] at hask
    simp only at hask
    subst hask
    simp only [ask_all, hq]
    rcases hr : ask_all T c rest s1 with _ | ⟨d, s2⟩
    · exact absurd hr (ih s1)
    · simp

/-- The events of steps that all succeed hold no failed call. -/
theorem all_succeeded_events (c : Consts) (script : List Step) :
    all_succeeded (script.flatMap (Step.events c)) := by
  intro p hp
  rw [calls_events] at hp
  obtain ⟨x, -, hx⟩ := List.mem_map.mp hp
  rw [← hx]

theorem Cmd.result_length (c : Consts) (x : Cmd) (reply : List Nat) :
    (x.result c reply).length = x.reads := by
  cases x <;> simp [Cmd.result, Cmd.reads, Cmd.request, overwrite_length]

/-- The bytes handed back by a list of commands that all succeed: as many as the commands
read. -/
theorem ask_all_length {σ : Type} (T : Transport σ) (c : Consts) (xs : List Cmd) :
    ∀ (s s2 : σ) (d : List Nat), ask_all T c xs s = some (d, s2) →
      d.length = (xs.map Cmd.reads).sum := by
  induction xs with
  | nil =>
    intro s s2 d h
    simp only [ask_all, Option.some.injEq, Prod.mk.injEq] at h
    simp [← h.1]
  | cons x rest ih =>
    intro s s2 d h
    simp only [ask_all] at h
    rcases hq : (x.request c).ask T s with ⟨_ | e, reply, s1⟩
    · rw [hq] at h
      simp only at h
      rcases hr : ask_all T c rest s1 with _ | ⟨d1, s3⟩
      · rw [hr] at h
        simp at h
      · rw [hr] at h
        simp only [Option.some.injEq, Prod.mk.injEq] at h
        rw [← h.1, List.length_append, Cmd.result_length, ih s1 s3 d1 hr]
        simp
    · rw [hq] at h
      simp at h

theorem write_cmds_reads (fw : List Nat) : ((write_cmds fw).map Cmd.reads).sum = 0 := by
  have hall : ∀ x ∈ write_cmds fw, x.reads = 0 := by
    intro x hx
    unfold write_cmds at hx
    rcases hm : (fu_chunk_array_new fw 2048).map Chunk.data with _ | ⟨b0, rest⟩
    · simp [hm] at hx
    · rw [hm] at hx
      simp only [List.cons_append, List.nil_append, List.mem_cons, List.mem_append,
        List.mem_map, List.mem_singleton, List.not_mem_nil, or_false] at hx
      rcases hx with h | h | h | h | h | h
      · simp [h, Cmd.reads]
      · simp [h, Cmd.reads]
      · simp [h, Cmd.reads]
      · obtain ⟨d, -, hd⟩ := h
        simp [← hd, Cmd.reads]
      · simp [h, Cmd.reads]
      · simp [h, Cmd.reads]
  apply List.sum_eq_zero
  intro n hn
  obtain ⟨x, hx, hxn⟩ := List.mem_map.mp hn
  rw [← hxn]
  exact hall x hx

/-- The reads of a dump add up to the maximum firmware size. -/
theorem dump_cmds_reads (fwsz : Nat) : ((dump_cmds fwsz).map Cmd.reads).sum = fwsz := by
  have h := congrArg List.length (chunks_flatten (List.replicate fwsz 0))
  rw [List.length_flatten, List.length_replicate] at h
  unfold dump_cmds
  simp only [List.map_cons, List.map_map, List.sum_cons, Cmd.reads, Nat.zero_add]
  rw [List.map_map] at h
  exact h

/-- A run of `write_firmware` on an image with at least one byte: the steps before the
verify step, then the steps of the dump, then the compare. -/
theorem write_firmware_eq {σ : Type} (T : Transport σ) (c : Consts) (fw : List Nat)
    (w : World σ) (hne : fw ≠ []) :
    fu_hailuck_kbd_device_write_firmware T c (some fw) w =
      match exec T c (write_steps fw ++ dump_steps w.firmware_size_max) w with
      | (.error e, w2) => (.error e, w2)
      | (.ok d, w2) => (fu_common_bytes_compare fw d, w2) := by
  have hch := chunks_of_nonempty fw hne
  have h0 : (⟨0, fw.take 2048⟩ : Chunk).data ≠ [] := by
    cases fw with
    | nil => exact absurd rfl hne
    | cons a t => simp
  have hfit : ∀ x ∈ cmds_of (write_steps fw), x.fits := by
    rw [cmds_of_write_steps]
    exact write_cmds_fit fw
  simp only [fu_hailuck_kbd_device_write_firmware, before_verify_eq T c fw w _ _ hch h0,
    exec_append]
  rcases exec_cases T c (write_steps fw) w hfit with
    ⟨d, w1, hr, hg, hT⟩ | ⟨pre, x, post, e, w1, -, hr, -, -, -⟩
  · have hd : d = [] := by
      apply List.length_eq_zero.mp
      rw [ask_all_length T c _ _ _ _ hT, cmds_of_write_steps, write_cmds_reads]
    subst hd
    rw [hr]
    simp only [discard, dump_firmware_eq, hg.2.1]
    rcases exec T c (dump_steps w.firmware_size_max) w1 with ⟨e | d2, w2⟩ <;> simp
  · rw [hr]
    simp [discard]

theorem sent_events (c : Consts) (script : List Step) :
    sent (script.flatMap (Step.events c)) = (cmds_of script).map (Cmd.request c) := by
  simp [sent, calls_events, List.map_map, Function.comp_def]

theorem quiet_reliable : quiet_transport.reliable := by
  constructor <;> intros <;> rfl

/-- The part of `write_firmware` before the verify step, in a run in which every report
call succeeds: it returns success and its log is that of the steps of `write_steps`. -/
theorem before_verify_all_ok {σ : Type} (T : Transport σ) (c : Consts) (fw : List Nat)
    (w : World σ) (hne : fw ≠ [])
    (hok : all_succeeded
      (new_log w (fu_hailuck_kbd_device_write_firmware_before_verify T c fw w).2)) :
    ∃ w1, fu_hailuck_kbd_device_write_firmware_before_verify T c fw w = (.ok (), w1) ∧
      w.grows w1 ((write_steps fw).flatMap (Step.events c)) ∧
      ask_all T c (write_cmds fw) w.hid = some ([], w1.hid) := by
  have hch := chunks_of_nonempty fw hne
  have h0 : (⟨0, fw.take 2048⟩ : Chunk).data ≠ [] := by
    cases fw with
    | nil => exact absurd rfl hne
    | cons a t => simp
  have hfit : ∀ x ∈ cmds_of (write_steps fw), x.fits := by
    rw [cmds_of_write_steps]
    exact write_cmds_fit fw
  have heq := before_verify_eq T c fw w _ _ hch h0
  rw [heq] at hok ⊢
  have hok2 : all_succeeded (new_log w (exec T c (write_steps fw) w).2) := by
    rcases hx : exec T c (write_steps fw) w with ⟨e | d, w1⟩ <;> simpa [hx, discard] using hok
  obtain ⟨d, w1, hr, hg, hT⟩ := exec_of_all_succeeded T c _ w hfit hok2
  have hd : d = [] := by
    apply List.length_eq_zero.mp
    rw [ask_all_length T c _ _ _ _ hT, cmds_of_write_steps, write_cmds_reads]
  subst hd
  refine ⟨w1, by simp [hr, discard], hg, ?_⟩
  rw [← cmds_of_write_steps]
  exact hT

/-- The blocks of a 4096-byte image: its two halves. -/
theorem chunks_4096 (fw : List Nat) (h : fw.length = 4096) :
    (fu_chunk_array_new fw 2048).map Chunk.data = [fw.take 2048, fw.drop 2048] := by
  have hne : fw ≠ [] := by
    intro h0
    rw [h0] at h
    simp at h
  have hd : fw.drop 2048 ≠ [] := by
    intro h0
    have := congrArg List.length h0
    rw [List.length_drop, h] at this
    simp at this
  have hdd : (fw.drop 2048).drop 2048 = [] := by
    apply List.length_eq_zero.mp
    rw [List.length_drop, List.length_drop, h]
  have htk : (fw.drop 2048).take 2048 = fw.drop 2048 := by
    apply List.take_of_length_le
    rw [List.length_drop, h]
  rw [chunks_of_nonempty fw hne, h]
  rw [show (4096 - 1 : Nat) = 4094 + 1 from rfl, chunk_go_cons _ _ _ _ hd, hdd, chunk_go_nil, htk]
  rfl

/-- C1: for every non-empty image of length below 65536, in a run in which every report
call succeeds, the requests sent before the verify step are, in order: erase,
begin_write(L), write_block of block 0 with byte 0 replaced by 0x00 (same length, other
bytes unchanged), write_block of blocks 1 to n-1, begin_write(L), write_block of the
unmodified block 0; the blocks partition the image in order into pieces of at most 2048
bytes, and for a 4096-byte image they are its two halves. -/
theorem C1_commands_before_verify {σ : Type} (T : Transport σ) (c : Consts) (fw : List Nat)
    (w : World σ) (hne : fw ≠ []) (hlen : fw.length < 65536)
    (hok : all_succeeded
      (new_log w (fu_hailuck_kbd_device_write_firmware_before_verify T c fw w).2)) :
    ∃ b0 rest corrupted,
      (fu_chunk_array_new fw 2048).map Chunk.data = b0 :: rest ∧
      (b0 :: rest).flatten = fw ∧ (∀ b ∈ b0 :: rest, b.length ≤ 2048) ∧
      corrupted.length = b0.length ∧ corrupted[0]? = some 0x00 ∧
      (∀ i, 0 < i → corrupted[i]? = b0[i]?) ∧
      sent (new_log w (fu_hailuck_kbd_device_write_firmware_before_verify T c fw w).2) =
        ([Cmd.erase, Cmd.begin_write fw.length, Cmd.write_block corrupted] ++
          rest.map Cmd.write_block ++
          [Cmd.begin_write fw.length, Cmd.write_block b0]).map (Cmd.request c) ∧
      (fw.length = 4096 → b0 = fw.take 2048 ∧ rest = [fw.drop 2048]) := by
  obtain ⟨w1, hr, hg, -⟩ := before_verify_all_ok T c fw w hne hok
  rcases hm : (fu_chunk_array_new fw 2048).map Chunk.data with _ | ⟨b0, rest⟩
  · have := chunks_of_nonempty fw hne
    rw [this] at hm
    simp at hm
  have hb0 : b0 ≠ [] := by
    have := chunks_of_nonempty fw hne
    rw [this] at hm
    simp only [List.map_cons, List.cons.injEq] at hm
    rw [← hm.1]
    cases fw with
    | nil => exact absurd rfl hne
    | cons a t => simp
  refine ⟨b0, rest, b0.set 0 0x00, rfl, ?_, ?_, ?_, ?_, ?_, ?_, ?_⟩
  · rw [← hm]
    exact chunks_flatten fw
  · intro b hb
    rw [← hm] at hb
    obtain ⟨chk, hchk, hd⟩ := List.mem_map.mp hb
    rw [← hd]
    exact (chunks_sizes fw chk hchk).2
  · simp
  · cases b0 with
    | nil => exact absurd rfl hb0
    | cons a t => simp
  · intro i hi
    rw [List.getElem?_set_ne (by omega)]
  · rw [hr, new_log_of_grows hg, sent_events, cmds_of_write_steps]
    unfold write_cmds
    rw [hm, Nat.mod_eq_of_lt hlen]
  · intro h4
    have := chunks_4096 fw h4
    rw [hm] at this
    simp only [List.cons.injEq] at this
    exact ⟨this.1, this.2⟩

/-- C1 on a 3-byte image over the quiet transport. -/
theorem C1_commands_before_verify_witness :
    ∃ b0 rest corrupted,
      (fu_chunk_array_new [1, 2, 3] 2048).map Chunk.data = b0 :: rest ∧
      (b0 :: rest).flatten = [1, 2, 3] ∧ (∀ b ∈ b0 :: rest, b.length ≤ 2048) ∧
      corrupted.length = b0.length ∧ corrupted[0]? = some 0x00 ∧
      (∀ i, 0 < i → corrupted[i]? = b0[i]?) ∧
      sent (new_log (fresh_world ()) (fu_hailuck_kbd_device_write_firmware_before_verify
          quiet_transport sample_consts [1, 2, 3] (fresh_world ())).2) =
        ([Cmd.erase, Cmd.begin_write [1, 2, 3].length, Cmd.write_block corrupted] ++
          rest.map Cmd.write_block ++
          [Cmd.begin_write [1, 2, 3].length, Cmd.write_block b0]).map
            (Cmd.request sample_consts) ∧
      ([1, 2, 3].length = 4096 → b0 = [1, 2, 3].take 2048 ∧ rest = [[1, 2, 3].drop 2048]) :=
  C1_commands_before_verify quiet_transport sample_consts [1, 2, 3] (fresh_world ())
    (by decide) (by decide) (by decide)

/-- C2 (evaluated at the image `[0x00, 0x11, 0x22]`): the payload sent in the
CorruptedFirstWrite step is the original block 0 itself, so its byte at offset 0 does not
differ from the original one. -/
theorem C2_zero_first_byte_is_not_corrupted :
    (fu_chunk_array_new [0x00, 0x11, 0x22] 2048).map Chunk.data = [[0x00, 0x11, 0x22]] ∧
    sent (new_log (fresh_world ()) (fu_hailuck_kbd_device_write_firmware_before_verify
        quiet_transport sample_consts [0x00, 0x11, 0x22] (fresh_world ())).2) =
      [Cmd.erase, Cmd.begin_write 3, Cmd.write_block [0x00, 0x11, 0x22],
        Cmd.begin_write 3, Cmd.write_block [0x00, 0x11, 0x22]].map
          (Cmd.request sample_consts) := by
  decide

theorem compare_ok_iff (a b : List Nat) : fu_common_bytes_compare a b = .ok () ↔ a = b := by
  unfold fu_common_bytes_compare
  constructor
  · intro h
    split at h
    · simp at h
    · split at h
      · assumption
      · simp at h
  · intro h
    subst h
    simp

theorem compare_cases (a b : List Nat) :
    fu_common_bytes_compare a b = .ok () ∨ fu_common_bytes_compare a b = .error .compare_failed := by
  unfold fu_common_bytes_compare
  split
  · right
    rfl
  · split
    · left
      rfl
    · right
      rfl

/-- A run of `write_firmware` in which every report call succeeds: the part before the
verify step succeeds, the dump succeeds and hands back as many bytes as the maximum
firmware size, and the result is that of the compare. -/
theorem write_firmware_all_ok {σ : Type} (T : Transport σ) (c : Consts) (fw : List Nat)
    (w : World σ) (hne : fw ≠ [])
    (hok : all_succeeded (new_log w (fu_hailuck_kbd_device_write_firmware T c (some fw) w).2)) :
    ∃ w1 d w2, fu_hailuck_kbd_device_write_firmware_before_verify T c fw w = (.ok (), w1) ∧
      fu_hailuck_kbd_device_dump_firmware T c w1 = (.ok d, w2) ∧
      fu_hailuck_kbd_device_write_firmware T c (some fw) w = (fu_common_bytes_compare fw d, w2) ∧
      w.grows w1 ((write_steps fw).flatMap (Step.events c)) ∧
      w1.grows w2 ((dump_steps w.firmware_size_max).flatMap (Step.events c)) ∧
      d.length = w.firmware_size_max ∧
      ask_all T c (write_cmds fw) w.hid = some ([], w1.hid) ∧
      ask_all T c (dump_cmds w.firmware_size_max) w1.hid = some (d, w2.hid) := by
  have hch := chunks_of_nonempty fw hne
  have h0 : (⟨0, fw.take 2048⟩ : Chunk).data ≠ [] := by
    cases fw with
    | nil => exact absurd rfl hne
    | cons a t => simp
  have hfit : ∀ x ∈ cmds_of (write_steps fw), x.fits := by
    rw [cmds_of_write_steps]
    exact write_cmds_fit fw
  have hfit2 : ∀ x ∈ cmds_of (dump_steps w.firmware_size_max), x.fits := by
    rw [cmds_of_dump_steps]
    exact dump_cmds_fit _
  have hbv := before_verify_eq T c fw w _ _ hch h0
  simp only [fu_hailuck_kbd_device_write_firmware] at hok ⊢
  rcases exec_cases T c (write_steps fw) w hfit with
    ⟨d1, w1, hr, hg, hT⟩ | ⟨pre, x, post, e, w1, -, hr, hg, -, -⟩
  · have hd1 : d1 = [] := by
      apply List.length_eq_zero.mp
      rw [ask_all_length T c _ _ _ _ hT, cmds_of_write_steps, write_cmds_reads]
    subst hd1
    have hbv2 : fu_hailuck_kbd_device_write_firmware_before_verify T c fw w = (.ok (), w1) := by
      rw [hbv, hr]
      rfl
    rw [hbv2] at hok ⊢
    simp only [] at hok ⊢
    have hfs : w1.firmware_size_max = w.firmware_size_max := hg.2.1
    rw [dump_firmware_eq, hfs] at hok ⊢
    rcases exec_cases T c (dump_steps w.firmware_size_max) w1 hfit2 with
      ⟨d, w2, hr2, hg2, hT2⟩ | ⟨pre, x, post, e, w2, -, hr2, hg2, -, -⟩
    · rw [hr2]
      refine ⟨w1, d, w2, rfl, by rw [dump_firmware_eq, hfs, hr2], rfl, hg, hg2, ?_, ?_, ?_⟩
      · rw [ask_all_length T c _ _ _ _ hT2, cmds_of_dump_steps, dump_cmds_reads]
      · rw [← cmds_of_write_steps]
        exact hT
      · rw [← cmds_of_dump_steps]
        exact hT2
    · exfalso
      rw [hr2] at hok
      simp only [new_log_of_grows (World.grows_trans hg hg2)] at hok
      have := hok (x.request c, some e) (by
        rw [calls_append, calls_append, calls_request_event]
        simp)
      simp at this
  · exfalso
    have hbv2 : fu_hailuck_kbd_device_write_firmware_before_verify T c fw w =
        (.error (.transport e), w1) := by
      rw [hbv, hr]
      rfl
    rw [hbv2] at hok
    simp only [new_log_of_grows hg] at hok
    have := hok (x.request c, some e) (by
      rw [calls_append, calls_request_event]
      simp)
    simp at this

/-- Over a transport that never fails, every report call of a run of `write_firmware`
succeeds. -/
theorem write_firmware_reliable {σ : Type} (T : Transport σ) (c : Consts) (fw : List Nat)
    (w : World σ) (hne : fw ≠ []) (hT : T.reliable) :
    all_succeeded (new_log w (fu_hailuck_kbd_device_write_firmware T c (some fw) w).2) := by
  have hfit : ∀ x ∈ cmds_of (write_steps fw ++ dump_steps w.firmware_size_max), x.fits := by
    rw [cmds_of_append, cmds_of_write_steps, cmds_of_dump_steps]
    intro x hx
    rcases List.mem_append.mp hx with h | h
    · exact write_cmds_fit fw x h
    · exact dump_cmds_fit _ x h
  obtain ⟨d, w2, hr, hg, -⟩ := exec_of_ask_all T c _ w hfit (ask_all_reliable T c hT _ _)
  rw [write_firmware_eq T c fw w hne, hr]
  simp only [new_log_of_grows hg]
  exact all_succeeded_events c _

/-- The sizes of the blocks depend only on the length of the buffer. -/
theorem chunk_go_sizes_eq (p : Nat) : ∀ (fuel o1 o2 : Nat) (a b : List Nat),
    a.length = b.length →
    (fu_chunk_array_go p fuel o1 a).map Chunk.data_sz =
      (fu_chunk_array_go p fuel o2 b).map Chunk.data_sz := by
  intro fuel
  induction fuel with
  | zero =>
    intro o1 o2 a b _
    rfl
  | succ fuel ih =>
    intro o1 o2 a b h
    by_cases ha : a = []
    · have hb : b = [] := by
        apply List.length_eq_zero.mp
        rw [← h, ha]
        rfl
      simp [fu_chunk_array_go, ha, hb]
    · have hb : b ≠ [] := by
        intro hb
        apply ha
        apply List.length_eq_zero.mp
        rw [h, hb]
        rfl
      rw [chunk_go_cons _ _ _ _ ha, chunk_go_cons _ _ _ _ hb]
      simp only [List.map_cons, Chunk.data_sz, List.length_take, h]
      rw [ih (o1 + p) (o2 + p) (a.drop p) (b.drop p) (by simp [h])]

theorem chunks_sizes_eq (a b : List Nat) (h : a.length = b.length) :
    (fu_chunk_array_new a 2048).map Chunk.data_sz =
      (fu_chunk_array_new b 2048).map Chunk.data_sz := by
  unfold fu_chunk_array_new
  rw [if_neg (by decide), if_neg (by decide), h]
  exact chunk_go_sizes_eq 2048 _ _ _ a b h

/-- A buffer of 0x4000 bytes has 8 blocks of 2048 bytes. -/
theorem chunks_sizes_0x4000 :
    (fu_chunk_array_new (List.replicate 0x4000 0) 2048).map Chunk.data_sz =
      List.replicate 8 2048 := by
  rw [chunks_replicate]
  have hne : ∀ n, List.replicate (n + 1) 0 ≠ ([] : List Nat) := by
    intro n
    simp
  have step : ∀ (fuel o m : Nat), fu_chunk_array_go 2048 (fuel + 1) o (List.replicate (m + 1) 0) =
      { offset := o, data := List.replicate (min 2048 (m + 1)) 0 } ::
        fu_chunk_array_go 2048 fuel (o + 2048) (List.replicate (m + 1 - 2048) 0) := by
    intro fuel o m
    rw [chunk_go_cons _ _ _ _ (hne m), List.take_replicate, List.drop_replicate]
  rw [show (0x4000 : Nat) = 16383 + 1 from rfl, step, show (16383 + 1 - 2048 : Nat) = 14335 + 1 from rfl,
    step, show (14335 + 1 - 2048 : Nat) = 12287 + 1 from rfl, step,
    show (12287 + 1 - 2048 : Nat) = 10239 + 1 from rfl, step,
    show (10239 + 1 - 2048 : Nat) = 8191 + 1 from rfl, step,
    show (8191 + 1 - 2048 : Nat) = 6143 + 1 from rfl, step,
    show (6143 + 1 - 2048 : Nat) = 4095 + 1 from rfl, step,
    show (4095 + 1 - 2048 : Nat) = 2047 + 1 from rfl, step,
    show (2047 + 1 - 2048 : Nat) = 0 from rfl]
  simp only [List.replicate_zero, chunk_go_nil, List.map_cons, List.map_nil, Chunk.data_sz,
    List.length_replicate]
  decide

/-- The commands of a dump when the maximum firmware size is 0x4000. -/
theorem dump_cmds_0x4000 :
    dump_cmds 0x4000 = Cmd.begin_read 0x4000 :: List.replicate 8 (Cmd.read_block 2048) := by
  have h := chunks_sizes_0x4000
  unfold dump_cmds
  have hm : (fu_chunk_array_new (List.replicate 0x4000 0) 2048).map
      (fun chk => Cmd.read_block chk.data_sz) =
      ((fu_chunk_array_new (List.replicate 0x4000 0) 2048).map Chunk.data_sz).map
        Cmd.read_block := by
    rw [List.map_map]
    rfl
  rw [hm, h]
  rfl

theorem image_4096_ne_nil : image_4096 ≠ [] := by
  intro h
  have := congrArg List.length h
  simp only [image_4096, List.length_replicate, List.length_nil] at this
  omega

/-- The requests of the verify step of `write_firmware`, in a run in which every report
call succeeds: those of a dump of the device's maximum firmware size. -/
theorem verify_phase_sent {σ : Type} (T : Transport σ) (c : Consts) (fw : List Nat)
    (w : World σ) (hne : fw ≠ [])
    (hok : all_succeeded (new_log w (fu_hailuck_kbd_device_write_firmware T c (some fw) w).2)) :
    sent (new_log (fu_hailuck_kbd_device_write_firmware_before_verify T c fw w).2
        (fu_hailuck_kbd_device_write_firmware T c (some fw) w).2) =
      (dump_cmds w.firmware_size_max).map (Cmd.request c) := by
  obtain ⟨w1, d, w2, h1, -, h3, -, hg2, -, -, -⟩ := write_firmware_all_ok T c fw w hne hok
  rw [h1, h3]
  simp only [new_log_of_grows hg2, sent_events, cmds_of_dump_steps]

/-- C4 (amended): in a run of `write_firmware` on a non-empty image in which every report
call succeeds, the verify step sends begin_read(S mod 65536) for the device's maximum
firmware size S (0x4000 after init), not the image length, then one read_block per block of
an S-byte buffer; the reads add up to S bytes and S bytes are read back. With S = 0x4000
these are begin_read(0x4000) and 8 reads of 2048 bytes; they are begin_read(L) over the
chunk boundaries of the image when L = S. -/
theorem C4_verify_reads_maximum_size {σ : Type} (T : Transport σ) (c : Consts)
    (fw : List Nat) (w : World σ) (hne : fw ≠ [])
    (hok : all_succeeded (new_log w (fu_hailuck_kbd_device_write_firmware T c (some fw) w).2)) :
    ∃ w1 fw_new w2,
      fu_hailuck_kbd_device_write_firmware_before_verify T c fw w = (.ok (), w1) ∧
      fu_hailuck_kbd_device_dump_firmware T c w1 = (.ok fw_new, w2) ∧
      (fu_hailuck_kbd_device_write_firmware T c (some fw) w).2 = w2 ∧
      sent (new_log w1 w2) =
        (Cmd.begin_read (w.firmware_size_max % 65536) ::
          (fu_chunk_array_new (List.replicate w.firmware_size_max 0) 2048).map
            (fun chk => Cmd.read_block chk.data_sz)).map (Cmd.request c) ∧
      ((fu_chunk_array_new (List.replicate w.firmware_size_max 0) 2048).map
        Chunk.data_sz).sum = w.firmware_size_max ∧
      fw_new.length = w.firmware_size_max ∧
      (w.firmware_size_max = 0x4000 → sent (new_log w1 w2) =
        (Cmd.begin_read 0x4000 :: List.replicate 8 (Cmd.read_block 2048)).map (Cmd.request c)) ∧
      (fw.length = w.firmware_size_max → w.firmware_size_max < 65536 →
        sent (new_log w1 w2) =
          (Cmd.begin_read fw.length :: (fu_chunk_array_new fw 2048).map
            (fun chk => Cmd.read_block chk.data_sz)).map (Cmd.request c)) := by
  obtain ⟨w1, d, w2, h1, h2, h3, -, hg2, hd, -, -⟩ := write_firmware_all_ok T c fw w hne hok
  have hsent : sent (new_log w1 w2) = (dump_cmds w.firmware_size_max).map (Cmd.request c) := by
    simp only [new_log_of_grows hg2, sent_events, cmds_of_dump_steps]
  refine ⟨w1, d, w2, h1, h2, by rw [h3], hsent, ?_, hd, ?_, ?_⟩
  · have h := congrArg List.length (chunks_flatten (List.replicate w.firmware_size_max 0))
    rw [List.length_flatten, List.length_replicate, List.map_map] at h
    exact h
  · intro hS
    rw [hsent, hS, dump_cmds_0x4000]
  · intro hL hS
    rw [hsent]
    unfold dump_cmds
    have hsz := chunks_sizes_eq (List.replicate w.firmware_size_max 0) fw (by simp [hL])
    have hm : ∀ l : List Chunk, l.map (fun chk => Cmd.read_block chk.data_sz) =
        (l.map Chunk.data_sz).map Cmd.read_block := by
      intro l
      rw [List.map_map]
      rfl
    rw [hm, hm, hsz, Nat.mod_eq_of_lt hS, hL]

/-- C4 (amended) on a 3-byte image over the quiet transport, right after init. -/
theorem C4_verify_reads_maximum_size_witness :
    ∃ w1 fw_new w2,
      fu_hailuck_kbd_device_write_firmware_before_verify quiet_transport sample_consts
        [1, 2, 3] (fresh_world ()) = (.ok (), w1) ∧
      fu_hailuck_kbd_device_dump_firmware quiet_transport sample_consts w1 = (.ok fw_new, w2) ∧
      (fu_hailuck_kbd_device_write_firmware quiet_transport sample_consts (some [1, 2, 3])
        (fresh_world ())).2 = w2 ∧
      sent (new_log w1 w2) =
        (Cmd.begin_read ((fresh_world ()).firmware_size_max % 65536) ::
          (fu_chunk_array_new (List.replicate (fresh_world ()).firmware_size_max 0) 2048).map
            (fun chk => Cmd.read_block chk.data_sz)).map (Cmd.request sample_consts) ∧
      ((fu_chunk_array_new (List.replicate (fresh_world ()).firmware_size_max 0) 2048).map
        Chunk.data_sz).sum = (fresh_world ()).firmware_size_max ∧
      fw_new.length = (fresh_world ()).firmware_size_max ∧
      ((fresh_world ()).firmware_size_max = 0x4000 → sent (new_log w1 w2) =
        (Cmd.begin_read 0x4000 :: List.replicate 8 (Cmd.read_block 2048)).map
          (Cmd.request sample_consts)) ∧
      ([1, 2, 3].length = (fresh_world ()).firmware_size_max →
        (fresh_world ()).firmware_size_max < 65536 →
        sent (new_log w1 w2) =
          (Cmd.begin_read [1, 2, 3].length :: (fu_chunk_array_new [1, 2, 3] 2048).map
            (fun chk => Cmd.read_block chk.data_sz)).map (Cmd.request sample_consts)) :=
  C4_verify_reads_maximum_size quiet_transport sample_consts [1, 2, 3] (fresh_world ())
    (by decide) (write_firmware_reliable quiet_transport sample_consts [1, 2, 3]
      (fresh_world ()) (by decide) quiet_reliable)

/-- C4 as stated fails on a 4096-byte image: after init the verify step of
`write_firmware` sends begin_read(16384) and 8 reads of 2048 bytes, not begin_read(4096)
and the 2 reads of the blocks written. -/
theorem C4_counterexample :
    sent (new_log (fu_hailuck_kbd_device_write_firmware_before_verify quiet_transport
          sample_consts image_4096 (fresh_world ())).2
        (fu_hailuck_kbd_device_write_firmware quiet_transport sample_consts (some image_4096)
          (fresh_world ())).2) =
      (Cmd.begin_read 16384 :: List.replicate 8 (Cmd.read_block 2048)).map
        (Cmd.request sample_consts) ∧
    sent (new_log (fu_hailuck_kbd_device_write_firmware_before_verify quiet_transport
          sample_consts image_4096 (fresh_world ())).2
        (fu_hailuck_kbd_device_write_firmware quiet_transport sample_consts (some image_4096)
          (fresh_world ())).2) ≠
      (Cmd.begin_read image_4096.length ::
        (fu_chunk_array_new image_4096 2048).map (fun chk => Cmd.read_block chk.data_sz)).map
          (Cmd.request sample_consts) := by
  have hs := verify_phase_sent quiet_transport sample_consts image_4096 (fresh_world ())
    image_4096_ne_nil (write_firmware_reliable quiet_transport sample_consts image_4096
      (fresh_world ()) image_4096_ne_nil quiet_reliable)
  have hS : (fresh_world ()).firmware_size_max = 0x4000 := rfl
  rw [hS, dump_cmds_0x4000] at hs
  refine ⟨hs, ?_⟩
  rw [hs]
  intro h
  have hh := congrArg List.head? h
  simp only [image_4096, List.length_replicate, List.map_cons, List.head?_cons, Cmd.request,
    short_frame, Option.some.injEq, Request.mk.injEq, List.cons.injEq] at hh
  omega

/-- C5: in a run of `write_firmware` on a non-empty image in which every report call
succeeds, the result is success exactly when the bytes read back by the verify step are
identical to the image; a difference at any byte position, or in length, is a compare
failure. -/
theorem C5_success_iff_readback_identical {σ : Type} (T : Transport σ) (c : Consts)
    (fw : List Nat) (w : World σ) (hne : fw ≠ [])
    (hok : all_succeeded (new_log w (fu_hailuck_kbd_device_write_firmware T c (some fw) w).2)) :
    ∃ w1 fw_new w2,
      fu_hailuck_kbd_device_write_firmware_before_verify T c fw w = (.ok (), w1) ∧
      fu_hailuck_kbd_device_dump_firmware T c w1 = (.ok fw_new, w2) ∧
      (fu_hailuck_kbd_device_write_firmware T c (some fw) w).2 = w2 ∧
      ((fu_hailuck_kbd_device_write_firmware T c (some fw) w).1 = .ok () ↔ fw_new = fw) ∧
      (fw_new ≠ fw →
        (fu_hailuck_kbd_device_write_firmware T c (some fw) w).1 = .error .compare_failed) ∧
      (∀ i : Nat, fw_new[i]? ≠ fw[i]? →
        (fu_hailuck_kbd_device_write_firmware T c (some fw) w).1 = .error .compare_failed) := by
  obtain ⟨w1, d, w2, h1, h2, h3, -, -, -, -, -⟩ := write_firmware_all_ok T c fw w hne hok
  have hiff : fu_common_bytes_compare fw d = .ok () ↔ d = fw := by
    rw [compare_ok_iff]
    exact eq_comm
  have hfail : d ≠ fw → fu_common_bytes_compare fw d = .error .compare_failed := by
    intro hd
    rcases compare_cases fw d with h | h
    · exact absurd (hiff.mp h) hd
    · exact h
  refine ⟨w1, d, w2, h1, h2, by rw [h3], by rw [h3]; exact hiff, by rw [h3]; exact hfail, ?_⟩
  intro i hi
  rw [h3]
  apply hfail
  intro hd
  apply hi
  rw [hd]

/-- C5 on a 3-byte image over the quiet transport, right after init. -/
theorem C5_success_iff_readback_identical_witness :
    ∃ w1 fw_new w2,
      fu_hailuck_kbd_device_write_firmware_before_verify quiet_transport sample_consts
        [1, 2, 3] (fresh_world ()) = (.ok (), w1) ∧
      fu_hailuck_kbd_device_dump_firmware quiet_transport sample_consts w1 = (.ok fw_new, w2) ∧
      (fu_hailuck_kbd_device_write_firmware quiet_transport sample_consts (some [1, 2, 3])
        (fresh_world ())).2 = w2 ∧
      ((fu_hailuck_kbd_device_write_firmware quiet_transport sample_consts (some [1, 2, 3])
        (fresh_world ())).1 = .ok () ↔ fw_new = [1, 2, 3]) ∧
      (fw_new ≠ [1, 2, 3] →
        (fu_hailuck_kbd_device_write_firmware quiet_transport sample_consts (some [1, 2, 3])
          (fresh_world ())).1 = .error .compare_failed) ∧
      (∀ i : Nat, fw_new[i]? ≠ [1, 2, 3][i]? →
        (fu_hailuck_kbd_device_write_firmware quiet_transport sample_consts (some [1, 2, 3])
          (fresh_world ())).1 = .error .compare_failed) :=
  C5_success_iff_readback_identical quiet_transport sample_consts [1, 2, 3] (fresh_world ())
    (by decide) (write_firmware_reliable quiet_transport sample_consts [1, 2, 3]
      (fresh_world ()) (by decide) quiet_reliable)

/-- The two outcomes of a run of `write_firmware` on a non-empty image: every command
succeeds and the result is that of the compare; or one command is the first to fail, its
request ends the log and the transport's error is returned. -/
theorem write_firmware_cases {σ : Type} (T : Transport σ) (c : Consts) (fw : List Nat)
    (w : World σ) (hne : fw ≠ []) :
    (∃ d w2, fu_hailuck_kbd_device_write_firmware T c (some fw) w =
          (fu_common_bytes_compare fw d, w2) ∧
        calls (new_log w w2) =
          (write_cmds fw ++ dump_cmds w.firmware_size_max).map (fun x => (x.request c, none)) ∧
        ask_all T c (write_cmds fw ++ dump_cmds w.firmware_size_max) w.hid =
          some (d, w2.hid)) ∨
    (∃ pre x post e w2, write_cmds fw ++ dump_cmds w.firmware_size_max = pre ++ x :: post ∧
        fu_hailuck_kbd_device_write_firmware T c (some fw) w = (.error (.transport e), w2) ∧
        calls (new_log w w2) =
          pre.map (fun x => (x.request c, none)) ++ [(x.request c, some e)] ∧
        ∃ d1 s1 reply, ask_all T c pre w.hid = some (d1, s1) ∧
          (x.request c).ask T s1 = (some e, reply, w2.hid)) := by
  have hfit : ∀ x ∈ cmds_of (write_steps fw ++ dump_steps w.firmware_size_max), x.fits := by
    rw [cmds_of_append, cmds_of_write_steps, cmds_of_dump_steps]
    intro x hx
    rcases List.mem_append.mp hx with h | h
    · exact write_cmds_fit fw x h
    · exact dump_cmds_fit _ x h
  rw [write_firmware_eq T c fw w hne]
  rcases exec_cases T c _ w hfit with
    ⟨d, w2, hr, hg, hT⟩ | ⟨pre, x, post, e, w2, hs, hr, hg, -, d1, s1, rp, ha, hb⟩
  · left
    refine ⟨d, w2, by rw [hr], ?_, ?_⟩
    · rw [new_log_of_grows hg, calls_events, cmds_of_append, cmds_of_write_steps,
        cmds_of_dump_steps]
    · rw [← cmds_of_write_steps, ← cmds_of_dump_steps, ← cmds_of_append]
      exact hT
  · right
    refine ⟨cmds_of pre, x, cmds_of post, e, w2, ?_, by rw [hr], ?_, d1, s1, rp, ha, hb⟩
    · rw [← cmds_of_write_steps, ← cmds_of_dump_steps, ← cmds_of_append, hs, cmds_of_append]
      rfl
    · rw [new_log_of_grows hg, calls_append, calls_events, calls_request_event]
      rfl

theorem take_map_request (c : Consts) (pre post : List Cmd) (x : Cmd) :
    ((pre ++ x :: post).map (Cmd.request c)).take (pre.length + 1) =
      pre.map (Cmd.request c) ++ [x.request c] := by
  rw [List.map_append, List.map_cons]
  have h : (pre.map (Cmd.request c) ++ x.request c :: post.map (Cmd.request c)) =
      (pre.map (Cmd.request c) ++ [x.request c]) ++ post.map (Cmd.request c) := by simp
  rw [h, List.take_left' (by simp)]

/-- C6: in a run of `write_firmware` on a non-empty image, when report call number `k`
fails with error `e`, the run returns that transport error (not a compare failure), every
earlier call succeeded, call `k` is the last one made, and the requests sent are exactly
the first `k` requests of the sequence sent when everything succeeds (erase, the writes,
then the reads of the dump). When the failing call is a write_block of RemainingWrites
(3 < k ≤ 3 + number of remaining blocks), the requests sent are erase, begin_write, the
corrupted block 0 and the first k - 3 remaining blocks: no second begin_write, no
begin_read, no read_block. -/
theorem C6_first_failure_aborts {σ : Type} (T : Transport σ) (c : Consts) (fw : List Nat)
    (w : World σ) (k e : Nat) (rq : Request) (hne : fw ≠ []) (hk : 0 < k)
    (hfail : (calls (new_log w
      (fu_hailuck_kbd_device_write_firmware T c (some fw) w).2))[k - 1]? = some (rq, some e)) :
    (fu_hailuck_kbd_device_write_firmware T c (some fw) w).1 = .error (.transport e) ∧
    (fu_hailuck_kbd_device_write_firmware T c (some fw) w).1 ≠ .error .compare_failed ∧
    (∀ j, j < k - 1 → ∃ r, (calls (new_log w
      (fu_hailuck_kbd_device_write_firmware T c (some fw) w).2))[j]? = some (r, none)) ∧
    (calls (new_log w (fu_hailuck_kbd_device_write_firmware T c (some fw) w).2)).length = k ∧
    sent (new_log w (fu_hailuck_kbd_device_write_firmware T c (some fw) w).2) =
      ((write_cmds fw ++ dump_cmds w.firmware_size_max).map (Cmd.request c)).take k ∧
    (∀ b0 rest, (fu_chunk_array_new fw 2048).map Chunk.data = b0 :: rest →
      3 < k → k ≤ 3 + rest.length →
      sent (new_log w (fu_hailuck_kbd_device_write_firmware T c (some fw) w).2) =
        ([Cmd.erase, Cmd.begin_write (fw.length % 65536), Cmd.write_block (b0.set 0 0x00)] ++
          (rest.take (k - 3)).map Cmd.write_block).map (Cmd.request c)) ∧
    (∀ (T2 : Transport σ) (v : World σ), v.firmware_size_max = w.firmware_size_max →
      all_succeeded (new_log v (fu_hailuck_kbd_device_write_firmware T2 c (some fw) v).2) →
      sent (new_log v (fu_hailuck_kbd_device_write_firmware T2 c (some fw) v).2) =
        (write_cmds fw ++ dump_cmds w.firmware_size_max).map (Cmd.request c)) := by
  have hall : ∀ (T2 : Transport σ) (v : World σ), v.firmware_size_max = w.firmware_size_max →
      all_succeeded (new_log v (fu_hailuck_kbd_device_write_firmware T2 c (some fw) v).2) →
      sent (new_log v (fu_hailuck_kbd_device_write_firmware T2 c (some fw) v).2) =
        (write_cmds fw ++ dump_cmds w.firmware_size_max).map (Cmd.request c) := by
    intro T2 v hv hok
    obtain ⟨w1, d, w2, -, -, h3, hg1, hg2, -, -, -⟩ := write_firmware_all_ok T2 c fw v hne hok
    rw [h3]
    simp only [new_log_of_grows (World.grows_trans hg1 hg2), sent_append, sent_events,
      cmds_of_write_steps, cmds_of_dump_steps, List.map_append, hv]
  rcases write_firmware_cases T c fw w hne with
    ⟨d, w2, hr, hc, -⟩ | ⟨pre, x, post, e2, w2, hs, hr, hc, -⟩
  · exfalso
    rw [hr] at hfail
    simp only [hc, List.getElem?_map] at hfail
    rcases hx : (write_cmds fw ++ dump_cmds w.firmware_size_max)[k - 1]? with _ | y
    · rw [hx] at hfail
      simp at hfail
    · rw [hx] at hfail
      simp at hfail
  · rw [hr] at hfail ⊢
    simp only [hc] at hfail ⊢
    have hidx : k - 1 = pre.length ∧ e2 = e := by
      rcases Nat.lt_trichotomy (k - 1) pre.length with hlt | heq | hgt
      · exfalso
        rw [List.getElem?_append_left (by simpa using hlt), List.getElem?_map] at hfail
        rcases hx : pre[k - 1]? with _ | y
        · rw [hx] at hfail
          simp at hfail
        · rw [hx] at hfail
          simp at hfail
      · refine ⟨heq, ?_⟩
        rw [List.getElem?_append_right (by simp [heq]), heq] at hfail
        simp at hfail
        exact hfail.2
      · exfalso
        rw [List.getElem?_append_right (by simp; omega)] at hfail
        have : k - 1 - (pre.map (fun x => (x.request c, (none : Option Nat)))).length ≠ 0 := by
          simp
          omega
        obtain ⟨m, hm⟩ := Nat.exists_eq_succ_of_ne_zero this
        rw [hm] at hfail
        simp at hfail
    obtain ⟨hkp, he⟩ := hidx
    subst he
    have hk2 : k = pre.length + 1 := by omega
    have hsent : sent (new_log w w2) =
        ((write_cmds fw ++ dump_cmds w.firmware_size_max).map (Cmd.request c)).take k := by
      rw [hs, hk2, take_map_request]
      simp [sent, hc, List.map_append, List.map_map, Function.comp_def]
    refine ⟨rfl, by simp, ?_, ?_, hsent, ?_, hall⟩
    · intro j hj
      rw [List.getElem?_append_left (by simp; omega), List.getElem?_map]
      have hjl : j < pre.length := by omega
      exact ⟨pre[j].request c, by simp [List.getElem?_eq_getElem hjl]⟩
    · simp
      omega
    · intro b0 rest hm h3 hle
      rw [hsent]
      unfold write_cmds
      rw [hm]
      have hk3 : k = (k - 3) + 3 := by omega
      conv_lhs => rw [hk3]
      simp only [List.map_append, List.map_cons, List.map_nil, List.cons_append,
        List.nil_append, List.take_succ_cons, List.map_map, List.map_take]
      rw [List.take_append_of_le_length (by simp; omega),
        List.take_append_of_le_length (by simp; omega)]

theorem failing_ask (k e : Nat) (r : Request) (s : Nat) :
    r.ask (failing_transport k e) s = (if s + 1 = k then some e else none, [], s + 1) := by
  unfold Request.ask failing_transport
  split <;> rfl

/-- The failing transport answers a list of requests with success only when call number
`k` is not among them. -/
theorem failing_ask_all (k e : Nat) (c : Consts) (xs : List Cmd) :
    ∀ (s s2 : Nat) (d : List Nat), ask_all (failing_transport k e) c xs s = some (d, s2) →
      s2 = s + xs.length ∧ ¬ (s < k ∧ k ≤ s + xs.length) := by
  induction xs with
  | nil =>
    intro s s2 d h
    simp only [ask_all, Option.some.injEq, Prod.mk.injEq] at h
    simp only [List.length_nil, Nat.add_zero]
    exact ⟨h.2.symm, by omega⟩
  | cons x rest ih =>
    intro s s2 d h
    simp only [ask_all, failing_ask] at h
    by_cases hk : s + 1 = k
    · simp [hk] at h
    · simp only [hk, if_false] at h
      rcases hr : ask_all (failing_transport k e) c rest (s + 1) with _ | ⟨d1, s3⟩
      · rw [hr] at h
        simp at h
      · rw [hr] at h
        simp only [Option.some.injEq, Prod.mk.injEq] at h
        obtain ⟨h1, h2⟩ := ih (s + 1) s3 d1 hr
        simp only [List.length_cons]
        refine ⟨by omega, by omega⟩

/-- Over the failing transport, call number `k` of a run of `write_firmware` is logged as
failed with error `e`, when the run has that many commands. -/
theorem failing_run (k e : Nat) (c : Consts) (fw : List Nat) (w : World Nat) (hne : fw ≠ [])
    (hw : w.hid = 0) (hk : 0 < k)
    (hlen : k ≤ (write_cmds fw ++ dump_cmds w.firmware_size_max).length) :
    ∃ rq, (calls (new_log w (fu_hailuck_kbd_device_write_firmware (failing_transport k e) c
      (some fw) w).2))[k - 1]? = some (rq, some e) := by
  rcases write_firmware_cases (failing_transport k e) c fw w hne with
    ⟨d, w2, -, -, hT⟩ | ⟨pre, x, post, e2, w2, -, hr, hc, d1, s1, rp, ha, hb⟩
  · exfalso
    rw [hw] at hT
    have := (failing_ask_all k e c _ _ _ _ hT).2
    omega
  · rw [hw] at ha
    obtain ⟨hs1, -⟩ := failing_ask_all k e c _ _ _ _ ha
    rw [failing_ask] at hb
    simp only [Prod.mk.injEq] at hb
    have hk1 : s1 + 1 = k := by
      by_contra hcon
      simp [hcon] at hb
    have he : e2 = e := by
      simp only [hk1, if_true, Option.some.injEq] at hb
      exact hb.1.symm
    subst he
    refine ⟨x.request c, ?_⟩
    rw [hr, hc, List.getElem?_append_right (by simp; omega)]
    have : k - 1 - (pre.map (fun x => (x.request c, (none : Option Nat)))).length = 0 := by
      simp
      omega
    rw [this]
    rfl

/-- C6 on the 4096-byte image over a transport whose call number 4 (the write_block of
block 1, in RemainingWrites) fails with error 7. -/
theorem C6_first_failure_aborts_witness :
    (fu_hailuck_kbd_device_write_firmware (failing_transport 4 7) sample_consts
      (some image_4096) (fresh_world 0)).1 = .error (.transport 7) ∧
    (fu_hailuck_kbd_device_write_firmware (failing_transport 4 7) sample_consts
      (some image_4096) (fresh_world 0)).1 ≠ .error .compare_failed ∧
    (∀ j, j < 4 - 1 → ∃ r, (calls (new_log (fresh_world 0)
      (fu_hailuck_kbd_device_write_firmware (failing_transport 4 7) sample_consts
        (some image_4096) (fresh_world 0)).2))[j]? = some (r, none)) ∧
    (calls (new_log (fresh_world 0) (fu_hailuck_kbd_device_write_firmware
      (failing_transport 4 7) sample_consts (some image_4096) (fresh_world 0)).2)).length = 4 ∧
    sent (new_log (fresh_world 0) (fu_hailuck_kbd_device_write_firmware
        (failing_transport 4 7) sample_consts (some image_4096) (fresh_world 0)).2) =
      ((write_cmds image_4096 ++ dump_cmds (fresh_world 0).firmware_size_max).map
        (Cmd.request sample_consts)).take 4 ∧
    (∀ b0 rest, (fu_chunk_array_new image_4096 2048).map Chunk.data = b0 :: rest →
      3 < 4 → 4 ≤ 3 + rest.length →
      sent (new_log (fresh_world 0) (fu_hailuck_kbd_device_write_firmware
          (failing_transport 4 7) sample_consts (some image_4096) (fresh_world 0)).2) =
        ([Cmd.erase, Cmd.begin_write (image_4096.length % 65536),
            Cmd.write_block (b0.set 0 0x00)] ++
          (rest.take (4 - 3)).map Cmd.write_block).map (Cmd.request sample_consts)) ∧
    (∀ (T2 : Transport Nat) (v : World Nat),
      v.firmware_size_max = (fresh_world 0).firmware_size_max →
      all_succeeded (new_log v
        (fu_hailuck_kbd_device_write_firmware T2 sample_consts (some image_4096) v).2) →
      sent (new_log v
          (fu_hailuck_kbd_device_write_firmware T2 sample_consts (some image_4096) v).2) =
        (write_cmds image_4096 ++ dump_cmds (fresh_world 0).firmware_size_max).map
          (Cmd.request sample_consts)) := by
  have hlen : 4 ≤ (write_cmds image_4096 ++
      dump_cmds (fresh_world 0).firmware_size_max).length := by
    have hS : (fresh_world (0 : Nat)).firmware_size_max = 0x4000 := rfl
    rw [List.length_append, hS, dump_cmds_0x4000]
    simp only [List.length_cons, List.length_replicate]
    omega
  obtain ⟨rq, h⟩ := failing_run 4 7 sample_consts image_4096 (fresh_world 0)
    image_4096_ne_nil rfl (by decide) hlen
  exact C6_first_failure_aborts (failing_transport 4 7) sample_consts image_4096
    (fresh_world 0) 4 7 rq image_4096_ne_nil (by decide) h

/-- A run of `dump_firmware` in which every report call succeeds: it hands back as many
bytes as the maximum firmware size and its log is that of the steps of `dump_steps`. -/
theorem dump_firmware_all_ok {σ : Type} (T : Transport σ) (c : Consts) (w : World σ)
    (hok : all_succeeded (new_log w (fu_hailuck_kbd_device_dump_firmware T c w).2)) :
    ∃ d w2, fu_hailuck_kbd_device_dump_firmware T c w = (.ok d, w2) ∧
      w.grows w2 ((dump_steps w.firmware_size_max).flatMap (Step.events c)) ∧
      d.length = w.firmware_size_max ∧
      ask_all T c (dump_cmds w.firmware_size_max) w.hid = some (d, w2.hid) := by
  have hfit : ∀ x ∈ cmds_of (dump_steps w.firmware_size_max), x.fits := by
    rw [cmds_of_dump_steps]
    exact dump_cmds_fit _
  rw [dump_firmware_eq] at hok ⊢
  obtain ⟨d, w2, hr, hg, hT⟩ := exec_of_all_succeeded T c _ w hfit hok
  refine ⟨d, w2, hr, hg, ?_, ?_⟩
  · rw [ask_all_length T c _ _ _ _ hT, cmds_of_dump_steps, dump_cmds_reads]
  · rw [← cmds_of_dump_steps]
    exact hT

theorem dump_firmware_reliable {σ : Type} (T : Transport σ) (c : Consts) (w : World σ)
    (hT : T.reliable) :
    all_succeeded (new_log w (fu_hailuck_kbd_device_dump_firmware T c w).2) := by
  have hfit : ∀ x ∈ cmds_of (dump_steps w.firmware_size_max), x.fits := by
    rw [cmds_of_dump_steps]
    exact dump_cmds_fit _
  obtain ⟨d, w2, hr, hg, -⟩ := exec_of_ask_all T c _ w hfit (ask_all_reliable T c hT _ _)
  rw [dump_firmware_eq, hr]
  simp only [new_log_of_grows hg]
  exact all_succeeded_events c _

theorem transferred_writes (bs : List (List Nat)) (tail : List Cmd) :
    transferred (bs.map Cmd.write_block ++ tail) = (bs.map List.length).sum + transferred tail := by
  induction bs with
  | nil => simp
  | cons b rest ih =>
    simp only [List.map_cons, List.cons_append, transferred, Cmd.payload, List.append_eq, ih,
      List.sum_cons]
    omega

theorem sessions_writes (bs : List (List Nat)) (tail : List Cmd) :
    sessions (bs.map Cmd.write_block ++ tail) = sessions tail := by
  induction bs with
  | nil => simp
  | cons b rest ih => simp only [List.map_cons, List.cons_append, sessions, List.append_eq, ih]

theorem transferred_reads (ns : List Nat) :
    transferred (ns.map Cmd.read_block) = ns.sum := by
  induction ns with
  | nil => rfl
  | cons n rest ih => simp only [List.map_cons, transferred, Cmd.payload, ih, List.sum_cons]

theorem sessions_reads (ns : List Nat) : sessions (ns.map Cmd.read_block) = [] := by
  induction ns with
  | nil => rfl
  | cons n rest ih => simp only [List.map_cons, sessions, ih]

/-- The one session of a dump: the announced length is the maximum firmware size narrowed
to 16 bits, the bytes read are the maximum firmware size. -/
theorem sessions_dump (fwsz : Nat) : sessions (dump_cmds fwsz) = [(fwsz % 65536, fwsz)] := by
  have hsum : ((fu_chunk_array_new (List.replicate fwsz 0) 2048).map Chunk.data_sz).sum =
      fwsz := by
    have h := congrArg List.length (chunks_flatten (List.replicate fwsz 0))
    rw [List.length_flatten, List.length_replicate, List.map_map] at h
    exact h
  have hm : (fu_chunk_array_new (List.replicate fwsz 0) 2048).map
      (fun chk => Cmd.read_block chk.data_sz) =
      ((fu_chunk_array_new (List.replicate fwsz 0) 2048).map Chunk.data_sz).map
        Cmd.read_block := by
    rw [List.map_map]
    rfl
  unfold dump_cmds
  rw [hm]
  simp only [sessions, transferred_reads, sessions_reads, hsum]

/-- The three sessions of `write_firmware` on a non-empty image of length L, for maximum
firmware size S: (L, L) for the first announce, (L, min 2048 L) for the second, which is
followed by block 0 only, and (S, S) for the verify step (lengths narrowed to 16 bits). -/
theorem sessions_write_firmware (fw : List Nat) (fwsz : Nat) (hne : fw ≠ []) :
    sessions (write_cmds fw ++ dump_cmds fwsz) =
      [(fw.length % 65536, fw.length), (fw.length % 65536, min 2048 fw.length),
        (fwsz % 65536, fwsz)] := by
  have hch := chunks_of_nonempty fw hne
  have hfl := chunks_flatten fw
  unfold write_cmds
  rw [hch] at hfl ⊢
  simp only [List.map_cons, List.flatten_cons] at hfl ⊢
  have hlen := congrArg List.length hfl
  rw [List.length_append, List.length_flatten, List.length_take] at hlen
  have hd : transferred (dump_cmds fwsz) = 0 := rfl
  simp only [List.cons_append, List.nil_append, List.append_assoc]
  simp only [sessions, transferred, List.append_eq, Cmd.payload, transferred_writes,
    sessions_writes, sessions_dump, hd, List.length_set, List.length_take, Nat.add_zero,
    List.cons_append, List.nil_append]
  rw [hlen]
  have hsd := sessions_dump fwsz
  simp only [dump_cmds, sessions] at hsd
  rw [hsd]

/-- The requests of a whole run of `write_firmware` in which every report call succeeds:
those before the verify step, then those of the dump. -/
theorem write_firmware_sent {σ : Type} (T : Transport σ) (c : Consts) (fw : List Nat)
    (w : World σ) (hne : fw ≠ [])
    (hok : all_succeeded (new_log w (fu_hailuck_kbd_device_write_firmware T c (some fw) w).2)) :
    sent (new_log w (fu_hailuck_kbd_device_write_firmware T c (some fw) w).2) =
      (write_cmds fw ++ dump_cmds w.firmware_size_max).map (Cmd.request c) := by
  obtain ⟨w1, d, w2, -, -, h3, hg1, hg2, -, -, -⟩ := write_firmware_all_ok T c fw w hne hok
  rw [h3]
  simp only [new_log_of_grows (World.grows_trans hg1 hg2), sent_append, sent_events,
    cmds_of_write_steps, cmds_of_dump_steps, List.map_append]

/-- C7 (amended): with a maximum firmware size S < 65536, each run taken alone. In a run
of `write_firmware` on an image of L bytes, 0 < L ≤ 16 KiB, in which every report call
succeeds, whatever a stand-alone dump would do: the first begin_write announces L and
exactly L payload bytes follow it; the second begin_write announces L and is followed by
block 0 only, min(2048, L) bytes; the begin_read of the verify step announces S and exactly
S bytes follow it. In a run of `dump_firmware` in which every report call succeeds, whatever
a write would do: the begin_read announces S and exactly S bytes follow it. -/
theorem C7_announced_lengths {σ : Type} (T : Transport σ) (c : Consts) (fw : List Nat)
    (w : World σ) (hS : w.firmware_size_max < 65536) :
    (fw ≠ [] → fw.length ≤ 16384 →
      all_succeeded (new_log w (fu_hailuck_kbd_device_write_firmware T c (some fw) w).2) →
      sent (new_log w (fu_hailuck_kbd_device_write_firmware T c (some fw) w).2) =
        (write_cmds fw ++ dump_cmds w.firmware_size_max).map (Cmd.request c) ∧
      sessions (write_cmds fw ++ dump_cmds w.firmware_size_max) =
        [(fw.length, fw.length), (fw.length, min 2048 fw.length),
          (w.firmware_size_max, w.firmware_size_max)]) ∧
    (all_succeeded (new_log w (fu_hailuck_kbd_device_dump_firmware T c w).2) →
      sent (new_log w (fu_hailuck_kbd_device_dump_firmware T c w).2) =
        (dump_cmds w.firmware_size_max).map (Cmd.request c) ∧
      sessions (dump_cmds w.firmware_size_max) =
        [(w.firmware_size_max, w.firmware_size_max)]) := by
  refine ⟨?_, ?_⟩
  · intro hne hlen hok
    have hL : fw.length % 65536 = fw.length := Nat.mod_eq_of_lt (by omega)
    refine ⟨write_firmware_sent T c fw w hne hok, ?_⟩
    rw [sessions_write_firmware fw _ hne, hL, Nat.mod_eq_of_lt hS]
  · intro hokd
    refine ⟨?_, ?_⟩
    · obtain ⟨d, w2, hr, hg, -, -⟩ := dump_firmware_all_ok T c w hokd
      rw [hr]
      simp only [new_log_of_grows hg, sent_events, cmds_of_dump_steps]
    · rw [sessions_dump, Nat.mod_eq_of_lt hS]

/-- C7 (amended) on a 3-byte image over the quiet transport, right after init: the
conclusions for the write run and for the dump run, each obtained from the success of its
own run. -/
theorem C7_announced_lengths_witness :
    (sent (new_log (fresh_world ()) (fu_hailuck_kbd_device_write_firmware quiet_transport
        sample_consts (some [1, 2, 3]) (fresh_world ())).2) =
      (write_cmds [1, 2, 3] ++ dump_cmds (fresh_world ()).firmware_size_max).map
        (Cmd.request sample_consts) ∧
    sessions (write_cmds [1, 2, 3] ++ dump_cmds (fresh_world ()).firmware_size_max) =
      [([1, 2, 3].length, [1, 2, 3].length), ([1, 2, 3].length, min 2048 [1, 2, 3].length),
        ((fresh_world ()).firmware_size_max, (fresh_world ()).firmware_size_max)]) ∧
    (sent (new_log (fresh_world ()) (fu_hailuck_kbd_device_dump_firmware quiet_transport
        sample_consts (fresh_world ())).2) =
      (dump_cmds (fresh_world ()).firmware_size_max).map (Cmd.request sample_consts) ∧
    sessions (dump_cmds (fresh_world ()).firmware_size_max) =
      [((fresh_world ()).firmware_size_max, (fresh_world ()).firmware_size_max)]) :=
  ⟨(C7_announced_lengths quiet_transport sample_consts [1, 2, 3] (fresh_world ())
      (by decide)).1 (by decide) (by decide)
      (write_firmware_reliable quiet_transport sample_consts [1, 2, 3] (fresh_world ())
        (by decide) quiet_reliable),
    (C7_announced_lengths quiet_transport sample_consts [1, 2, 3] (fresh_world ())
      (by decide)).2
      (dump_firmware_reliable quiet_transport sample_consts (fresh_world ()) quiet_reliable)⟩

/-- C7 as stated fails on a 4096-byte image: the second begin_write of `write_firmware`
announces 4096 bytes and only the 2048 bytes of block 0 follow it before the begin_read. -/
theorem C7_counterexample :
    sent (new_log (fresh_world ()) (fu_hailuck_kbd_device_write_firmware quiet_transport
        sample_consts (some image_4096) (fresh_world ())).2) =
      (write_cmds image_4096 ++ dump_cmds 0x4000).map (Cmd.request sample_consts) ∧
    sessions (write_cmds image_4096 ++ dump_cmds 0x4000) =
      [(4096, 4096), (4096, 2048), (16384, 16384)] ∧
    ¬ (∀ p ∈ sessions (write_cmds image_4096 ++ dump_cmds 0x4000), p.1 = p.2) := by
  have hs : sessions (write_cmds image_4096 ++ dump_cmds 0x4000) =
      [(4096, 4096), (4096, 2048), (16384, 16384)] := by
    rw [sessions_write_firmware image_4096 _ image_4096_ne_nil]
    simp only [image_4096, List.length_replicate]
    decide
  refine ⟨?_, hs, ?_⟩
  · exact write_firmware_sent quiet_transport sample_consts image_4096 (fresh_world ())
      image_4096_ne_nil (write_firmware_reliable quiet_transport sample_consts image_4096
        (fresh_world ()) image_4096_ne_nil quiet_reliable)
  · rw [hs]
    intro h
    have := h (4096, 2048) (by simp)
    simp at this

/-- C8: for every 16-bit length, begin_read and begin_write each log exactly one
set-report call of the 6-byte short frame [short report-id, opcode, 0x00, 0x00,
length & 0xFF, (length >> 8) & 0xFF], with opcode READ_BLOCK_START and WRITE_BLOCK_START;
bytes 4 and 5 read as a little-endian 16-bit value give back the length, and length 0x1234
puts 0x34 in position 4 and 0x12 in position 5. -/
theorem C8_block_start_frames {σ : Type} (T : Transport σ) (c : Consts) (length : Nat)
    (w : World σ) (h : length < 65536) :
    ∃ err_r err_w,
      new_log w (fu_hailuck_kbd_device_read_block_start T c length w).2 =
        [Event.set_report 0x05 [c.FU_HAILUCK_KBD_REPORT_ID_SHORT,
          c.FU_HAILUCK_CMD_READ_BLOCK_START, 0x00, 0x00, length &&& 0xFF,
          (length >>> 8) &&& 0xFF] 100 err_r] ∧
      ((fu_hailuck_kbd_device_read_block_start T c length w).1 = .ok () ↔ err_r = none) ∧
      new_log w (fu_hailuck_kbd_device_write_block_start T c length w).2 =
        [Event.set_report 0x05 [c.FU_HAILUCK_KBD_REPORT_ID_SHORT,
          c.FU_HAILUCK_CMD_WRITE_BLOCK_START, 0x00, 0x00, length &&& 0xFF,
          (length >>> 8) &&& 0xFF] 100 err_w] ∧
      ((fu_hailuck_kbd_device_write_block_start T c length w).1 = .ok () ↔ err_w = none) ∧
      [c.FU_HAILUCK_KBD_REPORT_ID_SHORT, c.FU_HAILUCK_CMD_READ_BLOCK_START, 0x00, 0x00,
        length &&& 0xFF, (length >>> 8) &&& 0xFF].length = 6 ∧
      (length &&& 0xFF) + 256 * ((length >>> 8) &&& 0xFF) = length ∧
      length &&& 0xFF < 256 ∧ (length >>> 8) &&& 0xFF < 256 ∧
      (length = 0x1234 → length &&& 0xFF = 0x34 ∧ (length >>> 8) &&& 0xFF = 0x12) := by
  have hm : length % 65536 = length := Nat.mod_eq_of_lt h
  have hr : ∃ err_r, new_log w (fu_hailuck_kbd_device_read_block_start T c length w).2 =
      [Event.set_report 0x05 [c.FU_HAILUCK_KBD_REPORT_ID_SHORT,
        c.FU_HAILUCK_CMD_READ_BLOCK_START, 0x00, 0x00, length &&& 0xFF,
        (length >>> 8) &&& 0xFF] 100 err_r] ∧
      ((fu_hailuck_kbd_device_read_block_start T c length w).1 = .ok () ↔ err_r = none) := by
    simp only [fu_hailuck_kbd_device_read_block_start, hm]
    rcases set_report_cases T 0x05 [c.FU_HAILUCK_KBD_REPORT_ID_SHORT,
      c.FU_HAILUCK_CMD_READ_BLOCK_START, 0x00, 0x00, length &&& 0xFF,
      (length >>> 8) &&& 0xFF] 100 w with ⟨w2, hr, hg, -⟩ | ⟨e, w2, hr, hg, -⟩
    · exact ⟨none, by rw [hr, new_log_of_grows hg], by simp [hr]⟩
    · exact ⟨some e, by rw [hr, new_log_of_grows hg], by simp [hr]⟩
  have hw : ∃ err_w, new_log w (fu_hailuck_kbd_device_write_block_start T c length w).2 =
      [Event.set_report 0x05 [c.FU_HAILUCK_KBD_REPORT_ID_SHORT,
        c.FU_HAILUCK_CMD_WRITE_BLOCK_START, 0x00, 0x00, length &&& 0xFF,
        (length >>> 8) &&& 0xFF] 100 err_w] ∧
      ((fu_hailuck_kbd_device_write_block_start T c length w).1 = .ok () ↔ err_w = none) := by
    simp only [fu_hailuck_kbd_device_write_block_start, hm]
    rcases set_report_cases T 0x05 [c.FU_HAILUCK_KBD_REPORT_ID_SHORT,
      c.FU_HAILUCK_CMD_WRITE_BLOCK_START, 0x00, 0x00, length &&& 0xFF,
      (length >>> 8) &&& 0xFF] 100 w with ⟨w2, hr, hg, -⟩ | ⟨e, w2, hr, hg, -⟩
    · exact ⟨none, by rw [hr, new_log_of_grows hg], by simp [hr]⟩
    · exact ⟨some e, by rw [hr, new_log_of_grows hg], by simp [hr]⟩
  obtain ⟨err_r, hr1, hr2⟩ := hr
  obtain ⟨err_w, hw1, hw2⟩ := hw
  refine ⟨err_r, err_w, hr1, hr2, hw1, hw2, rfl, ?_, ?_, ?_, ?_⟩
  · rw [and_0xFF, shift_and_0xFF]
    omega
  · rw [and_0xFF]
    omega
  · rw [shift_and_0xFF]
    omega
  · intro h4
    rw [and_0xFF, shift_and_0xFF, h4]
    decide

/-- C8 at length 0x1234 over the quiet transport. -/
theorem C8_block_start_frames_witness :
    ∃ err_r err_w,
      new_log (fresh_world ()) (fu_hailuck_kbd_device_read_block_start quiet_transport
          sample_consts 0x1234 (fresh_world ())).2 =
        [Event.set_report 0x05 [sample_consts.FU_HAILUCK_KBD_REPORT_ID_SHORT,
          sample_consts.FU_HAILUCK_CMD_READ_BLOCK_START, 0x00, 0x00, 0x1234 &&& 0xFF,
          (0x1234 >>> 8) &&& 0xFF] 100 err_r] ∧
      ((fu_hailuck_kbd_device_read_block_start quiet_transport sample_consts 0x1234
        (fresh_world ())).1 = .ok () ↔ err_r = none) ∧
      new_log (fresh_world ()) (fu_hailuck_kbd_device_write_block_start quiet_transport
          sample_consts 0x1234 (fresh_world ())).2 =
        [Event.set_report 0x05 [sample_consts.FU_HAILUCK_KBD_REPORT_ID_SHORT,
          sample_consts.FU_HAILUCK_CMD_WRITE_BLOCK_START, 0x00, 0x00, 0x1234 &&& 0xFF,
          (0x1234 >>> 8) &&& 0xFF] 100 err_w] ∧
      ((fu_hailuck_kbd_device_write_block_start quiet_transport sample_consts 0x1234
        (fresh_world ())).1 = .ok () ↔ err_w = none) ∧
      [sample_consts.FU_HAILUCK_KBD_REPORT_ID_SHORT,
        sample_consts.FU_HAILUCK_CMD_READ_BLOCK_START, 0x00, 0x00,
        0x1234 &&& 0xFF, (0x1234 >>> 8) &&& 0xFF].length = 6 ∧
      (0x1234 &&& 0xFF) + 256 * ((0x1234 >>> 8) &&& 0xFF) = 0x1234 ∧
      0x1234 &&& 0xFF < 256 ∧ (0x1234 >>> 8) &&& 0xFF < 256 ∧
      (0x1234 = 0x1234 → 0x1234 &&& 0xFF = 0x34 ∧ (0x1234 >>> 8) &&& 0xFF = 0x12) :=
  C8_block_start_frames quiet_transport sample_consts 0x1234 (fresh_world ()) (by decide)

/-- C9: for every payload p of n bytes with n + 2 within the size type, the frame of
`write_block` is [long report-id, WRITE_BLOCK] followed by p, of length n + 2; the
bounds-checked copy never reports a length mismatch; exactly that frame is sent, once,
with the 10 ms delay after a success; and copying n bytes from offset 2 of the frame, the
way `read_block` strips the header, gives back p. -/
theorem C9_write_block_frame {σ : Type} (T : Transport σ) (c : Consts) (p : List Nat)
    (w : World σ) (h : p.length + 2 ≤ G_MAXSIZE) :
    fu_hailuck_kbd_device_write_block_buf c p =
      some (c.FU_HAILUCK_KBD_REPORT_ID_LONG :: c.FU_HAILUCK_CMD_WRITE_BLOCK :: p) ∧
    (c.FU_HAILUCK_KBD_REPORT_ID_LONG :: c.FU_HAILUCK_CMD_WRITE_BLOCK :: p).length =
      p.length + 2 ∧
    (fu_hailuck_kbd_device_write_block T c p w).1 ≠ .error .length_mismatch ∧
    (∃ err, new_log w (fu_hailuck_kbd_device_write_block T c p w).2 =
        Event.set_report 0x06
          (c.FU_HAILUCK_KBD_REPORT_ID_LONG :: c.FU_HAILUCK_CMD_WRITE_BLOCK :: p) 2000 err ::
          (if err = none then [Event.usleep 10000] else []) ∧
      ((fu_hailuck_kbd_device_write_block T c p w).1 = .ok () ↔ err = none)) ∧
    fu_memcpy_safe (List.replicate p.length 0) p.length 0x0
        (c.FU_HAILUCK_KBD_REPORT_ID_LONG :: c.FU_HAILUCK_CMD_WRITE_BLOCK :: p)
        (p.length + 2) 0x02 p.length = some p := by
  have hbuf := write_block_buf_eq c p h
  have hrun : (fu_hailuck_kbd_device_write_block T c p w).1 ≠ .error .length_mismatch ∧
      ∃ err, new_log w (fu_hailuck_kbd_device_write_block T c p w).2 =
        Event.set_report 0x06
          (c.FU_HAILUCK_KBD_REPORT_ID_LONG :: c.FU_HAILUCK_CMD_WRITE_BLOCK :: p) 2000 err ::
          (if err = none then [Event.usleep 10000] else []) ∧
        ((fu_hailuck_kbd_device_write_block T c p w).1 = .ok () ↔ err = none) := by
    simp only [fu_hailuck_kbd_device_write_block, hbuf]
    rcases set_report_cases T 0x06 (c.FU_HAILUCK_KBD_REPORT_ID_LONG ::
      c.FU_HAILUCK_CMD_WRITE_BLOCK :: p) 2000 w with ⟨w2, hr, hg, -⟩ | ⟨e, w2, hr, hg, -⟩
    · rw [hr]
      refine ⟨by simp, none, ?_, by simp⟩
      have hg2 := World.grows_trans hg (show w2.grows (g_usleep 10000 w2)
        [Event.usleep 10000] by simp [World.grows, g_usleep])
      simp only [new_log_of_grows hg2]
      rfl
    · rw [hr]
      refine ⟨by simp, some e, ?_, by simp⟩
      simp only [new_log_of_grows hg]
      rfl
  refine ⟨hbuf, by simp, hrun.1, hrun.2, ?_⟩
  have hcopy := read_block_copy (List.replicate p.length 0)
    (c.FU_HAILUCK_KBD_REPORT_ID_LONG :: c.FU_HAILUCK_CMD_WRITE_BLOCK :: p) (by simp)
  simp only [List.length_replicate] at hcopy
  rw [hcopy]
  simp

/-- C9 on a 3-byte payload over the quiet transport. -/
theorem C9_write_block_frame_witness :
    fu_hailuck_kbd_device_write_block_buf sample_consts [0xAA, 0xBB, 0xCC] =
      some (sample_consts.FU_HAILUCK_KBD_REPORT_ID_LONG ::
        sample_consts.FU_HAILUCK_CMD_WRITE_BLOCK :: [0xAA, 0xBB, 0xCC]) ∧
    (sample_consts.FU_HAILUCK_KBD_REPORT_ID_LONG ::
      sample_consts.FU_HAILUCK_CMD_WRITE_BLOCK :: [0xAA, 0xBB, 0xCC]).length =
      [0xAA, 0xBB, 0xCC].length + 2 ∧
    (fu_hailuck_kbd_device_write_block quiet_transport sample_consts [0xAA, 0xBB, 0xCC]
      (fresh_world ())).1 ≠ .error .length_mismatch ∧
    (∃ err, new_log (fresh_world ()) (fu_hailuck_kbd_device_write_block quiet_transport
          sample_consts [0xAA, 0xBB, 0xCC] (fresh_world ())).2 =
        Event.set_report 0x06
          (sample_consts.FU_HAILUCK_KBD_REPORT_ID_LONG ::
            sample_consts.FU_HAILUCK_CMD_WRITE_BLOCK :: [0xAA, 0xBB, 0xCC]) 2000 err ::
          (if err = none then [Event.usleep 10000] else []) ∧
      ((fu_hailuck_kbd_device_write_block quiet_transport sample_consts [0xAA, 0xBB, 0xCC]
        (fresh_world ())).1 = .ok () ↔ err = none)) ∧
    fu_memcpy_safe (List.replicate [0xAA, 0xBB, 0xCC].length 0) [0xAA, 0xBB, 0xCC].length 0x0
        (sample_consts.FU_HAILUCK_KBD_REPORT_ID_LONG ::
          sample_consts.FU_HAILUCK_CMD_WRITE_BLOCK :: [0xAA, 0xBB, 0xCC])
        ([0xAA, 0xBB, 0xCC].length + 2) 0x02 [0xAA, 0xBB, 0xCC].length =
      some [0xAA, 0xBB, 0xCC] :=
  C9_write_block_frame quiet_transport sample_consts [0xAA, 0xBB, 0xCC] (fresh_world ())
    (by decide)

/-- C10: for a caller's buffer of n bytes with n + 2 within the size type, `read_block`
sends one get-report request whose buffer is [long report-id, READ_BLOCK] followed by n
zero bytes, of length n + 2; when the transport succeeds it hands back exactly n bytes,
bytes 2 to n+1 of the buffer as overwritten by the reply, and waits 10 ms; when the
transport fails it returns the transport's error and the caller's buffer is unchanged. -/
theorem C10_read_block {σ : Type} (T : Transport σ) (c : Consts) (data : List Nat)
    (w : World σ) (h : data.length + 2 ≤ G_MAXSIZE) :
    (c.FU_HAILUCK_KBD_REPORT_ID_LONG :: c.FU_HAILUCK_CMD_READ_BLOCK ::
      List.replicate data.length 0).length = data.length + 2 ∧
    (∀ reply s, T.get_report 0x06 (c.FU_HAILUCK_KBD_REPORT_ID_LONG ::
        c.FU_HAILUCK_CMD_READ_BLOCK :: List.replicate data.length 0) 2000 w.hid =
        (none, reply, s) →
      (fu_hailuck_kbd_device_read_block T c data w).1 = .ok () ∧
      (fu_hailuck_kbd_device_read_block T c data w).2.1 =
        ((overwrite (c.FU_HAILUCK_KBD_REPORT_ID_LONG :: c.FU_HAILUCK_CMD_READ_BLOCK ::
          List.replicate data.length 0) reply).drop 2).take data.length ∧
      (fu_hailuck_kbd_device_read_block T c data w).2.1.length = data.length ∧
      (fu_hailuck_kbd_device_read_block T c data w).2.1 =
        (overwrite (c.FU_HAILUCK_KBD_REPORT_ID_LONG :: c.FU_HAILUCK_CMD_READ_BLOCK ::
          List.replicate data.length 0) reply).drop 2 ∧
      new_log w (fu_hailuck_kbd_device_read_block T c data w).2.2 =
        [Event.get_report 0x06 (c.FU_HAILUCK_KBD_REPORT_ID_LONG ::
          c.FU_HAILUCK_CMD_READ_BLOCK :: List.replicate data.length 0) 2000 none,
          Event.usleep 10000]) ∧
    (∀ e reply s, T.get_report 0x06 (c.FU_HAILUCK_KBD_REPORT_ID_LONG ::
        c.FU_HAILUCK_CMD_READ_BLOCK :: List.replicate data.length 0) 2000 w.hid =
        (some e, reply, s) →
      (fu_hailuck_kbd_device_read_block T c data w).1 = .error (.transport e) ∧
      (fu_hailuck_kbd_device_read_block T c data w).2.1 = data ∧
      new_log w (fu_hailuck_kbd_device_read_block T c data w).2.2 =
        [Event.get_report 0x06 (c.FU_HAILUCK_KBD_REPORT_ID_LONG ::
          c.FU_HAILUCK_CMD_READ_BLOCK :: List.replicate data.length 0) 2000 (some e)]) := by
  refine ⟨by simp, ?_, ?_⟩
  · intro reply s hT
    rcases read_block_cases T c data w h with
      ⟨reply2, w2, hr, hg, hT2⟩ | ⟨e, reply2, w2, hr, hg, hT2⟩
    · simp only [Cmd.request, Request.event, if_true] at hr hg hT2
      rw [hT] at hT2
      simp only [Prod.mk.injEq, true_and] at hT2
      obtain ⟨hrep, -⟩ := hT2
      subst hrep
      rw [hr]
      have hlen : (overwrite (c.FU_HAILUCK_KBD_REPORT_ID_LONG :: c.FU_HAILUCK_CMD_READ_BLOCK ::
          List.replicate data.length 0) reply).length = data.length + 2 := by
        rw [overwrite_length]
        simp
      refine ⟨rfl, rfl, ?_, ?_, ?_⟩
      · simp only [List.length_take, List.length_drop, hlen]
        omega
      · simp only []
        apply List.take_of_length_le
        rw [List.length_drop, hlen]
        omega
      · exact new_log_of_grows hg
    · simp only [Cmd.request] at hT2
      rw [hT] at hT2
      simp at hT2
  · intro e reply s hT
    rcases read_block_cases T c data w h with
      ⟨reply2, w2, hr, hg, hT2⟩ | ⟨e2, reply2, w2, hr, hg, hT2⟩
    · simp only [Cmd.request] at hT2
      rw [hT] at hT2
      simp at hT2
    · simp only [Cmd.request, Request.event, if_true] at hr hg hT2
      rw [hT] at hT2
      simp only [Prod.mk.injEq, Option.some.injEq] at hT2
      obtain ⟨he, -, -⟩ := hT2
      subst he
      rw [hr]
      exact ⟨rfl, rfl, new_log_of_grows hg⟩

/-- C10 over a transport whose reply is [0x06, 0x72, 1, 2, 3]: a read into a 3-byte buffer
succeeds and hands back [1, 2, 3]. -/
theorem C10_read_block_witness :
    (fu_hailuck_kbd_device_read_block (fixed_reply_transport [0x06, 0x72, 1, 2, 3])
      sample_consts [0, 0, 0] (fresh_world ())).1 = .ok () ∧
    (fu_hailuck_kbd_device_read_block (fixed_reply_transport [0x06, 0x72, 1, 2, 3])
      sample_consts [0, 0, 0] (fresh_world ())).2.1 = [1, 2, 3] ∧
    new_log (fresh_world ()) (fu_hailuck_kbd_device_read_block
        (fixed_reply_transport [0x06, 0x72, 1, 2, 3]) sample_consts [0, 0, 0]
        (fresh_world ())).2.2 =
      [Event.get_report 0x06 [0x06, 0x72, 0, 0, 0] 2000 none, Event.usleep 10000] := by
  have h := (C10_read_block (fixed_reply_transport [0x06, 0x72, 1, 2, 3]) sample_consts
    [0, 0, 0] (fresh_world ()) (by decide)).2.1 [0x06, 0x72, 1, 2, 3] () rfl
  exact ⟨h.1, by rw [h.2.1]; decide, by rw [h.2.2.2.2]; rfl⟩

theorem ask_all_append {σ : Type} (T : Transport σ) (c : Consts) (a b : List Cmd) :
    ∀ s : σ, ask_all T c (a ++ b) s =
      match ask_all T c a s with
      | some (d, s1) =>
        match ask_all T c b s1 with
        | some (d2, s2) => some (d ++ d2, s2)
        | none => none
      | none => none := by
  induction a with
  | nil =>
    intro s
    simp only [List.nil_append, ask_all]
    rcases ask_all T c b s with _ | ⟨d2, s2⟩ <;> simp
  | cons x rest ih =>
    intro s
    simp only [List.cons_append, ask_all, List.append_eq]
    rcases (x.request c).ask T s with ⟨_ | e, reply, s1⟩
    · simp only []
      rw [ih s1]
      rcases ask_all T c rest s1 with _ | ⟨d1, s2⟩
      · simp
      · simp only []
        rcases ask_all T c b s2 with _ | ⟨d2, s3⟩ <;> simp
    · simp

theorem flash_reliable (c : Consts) : (flash_device c).reliable := by
  constructor
  · intro value buf timeout s
    simp only [flash_device]
    split
    · rfl
    · split
      · rfl
      · split
        · rfl
        · split <;> rfl
  · intro value buf timeout s
    rfl

theorem flash_ask_erase (c : Consts) (s : Flash) :
    (Cmd.erase.request c).ask (flash_device c) s = (none, [], { s with mem := [] }) := by
  simp [Cmd.request, Request.ask, flash_device]

theorem flash_ask_begin_write (c : Consts) (hd : c.distinct) (n : Nat) (s : Flash) :
    ((Cmd.begin_write n).request c).ask (flash_device c) s =
      (none, [], { s with wpos := 0 }) := by
  have h1 : c.FU_HAILUCK_CMD_WRITE_BLOCK_START ≠ c.FU_HAILUCK_CMD_ERASE := fun h => hd.1 h.symm
  simp [Cmd.request, Request.ask, flash_device, short_frame, h1]

theorem flash_ask_begin_read (c : Consts) (hd : c.distinct) (n : Nat) (s : Flash) :
    ((Cmd.begin_read n).request c).ask (flash_device c) s =
      (none, [], { s with rpos := 0 }) := by
  have h1 : c.FU_HAILUCK_CMD_READ_BLOCK_START ≠ c.FU_HAILUCK_CMD_ERASE :=
    fun h => hd.2.1 h.symm
  have h2 : c.FU_HAILUCK_CMD_READ_BLOCK_START ≠ c.FU_HAILUCK_CMD_WRITE_BLOCK_START :=
    fun h => hd.2.2 h.symm
  simp [Cmd.request, Request.ask, flash_device, short_frame, h1, h2]

theorem flash_ask_write_block (c : Consts) (d : List Nat) (s : Flash) :
    ((Cmd.write_block d).request c).ask (flash_device c) s =
      (none, [], { s with
        mem := s.mem.take s.wpos ++ d ++ s.mem.drop (s.wpos + d.length)
        wpos := s.wpos + d.length }) := by
  simp [Cmd.request, Request.ask, flash_device]

theorem flash_ask_read_block (c : Consts) (n : Nat) (s : Flash) :
    ((Cmd.read_block n).request c).ask (flash_device c) s =
      (none, [c.FU_HAILUCK_KBD_REPORT_ID_LONG, c.FU_HAILUCK_CMD_READ_BLOCK] ++
        flash_view s.mem s.rpos n, { s with rpos := s.rpos + n }) := by
  simp [Cmd.request, Request.ask, flash_device]

theorem flash_view_length (mem : List Nat) (r n : Nat) : (flash_view mem r n).length = n := by
  simp [flash_view]

theorem flash_view_add (mem : List Nat) (r a b : Nat) :
    flash_view mem r (a + b) = flash_view mem r a ++ flash_view mem (r + a) b := by
  simp only [flash_view, List.range_add, List.map_append, List.map_map]
  congr 1
  apply List.map_congr_left
  intro i _
  simp [Nat.add_assoc]

/-- Reading the store from its start: the stored bytes, then 0xFF. -/
theorem flash_view_zero (mem : List Nat) (n : Nat) (h : mem.length ≤ n) :
    flash_view mem 0 n = mem ++ List.replicate (n - mem.length) 0xFF := by
  apply List.ext_getElem
  · simp [flash_view]
    omega
  · intro i h1 h2
    simp only [flash_view, List.getElem_map, List.getElem_range, Nat.zero_add]
    by_cases hi : i < mem.length
    · rw [List.getElem_append_left hi]
      simp [List.getD_eq_getElem?_getD, List.getElem?_eq_getElem hi]
    · rw [List.getElem_append_right (by omega)]
      simp [List.getD_eq_getElem?_getD, List.getElem?_eq_none (by omega : mem.length ≤ i)]

theorem overwrite_same_length (buf reply : List Nat) (h : reply.length = buf.length) :
    overwrite buf reply = reply := by
  unfold overwrite
  rw [List.drop_of_length_le (by omega), List.append_nil, List.take_of_length_le (by omega)]

/-- The bytes `read_block` hands back from the reply of the flash device. -/
theorem flash_result_read (c : Consts) (n : Nat) (v : List Nat) (hv : v.length = n) :
    Cmd.result c (.read_block n)
      ([c.FU_HAILUCK_KBD_REPORT_ID_LONG, c.FU_HAILUCK_CMD_READ_BLOCK] ++ v) = v := by
  have hlen : ([c.FU_HAILUCK_KBD_REPORT_ID_LONG, c.FU_HAILUCK_CMD_READ_BLOCK] ++ v).length =
      ((Cmd.read_block n).request c).buf.length := by
    simp [Cmd.request, hv]
  unfold Cmd.result
  simp only []
  rw [overwrite_same_length _ _ hlen]
  simp only [List.cons_append, List.nil_append, List.drop_succ_cons, List.drop_zero]
  exact List.take_of_length_le (by omega)

/-- Successive reads of the flash device return consecutive stored bytes. -/
theorem flash_reads (c : Consts) (ns : List Nat) : ∀ s : Flash,
    ask_all (flash_device c) c (ns.map Cmd.read_block) s =
      some (flash_view s.mem s.rpos ns.sum, { s with rpos := s.rpos + ns.sum }) := by
  induction ns with
  | nil =>
    intro s
    simp [ask_all, flash_view]
  | cons n rest ih =>
    intro s
    simp only [List.map_cons, ask_all, flash_ask_read_block, ih,
      flash_result_read c n _ (flash_view_length _ _ _), List.sum_cons, flash_view_add,
      Nat.add_assoc]

/-- Successive writes at the end of the store of the flash device append the blocks. -/
theorem flash_writes (c : Consts) (bs : List (List Nat)) : ∀ s : Flash,
    s.wpos = s.mem.length →
    ask_all (flash_device c) c (bs.map Cmd.write_block) s =
      some ([], { s with mem := s.mem ++ bs.flatten
                         wpos := s.mem.length + bs.flatten.length }) := by
  induction bs with
  | nil =>
    intro s hs
    simp [ask_all, ← hs]
  | cons b rest ih =>
    intro s hs
    simp only [List.map_cons, ask_all, flash_ask_write_block]
    rw [ih _ (by simp [hs])]
    simp [hs, Cmd.result, Nat.add_assoc]

/-- What the flash device holds after the commands `write_firmware` sends before the
verify step: the image. -/
theorem flash_write_cmds (c : Consts) (hd : c.distinct) (fw : List Nat) (hne : fw ≠ [])
    (s : Flash) :
    ask_all (flash_device c) c (write_cmds fw) s =
      some ([], { mem := fw, wpos := min 2048 fw.length, rpos := s.rpos }) := by
  have hch := chunks_of_nonempty fw hne
  have hfl := chunks_flatten fw
  rw [hch] at hfl
  simp only [List.map_cons, List.flatten_cons] at hfl
  have hrest : ((fu_chunk_array_go 2048 (fw.length - 1) 2048 (fw.drop 2048)).map
      Chunk.data).flatten = fw.drop 2048 :=
    List.append_cancel_left (hfl.trans (List.take_append_drop 2048 fw).symm)
  unfold write_cmds
  rw [hch]
  simp only [List.map_cons, List.append_assoc]
  rw [ask_all_append]
  have h1 : ask_all (flash_device c) c [Cmd.erase, Cmd.begin_write (fw.length % 65536),
      Cmd.write_block ((fw.take 2048).set 0 0)] s =
      some ([], { mem := (fw.take 2048).set 0 0, wpos := min 2048 fw.length,
                  rpos := s.rpos }) := by
    simp [ask_all, flash_ask_erase, flash_ask_begin_write c hd, flash_ask_write_block,
      Cmd.result]
  rw [h1]
  simp only []
  rw [ask_all_append, flash_writes c _ _ (by simp)]
  simp only [hrest]
  have hdrop : List.drop (min 2048 fw.length) ((fw.take 2048).set 0 0 ++ fw.drop 2048) =
      fw.drop 2048 := by
    have hl : ((fw.take 2048).set 0 0).length = min 2048 fw.length := by simp
    rw [← hl, List.drop_left]
  simp [ask_all, flash_ask_begin_write c hd, flash_ask_write_block, Cmd.result, hdrop]

/-- What the flash device returns for the commands of a dump: the stored bytes from the
start, 0xFF beyond them. -/
theorem flash_dump_cmds (c : Consts) (hd : c.distinct) (fwsz : Nat) (s : Flash) :
    ask_all (flash_device c) c (dump_cmds fwsz) s =
      some (flash_view s.mem 0 fwsz, { s with rpos := fwsz }) := by
  have hsum : ((fu_chunk_array_new (List.replicate fwsz 0) 2048).map Chunk.data_sz).sum =
      fwsz := by
    have h := congrArg List.length (chunks_flatten (List.replicate fwsz 0))
    rw [List.length_flatten, List.length_replicate, List.map_map] at h
    exact h
  have hm : (fu_chunk_array_new (List.replicate fwsz 0) 2048).map
      (fun chk => Cmd.read_block chk.data_sz) =
      ((fu_chunk_array_new (List.replicate fwsz 0) 2048).map Chunk.data_sz).map
        Cmd.read_block := by
    rw [List.map_map]
    rfl
  unfold dump_cmds
  rw [hm]
  simp only [ask_all, flash_ask_begin_read c hd, flash_reads, hsum, Cmd.result,
    List.nil_append, Nat.zero_add]

theorem sample_consts_distinct : sample_consts.distinct := by
  unfold Consts.distinct sample_consts
  decide

/-- Against the flash device, a dump after `write_firmware` returns the stored image seen
through a window of the maximum firmware size, and `write_firmware` compares the image
with that window. -/
theorem flash_roundtrip (c : Consts) (hd : c.distinct) (fw : List Nat) (hne : fw ≠ [])
    (w : World Flash) :
    (fu_hailuck_kbd_device_dump_firmware (flash_device c) c
        (fu_hailuck_kbd_device_write_firmware (flash_device c) c (some fw) w).2).1 =
      .ok (flash_view fw 0 w.firmware_size_max) ∧
    (fu_hailuck_kbd_device_write_firmware (flash_device c) c (some fw) w).1 =
      fu_common_bytes_compare fw (flash_view fw 0 w.firmware_size_max) := by
  obtain ⟨w1, d, w2, -, -, h3, hg1, hg2, -, ha1, ha2⟩ :=
    write_firmware_all_ok (flash_device c) c fw w hne
      (write_firmware_reliable (flash_device c) c fw w hne (flash_reliable c))
  rw [flash_write_cmds c hd fw hne] at ha1
  simp only [Option.some.injEq, Prod.mk.injEq, true_and] at ha1
  rw [flash_dump_cmds c hd, ← ha1] at ha2
  simp only [Option.some.injEq, Prod.mk.injEq] at ha2
  obtain ⟨hd1, hd2⟩ := ha2
  have hfs : w2.firmware_size_max = w.firmware_size_max := by
    rw [hg2.2.1, hg1.2.1]
  obtain ⟨d3, w3, h4, -, -, ha3⟩ := dump_firmware_all_ok (flash_device c) c w2
    (dump_firmware_reliable (flash_device c) c w2 (flash_reliable c))
  rw [flash_dump_cmds c hd, ← hd2, hfs] at ha3
  simp only [Option.some.injEq, Prod.mk.injEq] at ha3
  rw [h3]
  simp only []
  rw [h4, ← hd1]
  exact ⟨by rw [ha3.1], rfl⟩

/-- C3 (amended): against the device model that stores the blocks written to it, for every
non-empty image of L ≤ 16384 bytes (a multiple of 2048 or not), `write_firmware` followed
by `dump_firmware`, right after init, returns 16384 bytes: the image followed by
16384 - L bytes of 0xFF. Its first L bytes are the image; it is identical to the image,
and `write_firmware` succeeds, when L = 16384; for a shorter image it differs from the
image and `write_firmware` reports a compare failure. -/
theorem C3_dump_after_write (c : Consts) (fw : List Nat) (s : Flash) (hd : c.distinct)
    (hne : fw ≠ []) (hlen : fw.length ≤ 16384) :
    (fu_hailuck_kbd_device_dump_firmware (flash_device c) c
        (fu_hailuck_kbd_device_write_firmware (flash_device c) c (some fw)
          (fresh_world s)).2).1 =
      .ok (fw ++ List.replicate (16384 - fw.length) 0xFF) ∧
    (fw ++ List.replicate (16384 - fw.length) 0xFF).length = 16384 ∧
    (fw ++ List.replicate (16384 - fw.length) 0xFF).take fw.length = fw ∧
    (fw.length = 16384 →
      (fu_hailuck_kbd_device_dump_firmware (flash_device c) c
        (fu_hailuck_kbd_device_write_firmware (flash_device c) c (some fw)
          (fresh_world s)).2).1 = .ok fw ∧
      (fu_hailuck_kbd_device_write_firmware (flash_device c) c (some fw)
        (fresh_world s)).1 = .ok ()) ∧
    (fw.length < 16384 →
      (fu_hailuck_kbd_device_dump_firmware (flash_device c) c
        (fu_hailuck_kbd_device_write_firmware (flash_device c) c (some fw)
          (fresh_world s)).2).1 ≠ .ok fw ∧
      (fu_hailuck_kbd_device_write_firmware (flash_device c) c (some fw)
        (fresh_world s)).1 = .error .compare_failed) := by
  obtain ⟨h1, h2⟩ := flash_roundtrip c hd fw hne (fresh_world s)
  have hS : (fresh_world s).firmware_size_max = 16384 := rfl
  rw [hS, flash_view_zero fw 16384 hlen] at h1 h2
  have hl : (fw ++ List.replicate (16384 - fw.length) 0xFF).length = 16384 := by
    rw [List.length_append, List.length_replicate]
    omega
  refine ⟨h1, hl, List.take_left _ _, ?_, ?_⟩
  · intro h16
    have hz : fw ++ List.replicate (16384 - fw.length) 0xFF = fw := by
      rw [h16, Nat.sub_self]
      simp
    rw [h1, h2, hz]
    exact ⟨rfl, (compare_ok_iff fw fw).mpr rfl⟩
  · intro hlt
    have hne2 : fw ++ List.replicate (16384 - fw.length) 0xFF ≠ fw := by
      intro heq
      have := congrArg List.length heq
      rw [hl] at this
      omega
    rw [h1, h2]
    refine ⟨?_, ?_⟩
    · intro heq
      simp only [Except.ok.injEq] at heq
      exact hne2 heq
    · rcases compare_cases fw (fw ++ List.replicate (16384 - fw.length) 0xFF) with h | h
      · exact absurd ((compare_ok_iff _ _).mp h).symm hne2
      · exact h

/-- C3 (amended) on a 3-byte image against an empty flash device. -/
theorem C3_dump_after_write_witness :
    (fu_hailuck_kbd_device_dump_firmware (flash_device sample_consts) sample_consts
        (fu_hailuck_kbd_device_write_firmware (flash_device sample_consts) sample_consts
          (some [1, 2, 3]) (fresh_world ⟨[], 0, 0⟩)).2).1 =
      .ok ([1, 2, 3] ++ List.replicate (16384 - [1, 2, 3].length) 0xFF) ∧
    ([1, 2, 3] ++ List.replicate (16384 - [1, 2, 3].length) 0xFF).length = 16384 ∧
    ([1, 2, 3] ++ List.replicate (16384 - [1, 2, 3].length) 0xFF).take [1, 2, 3].length =
      [1, 2, 3] ∧
    ([1, 2, 3].length = 16384 →
      (fu_hailuck_kbd_device_dump_firmware (flash_device sample_consts) sample_consts
        (fu_hailuck_kbd_device_write_firmware (flash_device sample_consts) sample_consts
          (some [1, 2, 3]) (fresh_world ⟨[], 0, 0⟩)).2).1 = .ok [1, 2, 3] ∧
      (fu_hailuck_kbd_device_write_firmware (flash_device sample_consts) sample_consts
        (some [1, 2, 3]) (fresh_world ⟨[], 0, 0⟩)).1 = .ok ()) ∧
    ([1, 2, 3].length < 16384 →
      (fu_hailuck_kbd_device_dump_firmware (flash_device sample_consts) sample_consts
        (fu_hailuck_kbd_device_write_firmware (flash_device sample_consts) sample_consts
          (some [1, 2, 3]) (fresh_world ⟨[], 0, 0⟩)).2).1 ≠ .ok [1, 2, 3] ∧
      (fu_hailuck_kbd_device_write_firmware (flash_device sample_consts) sample_consts
        (some [1, 2, 3]) (fresh_world ⟨[], 0, 0⟩)).1 = .error .compare_failed) :=
  C3_dump_after_write sample_consts [1, 2, 3] ⟨[], 0, 0⟩ sample_consts_distinct
    (by decide) (by decide)

/-- C3 as stated fails on the 4096-byte image (a multiple of the block size) and on a
3-byte image (one short block): against the flash device, `write_firmware` followed by
`dump_firmware` does not return the image, it returns 16384 bytes. -/
theorem C3_counterexample :
    (fu_hailuck_kbd_device_dump_firmware (flash_device sample_consts) sample_consts
        (fu_hailuck_kbd_device_write_firmware (flash_device sample_consts) sample_consts
          (some image_4096) (fresh_world ⟨[], 0, 0⟩)).2).1 ≠ .ok image_4096 ∧
    (fu_hailuck_kbd_device_dump_firmware (flash_device sample_consts) sample_consts
        (fu_hailuck_kbd_device_write_firmware (flash_device sample_consts) sample_consts
          (some [1, 2, 3]) (fresh_world ⟨[], 0, 0⟩)).2).1 ≠ .ok [1, 2, 3] ∧
    ∃ out, (fu_hailuck_kbd_device_dump_firmware (flash_device sample_consts) sample_consts
        (fu_hailuck_kbd_device_write_firmware (flash_device sample_consts) sample_consts
          (some image_4096) (fresh_world ⟨[], 0, 0⟩)).2).1 = .ok out ∧ out.length = 16384 := by
  have hS : (fresh_world (⟨[], 0, 0⟩ : Flash)).firmware_size_max = 16384 := rfl
  obtain ⟨h1, -⟩ := flash_roundtrip sample_consts sample_consts_distinct image_4096
    image_4096_ne_nil (fresh_world ⟨[], 0, 0⟩)
  obtain ⟨h2, -⟩ := flash_roundtrip sample_consts sample_consts_distinct [1, 2, 3]
    (by decide) (fresh_world ⟨[], 0, 0⟩)
  rw [hS] at h1 h2
  refine ⟨?_, ?_, _, h1, flash_view_length _ _ _⟩
  · rw [h1]
    intro heq
    simp only [Except.ok.injEq] at heq
    have := congrArg List.length heq
    rw [flash_view_length] at this
    simp only [image_4096, List.length_replicate] at this
    omega
  · rw [h2]
    intro heq
    simp only [Except.ok.injEq] at heq
    have := congrArg List.length heq
    rw [flash_view_length] at this
    simp only [List.length_cons, List.length_nil] at this
    omega

theorem before_verify_empty {σ : Type} (T : Transport σ) (c : Consts) (w : World σ) :
    fu_hailuck_kbd_device_write_firmware_before_verify T c [] w =
      match exec T c [.status .device_erase, .cmd .erase, .status .device_write,
          .cmd (.begin_write 0)] w with
      | (.error e, w2) => (.error e, w2)
      | (.ok _, w2) => (.error .out_of_bounds, w2) := by
  have hch : fu_chunk_array_new [] 2048 = [] := rfl
  simp only [fu_hailuck_kbd_device_write_firmware_before_verify, hch, exec, Cmd.run,
    List.length_nil]
  rcases fu_hailuck_kbd_device_erase T c (fu_device_set_status Status.device_erase w) with
    ⟨e | u, w1⟩
  · simp only []
  simp only []
  rcases fu_hailuck_kbd_device_write_block_start T c 0
    (fu_device_set_status Status.device_write w1) with ⟨e | u, w2⟩ <;> simp only []

/-- The log of a run of steps has the shape of a run, and the run leaves the device fields
as they were. -/
theorem exec_shape {σ : Type} (T : Transport σ) (c : Consts) (script : List Step)
    (w : World σ) (hfit : ∀ x ∈ cmds_of script, x.fits) :
    run_shape c (new_log w (exec T c script w).2) ∧
      (exec T c script w).2.firmware_size_max = w.firmware_size_max ∧
      (exec T c script w).2.wait_for_replug = w.wait_for_replug := by
  rcases exec_cases T c script w hfit with
    ⟨d, w2, hr, hg, -⟩ | ⟨pre, x, post, e, w2, -, hr, hg, -, -⟩
  · rw [hr]
    refine ⟨⟨script, [], ?_, Or.inl rfl⟩, hg.2.1, hg.2.2⟩
    simp only [new_log_of_grows hg, List.append_nil]
  · rw [hr]
    exact ⟨⟨pre, _, new_log_of_grows hg, Or.inr ⟨x, e, rfl⟩⟩, hg.2.1, hg.2.2⟩

theorem new_log_self {σ : Type} (w : World σ) : new_log w w = [] := by
  simp [new_log]

/-- The log of any run of `write_firmware` has the shape of a run, and the run leaves the
maximum firmware size as it was. -/
theorem write_firmware_shape {σ : Type} (T : Transport σ) (c : Consts)
    (firmware : Option (List Nat)) (w : World σ) :
    run_shape c (new_log w (fu_hailuck_kbd_device_write_firmware T c firmware w).2) ∧
      (fu_hailuck_kbd_device_write_firmware T c firmware w).2.firmware_size_max =
        w.firmware_size_max := by
  cases firmware with
  | none =>
    have h : fu_hailuck_kbd_device_write_firmware T c none w = (.error .no_image, w) := rfl
    rw [h]
    exact ⟨⟨[], [], by simp [new_log_self], Or.inl rfl⟩, rfl⟩
  | some fw =>
    by_cases hne : fw = []
    · subst hne
      have hfit : ∀ x ∈ cmds_of [Step.status .device_erase, .cmd .erase,
          .status .device_write, .cmd (.begin_write 0)], x.fits := by
        intro x hx
        apply fits_of_le
        simp only [cmds_of, List.mem_cons, List.mem_singleton, List.not_mem_nil, or_false] at hx
        rcases hx with h | h <;> simp [h, Cmd.payload]
      have hs := exec_shape T c _ w hfit
      simp only [fu_hailuck_kbd_device_write_firmware, before_verify_empty]
      rcases hx : exec T c [Step.status .device_erase, .cmd .erase, .status .device_write,
          .cmd (.begin_write 0)] w with ⟨e | d, w2⟩
      · rw [hx] at hs
        exact ⟨hs.1, hs.2.1⟩
      · rw [hx] at hs
        exact ⟨hs.1, hs.2.1⟩
    · have hfit : ∀ x ∈ cmds_of (write_steps fw ++ dump_steps w.firmware_size_max),
          x.fits := by
        rw [cmds_of_append, cmds_of_write_steps, cmds_of_dump_steps]
        intro x hx
        rcases List.mem_append.mp hx with h | h
        · exact write_cmds_fit fw x h
        · exact dump_cmds_fit _ x h
      have hs := exec_shape T c _ w hfit
      rw [write_firmware_eq T c fw w hne]
      rcases hx : exec T c (write_steps fw ++ dump_steps w.firmware_size_max) w with
        ⟨e | d, w2⟩
      · rw [hx] at hs
        exact ⟨hs.1, hs.2.1⟩
      · rw [hx] at hs
        exact ⟨hs.1, hs.2.1⟩

/-- The log of any run of `dump_firmware` has the shape of a run. -/
theorem dump_firmware_shape {σ : Type} (T : Transport σ) (c : Consts) (w : World σ) :
    run_shape c (new_log w (fu_hailuck_kbd_device_dump_firmware T c w).2) := by
  have hfit : ∀ x ∈ cmds_of (dump_steps w.firmware_size_max), x.fits := by
    rw [cmds_of_dump_steps]
    exact dump_cmds_fit _
  rw [dump_firmware_eq]
  exact (exec_shape T c _ w hfit).1

/-- C11: erase sends exactly one request, the 6-byte short frame
[short report-id, ERASE, 0x45, 0x45, 0x45, 0x45] on report 0x05; when the transport
accepts it, erase waits the 2-second window (`fu_device_sleep_with_progress (device, 2)`)
and returns success; when the transport fails it returns the failure and does not wait. -/
theorem C11_erase_frame_and_delay {σ : Type} (T : Transport σ) (c : Consts) (w : World σ) :
    ∃ err, (T.set_report 0x05 [c.FU_HAILUCK_KBD_REPORT_ID_SHORT, c.FU_HAILUCK_CMD_ERASE,
        0x45, 0x45, 0x45, 0x45] 100 w.hid).1 = err ∧
      [c.FU_HAILUCK_KBD_REPORT_ID_SHORT, c.FU_HAILUCK_CMD_ERASE,
        0x45, 0x45, 0x45, 0x45].length = 6 ∧
      sent (new_log w (fu_hailuck_kbd_device_erase T c w).2) =
        [⟨false, 0x05, [c.FU_HAILUCK_KBD_REPORT_ID_SHORT, c.FU_HAILUCK_CMD_ERASE,
          0x45, 0x45, 0x45, 0x45], 100⟩] ∧
      (err = none →
        (fu_hailuck_kbd_device_erase T c w).1 = .ok () ∧
        new_log w (fu_hailuck_kbd_device_erase T c w).2 =
          [Event.set_report 0x05 [c.FU_HAILUCK_KBD_REPORT_ID_SHORT, c.FU_HAILUCK_CMD_ERASE,
            0x45, 0x45, 0x45, 0x45] 100 none, Event.sleep_with_progress 2]) ∧
      (∀ e, err = some e →
        (fu_hailuck_kbd_device_erase T c w).1 = .error (.transport e) ∧
        new_log w (fu_hailuck_kbd_device_erase T c w).2 =
          [Event.set_report 0x05 [c.FU_HAILUCK_KBD_REPORT_ID_SHORT, c.FU_HAILUCK_CMD_ERASE,
            0x45, 0x45, 0x45, 0x45] 100 (some e)]) := by
  rcases h : T.set_report 0x05 [c.FU_HAILUCK_KBD_REPORT_ID_SHORT, c.FU_HAILUCK_CMD_ERASE,
      0x45, 0x45, 0x45, 0x45] 100 w.hid with ⟨_ | e, s⟩
  · refine ⟨none, rfl, rfl, ?_, ?_, ?_⟩
    · simp [fu_hailuck_kbd_device_erase, fu_hid_device_set_report, h,
        fu_device_sleep_with_progress, new_log, sent, calls, Event.call]
    · intro _
      simp [fu_hailuck_kbd_device_erase, fu_hid_device_set_report, h,
        fu_device_sleep_with_progress, new_log]
    · intro e he
      simp at he
  · refine ⟨some e, rfl, rfl, ?_, ?_, ?_⟩
    · simp [fu_hailuck_kbd_device_erase, fu_hid_device_set_report, h, new_log, sent, calls,
        Event.call]
    · intro he
      simp at he
    · intro e2 he
      simp only [Option.some.injEq] at he
      subst he
      simp [fu_hailuck_kbd_device_erase, fu_hid_device_set_report, h, new_log]

/-- C13: attach sends exactly one request, the 6-byte short frame
[short report-id, 0x55, 0x55, 0x55, 0x55, 0x55]. When the frame is accepted it issues the
bus-level reset; when the reset succeeds too it marks the device as waiting for replug
and returns success. When the frame fails no reset is issued; when the frame or the reset
fails attach returns that failure and leaves the waiting-for-replug mark as it was. -/
theorem C13_attach {σ : Type} (T : Transport σ) (c : Consts) (w : World σ) :
    ∃ err_frame, (T.set_report 0x05 [c.FU_HAILUCK_KBD_REPORT_ID_SHORT,
        0x55, 0x55, 0x55, 0x55, 0x55] 1000 w.hid).1 = err_frame ∧
      [c.FU_HAILUCK_KBD_REPORT_ID_SHORT, 0x55, 0x55, 0x55, 0x55, 0x55].length = 6 ∧
      sent (new_log w (fu_hailuck_kbd_device_attach T c w).2) =
        [⟨false, 0x05, [c.FU_HAILUCK_KBD_REPORT_ID_SHORT, 0x55, 0x55, 0x55, 0x55, 0x55],
          1000⟩] ∧
      (∀ e, err_frame = some e →
        (fu_hailuck_kbd_device_attach T c w).1 = .error (.transport e) ∧
        new_log w (fu_hailuck_kbd_device_attach T c w).2 =
          [Event.set_status .device_restart,
            Event.set_report 0x05 [c.FU_HAILUCK_KBD_REPORT_ID_SHORT,
              0x55, 0x55, 0x55, 0x55, 0x55] 1000 (some e)] ∧
        (fu_hailuck_kbd_device_attach T c w).2.wait_for_replug = w.wait_for_replug) ∧
      (err_frame = none →
        ∃ err_reset, (T.reset (T.set_report 0x05 [c.FU_HAILUCK_KBD_REPORT_ID_SHORT,
            0x55, 0x55, 0x55, 0x55, 0x55] 1000 w.hid).2).1 = err_reset ∧
          new_log w (fu_hailuck_kbd_device_attach T c w).2 =
            [Event.set_status .device_restart,
              Event.set_report 0x05 [c.FU_HAILUCK_KBD_REPORT_ID_SHORT,
                0x55, 0x55, 0x55, 0x55, 0x55] 1000 none,
              Event.usb_reset err_reset] ∧
          (err_reset = none →
            (fu_hailuck_kbd_device_attach T c w).1 = .ok () ∧
            (fu_hailuck_kbd_device_attach T c w).2.wait_for_replug = true) ∧
          (∀ e, err_reset = some e →
            (fu_hailuck_kbd_device_attach T c w).1 = .error (.transport e) ∧
            (fu_hailuck_kbd_device_attach T c w).2.wait_for_replug = w.wait_for_replug)) := by
  rcases h : T.set_report 0x05 [c.FU_HAILUCK_KBD_REPORT_ID_SHORT,
      0x55, 0x55, 0x55, 0x55, 0x55] 1000 w.hid with ⟨_ | e, s⟩
  · refine ⟨none, rfl, rfl, ?_, ?_, ?_⟩
    · rcases h2 : T.reset s with ⟨_ | e2, s2⟩ <;>
        simp [fu_hailuck_kbd_device_attach, fu_hid_device_set_report, g_usb_device_reset,
          fu_device_set_status, fu_device_add_flag_wait_for_replug, h, h2, new_log, sent,
          calls, Event.call]
    · intro e he
      simp at he
    · intro _
      rcases h2 : T.reset s with ⟨_ | e2, s2⟩
      · refine ⟨none, rfl, ?_, ?_, ?_⟩
        · simp [fu_hailuck_kbd_device_attach, fu_hid_device_set_report, g_usb_device_reset,
            fu_device_set_status, fu_device_add_flag_wait_for_replug, h, h2, new_log]
        · intro _
          simp [fu_hailuck_kbd_device_attach, fu_hid_device_set_report, g_usb_device_reset,
            fu_device_set_status, fu_device_add_flag_wait_for_replug, h, h2]
        · intro e he
          simp at he
      · refine ⟨some e2, rfl, ?_, ?_, ?_⟩
        · simp [fu_hailuck_kbd_device_attach, fu_hid_device_set_report, g_usb_device_reset,
            fu_device_set_status, fu_device_add_flag_wait_for_replug, h, h2, new_log]
        · intro he
          simp at he
        · intro e3 he
          simp only [Option.some.injEq] at he
          subst he
          simp [fu_hailuck_kbd_device_attach, fu_hid_device_set_report, g_usb_device_reset,
            fu_device_set_status, fu_device_add_flag_wait_for_replug, h, h2]
  · refine ⟨some e, rfl, rfl, ?_, ?_, ?_⟩
    · simp [fu_hailuck_kbd_device_attach, fu_hid_device_set_report,
        fu_device_set_status, h, new_log, sent, calls, Event.call]
    · intro e2 he
      simp only [Option.some.injEq] at he
      subst he
      simp [fu_hailuck_kbd_device_attach, fu_hid_device_set_report,
        fu_device_set_status, h, new_log]
    · intro he
      simp at he

/-- C14: detach sends exactly one request, the 6-byte short frame
[short report-id, 0x75, 0x00, 0x00, 0x00, 0x00]; when the transport accepts it, detach
marks the device as waiting for replug and returns success; when the transport fails,
detach returns that failure and leaves the waiting-for-replug mark as it was. -/
theorem C14_detach {σ : Type} (T : Transport σ) (c : Consts) (w : World σ) :
    ∃ err, (T.set_report 0x05 [c.FU_HAILUCK_KBD_REPORT_ID_SHORT,
        0x75, 0x00, 0x00, 0x00, 0x00] 1000 w.hid).1 = err ∧
      [c.FU_HAILUCK_KBD_REPORT_ID_SHORT, 0x75, 0x00, 0x00, 0x00, 0x00].length = 6 ∧
      sent (new_log w (fu_hailuck_kbd_device_detach T c w).2) =
        [⟨false, 0x05, [c.FU_HAILUCK_KBD_REPORT_ID_SHORT, 0x75, 0x00, 0x00, 0x00, 0x00],
          1000⟩] ∧
      (err = none →
        (fu_hailuck_kbd_device_detach T c w).1 = .ok () ∧
        (fu_hailuck_kbd_device_detach T c w).2.wait_for_replug = true ∧
        new_log w (fu_hailuck_kbd_device_detach T c w).2 =
          [Event.set_status .device_restart,
            Event.set_report 0x05 [c.FU_HAILUCK_KBD_REPORT_ID_SHORT,
              0x75, 0x00, 0x00, 0x00, 0x00] 1000 none]) ∧
      (∀ e, err = some e →
        (fu_hailuck_kbd_device_detach T c w).1 = .error (.transport e) ∧
        (fu_hailuck_kbd_device_detach T c w).2.wait_for_replug = w.wait_for_replug ∧
        new_log w (fu_hailuck_kbd_device_detach T c w).2 =
          [Event.set_status .device_restart,
            Event.set_report 0x05 [c.FU_HAILUCK_KBD_REPORT_ID_SHORT,
              0x75, 0x00, 0x00, 0x00, 0x00] 1000 (some e)]) := by
  rcases h : T.set_report 0x05 [c.FU_HAILUCK_KBD_REPORT_ID_SHORT,
      0x75, 0x00, 0x00, 0x00, 0x00] 1000 w.hid with ⟨_ | e, s⟩
  · refine ⟨none, rfl, rfl, ?_, ?_, ?_⟩
    · simp [fu_hailuck_kbd_device_detach, fu_hid_device_set_report, fu_device_set_status,
        fu_device_add_flag_wait_for_replug, h, new_log, sent, calls, Event.call]
    · intro _
      simp [fu_hailuck_kbd_device_detach, fu_hid_device_set_report, fu_device_set_status,
        fu_device_add_flag_wait_for_replug, h, new_log]
    · intro e he
      simp at he
  · refine ⟨some e, rfl, rfl, ?_, ?_, ?_⟩
    · simp [fu_hailuck_kbd_device_detach, fu_hid_device_set_report, fu_device_set_status,
        h, new_log, sent, calls, Event.call]
    · intro he
      simp at he
    · intro e2 he
      simp only [Option.some.injEq] at he
      subst he
      simp [fu_hailuck_kbd_device_detach, fu_hid_device_set_report, fu_device_set_status,
        h, new_log]

theorem required_delay_is_delay (c : Consts) (ev d : Event)
    (h : required_delay c ev = some d) : d.is_delay = true := by
  cases ev with
  | set_report value buf timeout err =>
    cases err with
    | none =>
      simp only [required_delay] at h
      split at h
      · simp only [Option.some.injEq] at h
        rw [← h]
        rfl
      · split at h
        · simp only [Option.some.injEq] at h
          rw [← h]
          rfl
        · simp at h
    | some e => simp [required_delay] at h
  | get_report value buf timeout err =>
    cases err with
    | none =>
      simp only [required_delay] at h
      split at h
      · simp only [Option.some.injEq] at h
        rw [← h]
        rfl
      · simp at h
    | some e => simp [required_delay] at h
  | usb_reset err => simp [required_delay] at h
  | usleep us => simp [required_delay] at h
  | sleep_with_progress secs => simp [required_delay] at h
  | set_status s => simp [required_delay] at h
  | set_progress_full i n => simp [required_delay] at h

theorem required_delay_of_delay (c : Consts) (ev : Event) (h : ev.is_delay = true) :
    required_delay c ev = none := by
  cases ev <;> simp [Event.is_delay] at h <;> rfl

/-- The delay a command owes after it succeeded, read off its log entry, is the delay the
code takes after it: 2 s after erase, 10 ms after write_block and read_block, none after
begin_write and begin_read. -/
theorem required_delay_cmd (c : Consts) (x : Cmd) :
    required_delay c ((x.request c).event none) = x.settle.head? := by
  cases x with
  | erase => simp [Cmd.request, Request.event, required_delay, erase_frame, Cmd.settle]
  | begin_write n =>
    simp [Cmd.request, Request.event, required_delay, erase_frame, Cmd.settle, short_frame]
  | write_block data => simp [Cmd.request, Request.event, required_delay, Cmd.settle]
  | begin_read n =>
    simp [Cmd.request, Request.event, required_delay, erase_frame, Cmd.settle, short_frame]
  | read_block n => simp [Cmd.request, Request.event, required_delay, Cmd.settle]

theorem request_event_not_delay (r : Request) (err : Option Nat) :
    (r.event err).is_delay = false := by
  unfold Request.event
  split <;> rfl

theorem well_delayed_skip (c : Consts) (ev : Event) (rest : List Event)
    (h1 : ev.is_delay = false) (h2 : required_delay c ev = none) :
    well_delayed c none (ev :: rest) = well_delayed c none rest := by
  simp only [well_delayed, h1, h2, Bool.not_false, Bool.true_and]

theorem well_delayed_take (c : Consts) (ev d : Event) (rest : List Event)
    (h1 : ev.is_delay = false) (h2 : required_delay c ev = some d) :
    well_delayed c none (ev :: d :: rest) = well_delayed c none rest := by
  simp only [well_delayed, h1, h2, Bool.not_false, Bool.true_and, decide_True]

theorem well_delayed_cmd (c : Consts) (x : Cmd) (rest : List Event) :
    well_delayed c none ((x.request c).event none :: (x.settle ++ rest)) =
      well_delayed c none rest := by
  have h1 := required_delay_cmd c x
  have h2 := request_event_not_delay (x.request c) none
  cases x with
  | erase => exact well_delayed_take c _ _ rest h2 h1
  | begin_write n => exact well_delayed_skip c _ rest h2 h1
  | write_block data => exact well_delayed_take c _ _ rest h2 h1
  | begin_read n => exact well_delayed_skip c _ rest h2 h1
  | read_block n => exact well_delayed_take c _ _ rest h2 h1

theorem well_delayed_events (c : Consts) (steps : List Step) (tail : List Event) :
    well_delayed c none (steps.flatMap (Step.events c) ++ tail) = well_delayed c none tail := by
  induction steps with
  | nil => rfl
  | cons st rest ih =>
    cases st with
    | cmd x =>
      simp only [List.flatMap_cons, Step.events, List.cons_append, List.append_assoc]
      rw [well_delayed_cmd, ih]
    | status s =>
      simp only [List.flatMap_cons, Step.events, List.cons_append, List.nil_append]
      rw [well_delayed_skip c (Event.set_status s) _ rfl rfl, ih]
    | progress i n =>
      simp only [List.flatMap_cons, Step.events, List.cons_append, List.nil_append]
      rw [well_delayed_skip c (Event.set_progress_full i n) _ rfl rfl, ih]

/-- A log with the shape of a run has its delays in place. -/
theorem well_delayed_of_shape (c : Consts) (log : List Event) (h : run_shape c log) :
    well_delayed c none log = true := by
  obtain ⟨steps, last, hlog, hlast⟩ := h
  rw [hlog, well_delayed_events]
  rcases hlast with h | ⟨x, e, h⟩
  · rw [h]
    rfl
  · rw [h]
    have hr : required_delay c ((x.request c).event (some e)) = none := by
      unfold Request.event
      split <;> rfl
    simp only [well_delayed, request_event_not_delay, hr, Bool.not_false, Bool.true_and]

/-- What a log with its delays in place provides: the owed delay comes first, every
command that owes a delay is followed at once by it, and every delay is owed by the
entry before it. -/
theorem well_delayed_props (c : Consts) : ∀ (log : List Event) (owed : Option Event),
    (∀ d, owed = some d → d.is_delay = true) → well_delayed c owed log = true →
    (∀ d, owed = some d → log[0]? = some d) ∧ delays_follow c log ∧
    (∀ (i : Nat) (ev : Event), log[i]? = some ev → ev.is_delay = true →
      (i = 0 ∧ owed = some ev) ∨
      ∃ (j : Nat) (prev : Event), i = j + 1 ∧ log[j]? = some prev ∧
        required_delay c prev = some ev) := by
  intro log
  induction log with
  | nil =>
    intro owed _ hwd
    cases owed with
    | none =>
      refine ⟨by simp, ?_, ?_⟩
      · intro i ev d h
        simp at h
      · intro i ev h
        simp at h
    | some d => simp [well_delayed] at hwd
  | cons ev rest ih =>
    intro owed howed hwd
    cases owed with
    | some d =>
      simp only [well_delayed, Bool.and_eq_true, decide_eq_true_eq] at hwd
      obtain ⟨hev, hrest⟩ := hwd
      subst hev
      obtain ⟨-, hf, ho⟩ := ih none (by simp) hrest
      have hdel : ev.is_delay = true := howed ev rfl
      refine ⟨by simp, ?_, ?_⟩
      · intro i e2 d2 h1 h2
        cases i with
        | zero =>
          simp only [List.getElem?_cons_zero, Option.some.injEq] at h1
          subst h1
          rw [required_delay_of_delay c _ hdel] at h2
          simp at h2
        | succ k =>
          simp only [List.getElem?_cons_succ] at h1 ⊢
          exact hf k e2 d2 h1 h2
      · intro i e2 h1 h2
        cases i with
        | zero =>
          simp only [List.getElem?_cons_zero, Option.some.injEq] at h1
          subst h1
          exact Or.inl ⟨rfl, rfl⟩
        | succ k =>
          simp only [List.getElem?_cons_succ] at h1
          rcases ho k e2 h1 h2 with ⟨-, h⟩ | ⟨j, prev, hj, hp, hq⟩
          · simp at h
          · exact Or.inr ⟨j + 1, prev, by omega, by simpa using hp, hq⟩
    | none =>
      simp only [well_delayed, Bool.and_eq_true, Bool.not_eq_true'] at hwd
      obtain ⟨hnd, hrest⟩ := hwd
      obtain ⟨h0, hf, ho⟩ := ih (required_delay c ev)
        (fun d hd => required_delay_is_delay c ev d hd) hrest
      refine ⟨by simp, ?_, ?_⟩
      · intro i e2 d2 h1 h2
        cases i with
        | zero =>
          simp only [List.getElem?_cons_zero, Option.some.injEq] at h1
          subst h1
          simpa using h0 d2 h2
        | succ k =>
          simp only [List.getElem?_cons_succ] at h1 ⊢
          exact hf k e2 d2 h1 h2
      · intro i e2 h1 h2
        cases i with
        | zero =>
          simp only [List.getElem?_cons_zero, Option.some.injEq] at h1
          subst h1
          rw [hnd] at h2
          simp at h2
        | succ k =>
          simp only [List.getElem?_cons_succ] at h1
          rcases ho k e2 h1 h2 with ⟨hk, h⟩ | ⟨j, prev, hj, hp, hq⟩
          · exact Or.inr ⟨0, ev, by omega, by simp, h⟩
          · exact Or.inr ⟨j + 1, prev, by omega, by simpa using hp, hq⟩

/-- A log with the shape of a run: every command that owes a delay is followed at once by
it, and every delay is owed by the entry before it. -/
theorem delays_of_shape (c : Consts) (log : List Event) (h : run_shape c log) :
    delays_follow c log ∧ delays_owed c log := by
  obtain ⟨-, hf, ho⟩ := well_delayed_props c log none (by simp) (well_delayed_of_shape c log h)
  refine ⟨hf, ?_⟩
  intro i ev h1 h2
  rcases ho i ev h1 h2 with ⟨-, h⟩ | h
  · simp at h
  · exact h

/-- C12: in every run of `write_firmware` and of `dump_firmware`, failed or not, each
write_block and read_block that succeeded is followed at once by one 10 ms delay and each
erase that succeeded by one 2 s delay, before anything else is sent; every delay in the log
is the one owed by the entry right before it, so exactly one delay is taken per command
and no command is sent before the delay of the earlier one. -/
theorem C12_mandatory_delays {σ : Type} (T : Transport σ) (c : Consts)
    (firmware : Option (List Nat)) (w : World σ) :
    delays_follow c (new_log w (fu_hailuck_kbd_device_write_firmware T c firmware w).2) ∧
    delays_owed c (new_log w (fu_hailuck_kbd_device_write_firmware T c firmware w).2) ∧
    delays_follow c (new_log w (fu_hailuck_kbd_device_dump_firmware T c w).2) ∧
    delays_owed c (new_log w (fu_hailuck_kbd_device_dump_firmware T c w).2) ∧
    (∀ data, required_delay c (((Cmd.write_block data).request c).event none) =
      some (Event.usleep 10000)) ∧
    (∀ n, required_delay c (((Cmd.read_block n).request c).event none) =
      some (Event.usleep 10000)) ∧
    required_delay c ((Cmd.erase.request c).event none) = some (Event.sleep_with_progress 2) ∧
    (∀ n, required_delay c (((Cmd.begin_write n).request c).event none) = none) ∧
    (∀ n, required_delay c (((Cmd.begin_read n).request c).event none) = none) := by
  have h1 := delays_of_shape c _ (write_firmware_shape T c firmware w).1
  have h2 := delays_of_shape c _ (dump_firmware_shape T c w)
  refine ⟨h1.1, h1.2, h2.1, h2.2, ?_, ?_, ?_, ?_, ?_⟩
  · intro data
    rw [required_delay_cmd]
    rfl
  · intro n
    rw [required_delay_cmd]
    rfl
  · rw [required_delay_cmd]
    rfl
  · intro n
    rw [required_delay_cmd]
    rfl
  · intro n
    rw [required_delay_cmd]
    rfl

/-- The check of the delays is not void: a write_block that succeeded and is followed at
once by another request fails it. -/
theorem delays_follow_rejects :
    ¬ delays_follow sample_consts
      [Event.set_report 0x06 [0x06, 0x77, 1] 2000 none,
        Event.set_report 0x05 [0x05, 0x57, 0, 0, 1, 0] 100 none] := by
  intro h
  have h1 := h 0 _ (Event.usleep 10000) rfl rfl
  simp at h1

theorem timeout_by_kind_request (c : Consts) (x : Cmd) : timeout_by_kind (x.request c) := by
  cases x <;> simp [timeout_by_kind, Cmd.request, short_frame]

/-- The requests of a log with the shape of a run have the timeout of their frame kind. -/
theorem timeouts_of_shape (c : Consts) (log : List Event) (h : run_shape c log) :
    ∀ r ∈ sent log, timeout_by_kind r := by
  obtain ⟨steps, last, hlog, hlast⟩ := h
  intro r hr
  rw [hlog, sent_append, sent_events] at hr
  rcases List.mem_append.mp hr with h1 | h1
  · obtain ⟨x, -, hx⟩ := List.mem_map.mp h1
    rw [← hx]
    exact timeout_by_kind_request c x
  · rcases hlast with h2 | ⟨x, e, h2⟩
    · rw [h2] at h1
      simp [sent, calls] at h1
    · rw [h2] at h1
      simp only [sent, calls_request_event, List.map_cons] at h1
      have : r = x.request c := by simpa [calls] using h1
      rw [this]
      exact timeout_by_kind_request c x

/-- The log of one command has the shape of a run. -/
theorem cmd_run_shape {σ : Type} (T : Transport σ) (c : Consts) (x : Cmd) (w : World σ)
    (h : x.fits) : run_shape c (new_log w (x.run T c w).2) := by
  rcases Cmd.run_cases T c x w h with ⟨reply, w2, hr, hg, -⟩ | ⟨e, reply, w2, hr, hg, -⟩
  · rw [hr]
    refine ⟨[Step.cmd x], [], ?_, Or.inl rfl⟩
    simp [new_log_of_grows hg]
  · rw [hr]
    exact ⟨[], _, by simp [new_log_of_grows hg], Or.inr ⟨x, e, rfl⟩⟩

theorem detach_sent {σ : Type} (T : Transport σ) (c : Consts) (w : World σ) :
    sent (new_log w (fu_hailuck_kbd_device_detach T c w).2) =
      [⟨false, 0x05, [c.FU_HAILUCK_KBD_REPORT_ID_SHORT, 0x75, 0x00, 0x00, 0x00, 0x00],
        1000⟩] := by
  rcases h : T.set_report 0x05 [c.FU_HAILUCK_KBD_REPORT_ID_SHORT,
      0x75, 0x00, 0x00, 0x00, 0x00] 1000 w.hid with ⟨_ | e, s⟩ <;>
    simp [fu_hailuck_kbd_device_detach, fu_hid_device_set_report, fu_device_set_status,
      fu_device_add_flag_wait_for_replug, h, new_log, sent, calls, Event.call]

theorem attach_sent {σ : Type} (T : Transport σ) (c : Consts) (w : World σ) :
    sent (new_log w (fu_hailuck_kbd_device_attach T c w).2) =
      [⟨false, 0x05, [c.FU_HAILUCK_KBD_REPORT_ID_SHORT, 0x55, 0x55, 0x55, 0x55, 0x55],
        1000⟩] := by
  rcases h : T.set_report 0x05 [c.FU_HAILUCK_KBD_REPORT_ID_SHORT,
      0x55, 0x55, 0x55, 0x55, 0x55] 1000 w.hid with ⟨_ | e, s⟩
  · rcases h2 : T.reset s with ⟨_ | e2, s2⟩ <;>
      simp [fu_hailuck_kbd_device_attach, fu_hid_device_set_report, g_usb_device_reset,
        fu_device_set_status, fu_device_add_flag_wait_for_replug, h, h2, new_log, sent,
        calls, Event.call]
  · simp [fu_hailuck_kbd_device_attach, fu_hid_device_set_report,
      fu_device_set_status, h, new_log, sent, calls, Event.call]

/-- C15 (amended): every request of the block transfer commands (erase, begin_read,
begin_write, read_block, write_block), alone or within any run of `write_firmware` or
`dump_firmware`, has the timeout of its frame kind, 100 ms for a 6-byte short frame and
2000 ms for a long frame; the short frames of detach and attach are sent with a timeout
of 1000 ms. -/
theorem C15_timeouts {σ : Type} (T : Transport σ) (c : Consts)
    (firmware : Option (List Nat)) (w : World σ) :
    (∀ r ∈ sent (new_log w (fu_hailuck_kbd_device_write_firmware T c firmware w).2),
      timeout_by_kind r) ∧
    (∀ r ∈ sent (new_log w (fu_hailuck_kbd_device_dump_firmware T c w).2),
      timeout_by_kind r) ∧
    (∀ x : Cmd, x.fits → ∀ r ∈ sent (new_log w (x.run T c w).2), timeout_by_kind r) ∧
    sent (new_log w (fu_hailuck_kbd_device_detach T c w).2) =
      [⟨false, 0x05, [c.FU_HAILUCK_KBD_REPORT_ID_SHORT, 0x75, 0x00, 0x00, 0x00, 0x00],
        1000⟩] ∧
    sent (new_log w (fu_hailuck_kbd_device_attach T c w).2) =
      [⟨false, 0x05, [c.FU_HAILUCK_KBD_REPORT_ID_SHORT, 0x55, 0x55, 0x55, 0x55, 0x55],
        1000⟩] :=
  ⟨timeouts_of_shape c _ (write_firmware_shape T c firmware w).1,
    timeouts_of_shape c _ (dump_firmware_shape T c w),
    fun x hx => timeouts_of_shape c _ (cmd_run_shape T c x w hx),
    detach_sent T c w, attach_sent T c w⟩

/-- C15 as stated fails for detach: its 6-byte short frame is sent with a timeout of
1000 ms, not 100 ms. -/
theorem C15_counterexample :
    ∃ r ∈ sent (new_log (fresh_world ()) (fu_hailuck_kbd_device_detach quiet_transport
        sample_consts (fresh_world ())).2),
      r.value = 0x05 ∧ r.buf.length = 6 ∧ r.timeout = 1000 ∧ r.timeout ≠ 100 ∧
        ¬ timeout_by_kind r := by
  refine ⟨⟨false, 0x05, [0x05, 0x75, 0x00, 0x00, 0x00, 0x00], 1000⟩, by decide,
    rfl, rfl, rfl, by decide, ?_⟩
  unfold timeout_by_kind
  decide

/-- Block `i` of the chunking starts `p * i` bytes after the first block and holds the
bytes of the buffer from there, at most `p` of them. -/
theorem chunk_go_getElem (p : Nat) : ∀ (fuel offset : Nat) (data : List Nat) (i : Nat)
    (chk : Chunk), (fu_chunk_array_go p fuel offset data)[i]? = some chk →
    chk.offset = offset + p * i ∧ chk.data = (data.drop (p * i)).take p := by
  intro fuel
  induction fuel with
  | zero =>
    intro offset data i chk h
    simp [fu_chunk_array_go] at h
  | succ fuel ih =>
    intro offset data i chk h
    by_cases hd : data = []
    · simp [fu_chunk_array_go, hd] at h
    · rw [chunk_go_cons _ _ _ _ hd] at h
      cases i with
      | zero =>
        simp only [List.getElem?_cons_zero, Option.some.injEq] at h
        rw [← h]
        simp
      | succ k =>
        simp only [List.getElem?_cons_succ] at h
        obtain ⟨h1, h2⟩ := ih _ _ k chk h
        refine ⟨?_, ?_⟩
        · rw [h1, Nat.mul_succ]
          omega
        · rw [h2, List.drop_drop, Nat.mul_succ]
          congr 2
          omega

/-- C16: the partition into blocks of packet size 2048 that `write_firmware` and
`dump_firmware` use gives blocks of 1 to 2048 bytes each; block `i` is the span of the
image that starts at offset 2048 * i, so the blocks neither overlap nor leave a gap; their
sizes add up to the length of the image and their concatenation in order is the image.
This holds for every image, so for every image of at most 16 KiB. -/
theorem C16_chunking_round_trip (data : List Nat) :
    (∀ chk ∈ fu_chunk_array_new data 2048, 1 ≤ chk.data_sz ∧ chk.data_sz ≤ 2048) ∧
    ((fu_chunk_array_new data 2048).map Chunk.data).flatten = data ∧
    (∀ (i : Nat) (chk : Chunk), (fu_chunk_array_new data 2048)[i]? = some chk →
      chk.offset = 2048 * i ∧ chk.data = (data.drop (2048 * i)).take 2048) ∧
    ((fu_chunk_array_new data 2048).map Chunk.data_sz).sum = data.length := by
  refine ⟨chunks_sizes data, chunks_flatten data, ?_, ?_⟩
  · intro i chk h
    unfold fu_chunk_array_new at h
    rw [if_neg (by decide)] at h
    have := chunk_go_getElem 2048 _ _ _ i chk h
    simpa using this
  · have h := congrArg List.length (chunks_flatten data)
    rw [List.length_flatten, List.map_map] at h
    exact h

theorem ask_all_payloads {σ : Type} (T : Transport σ) (c : Consts) (xs : List Cmd) :
    ∀ (s s2 : σ) (d : List Nat), ask_all T c xs s = some (d, s2) →
      d = (payloads_of T c xs s).flatten := by
  induction xs with
  | nil =>
    intro s s2 d h
    simp only [ask_all, Option.some.injEq, Prod.mk.injEq] at h
    simp [payloads_of, ← h.1]
  | cons x rest ih =>
    intro s s2 d h
    simp only [ask_all] at h
    rcases hq : (x.request c).ask T s with ⟨_ | e, reply, s1⟩
    · rw [hq] at h
      simp only at h
      rcases hr : ask_all T c rest s1 with _ | ⟨d1, s3⟩
      · rw [hr] at h
        simp at h
      · rw [hr] at h
        simp only [Option.some.injEq, Prod.mk.injEq] at h
        rw [← h.1, ih s1 s3 d1 hr]
        simp [payloads_of, hq]
    · rw [hq] at h
      simp at h

theorem payloads_of_length {σ : Type} (T : Transport σ) (c : Consts) (xs : List Cmd) :
    ∀ s : σ, (payloads_of T c xs s).length = xs.length := by
  induction xs with
  | nil =>
    intro s
    rfl
  | cons x rest ih =>
    intro s
    simp [payloads_of, ih]

theorem payloads_of_sizes {σ : Type} (T : Transport σ) (c : Consts) (n k : Nat) :
    ∀ s : σ, ∀ p ∈ payloads_of T c (List.replicate k (Cmd.read_block n)) s, p.length = n := by
  induction k with
  | zero =>
    intro s p hp
    simp [payloads_of] at hp
  | succ k ih =>
    intro s p hp
    simp only [List.replicate_succ, payloads_of, List.mem_cons] at hp
    rcases hp with h | h
    · rw [h, Cmd.result_length]
      rfl
    · exact ih _ p h

/-- C17: with the maximum firmware size at the 0x4000 set by init, a run of
`dump_firmware` in which every report call succeeds sends one begin_read announcing 0x4000
and then 8 read_block requests of 2048 bytes each, and hands back 16384 bytes: the
concatenation, in order, of the 8 payloads of 2048 bytes copied out of the device's
replies. The device state and the log before the run are arbitrary, and `write_firmware`
leaves the maximum firmware size as it was, so neither the requests nor the size of the
result depend on the length of an image written before. -/
theorem C17_dump_reads_whole_flash {σ : Type} (T : Transport σ) (c : Consts) (w : World σ)
    (hS : w.firmware_size_max = 0x4000)
    (hok : all_succeeded (new_log w (fu_hailuck_kbd_device_dump_firmware T c w).2)) :
    ∃ d w2 payloads,
      fu_hailuck_kbd_device_dump_firmware T c w = (.ok d, w2) ∧
      sent (new_log w w2) =
        (Cmd.begin_read 0x4000 :: List.replicate 8 (Cmd.read_block 2048)).map
          (Cmd.request c) ∧
      d.length = 16384 ∧
      payloads = payloads_of T c (List.replicate 8 (Cmd.read_block 2048))
        (T.set_report 0x05 (short_frame c c.FU_HAILUCK_CMD_READ_BLOCK_START 0x4000) 100
          w.hid).2 ∧
      payloads.length = 8 ∧ (∀ p ∈ payloads, p.length = 2048) ∧
      d = payloads.flatten ∧
      (∀ (T2 : Transport σ) (firmware : Option (List Nat)) (v : World σ),
        (fu_hailuck_kbd_device_write_firmware T2 c firmware v).2.firmware_size_max =
          v.firmware_size_max) := by
  obtain ⟨d, w2, hr, hg, hd, hT⟩ := dump_firmware_all_ok T c w hok
  rw [hS, dump_cmds_0x4000] at hT
  have hp := ask_all_payloads T c _ _ _ _ hT
  refine ⟨d, w2, _, hr, ?_, by rw [hd, hS], rfl, ?_, ?_, ?_, ?_⟩
  · simp only [new_log_of_grows hg, sent_events, cmds_of_dump_steps, hS, dump_cmds_0x4000]
  · rw [payloads_of_length]
    simp
  · exact payloads_of_sizes T c 2048 8 _
  · rw [hp]
    have h1 : payloads_of T c (Cmd.begin_read 0x4000 :: List.replicate 8 (Cmd.read_block 2048))
        w.hid = [] :: payloads_of T c (List.replicate 8 (Cmd.read_block 2048))
          (T.set_report 0x05 (short_frame c c.FU_HAILUCK_CMD_READ_BLOCK_START 0x4000) 100
            w.hid).2 := rfl
    rw [h1, List.flatten_cons, List.nil_append]
  · intro T2 firmware v
    exact (write_firmware_shape T2 c firmware v).2

/-- C17 over the quiet transport, right after init. -/
theorem C17_dump_reads_whole_flash_witness :
    ∃ d w2 payloads,
      fu_hailuck_kbd_device_dump_firmware quiet_transport sample_consts (fresh_world ()) =
        (.ok d, w2) ∧
      sent (new_log (fresh_world ()) w2) =
        (Cmd.begin_read 0x4000 :: List.replicate 8 (Cmd.read_block 2048)).map
          (Cmd.request sample_consts) ∧
      d.length = 16384 ∧
      payloads = payloads_of quiet_transport sample_consts
        (List.replicate 8 (Cmd.read_block 2048))
        (quiet_transport.set_report 0x05
          (short_frame sample_consts sample_consts.FU_HAILUCK_CMD_READ_BLOCK_START 0x4000) 100
          (fresh_world ()).hid).2 ∧
      payloads.length = 8 ∧ (∀ p ∈ payloads, p.length = 2048) ∧
      d = payloads.flatten ∧
      (∀ (T2 : Transport Unit) (firmware : Option (List Nat)) (v : World Unit),
        (fu_hailuck_kbd_device_write_firmware T2 sample_consts firmware v).2.firmware_size_max =
          v.firmware_size_max) :=
  C17_dump_reads_whole_flash quiet_transport sample_consts (fresh_world ()) rfl
    (dump_firmware_reliable quiet_transport sample_consts (fresh_world ()) quiet_reliable)

/-- C18: for every non-empty image the block array `write_firmware` builds has a block 0
and block 0 holds at least one byte, so indexing block 0 and writing byte 0 of its copy
are in bounds: no run ends in the out-of-bounds error. Non-emptiness is needed: with an
empty image the array has no block, and a run whose erase and begin_write succeed ends in
the out-of-bounds error. -/
theorem C18_block0_in_bounds {σ : Type} (T : Transport σ) (c : Consts) (fw : List Nat)
    (w : World σ) (hne : fw ≠ []) :
    (∃ chk0 rest, fu_chunk_array_new fw 2048 = chk0 :: rest ∧ 1 ≤ chk0.data_sz ∧
      (chk0.data.set 0 0x00).length = chk0.data_sz ∧ (chk0.data.set 0 0x00)[0]? = some 0x00) ∧
    (fu_hailuck_kbd_device_write_firmware_before_verify T c fw w).1 ≠ .error .out_of_bounds ∧
    (fu_hailuck_kbd_device_write_firmware T c (some fw) w).1 ≠ .error .out_of_bounds ∧
    fu_chunk_array_new [] 2048 = [] ∧
    (all_succeeded (new_log w (fu_hailuck_kbd_device_write_firmware_before_verify T c [] w).2) →
      (fu_hailuck_kbd_device_write_firmware_before_verify T c [] w).1 =
        .error .out_of_bounds) := by
  have hch := chunks_of_nonempty fw hne
  have hpos : 0 < fw.length := List.length_pos.mpr hne
  have h0 : (⟨0, fw.take 2048⟩ : Chunk).data ≠ [] := by
    cases fw with
    | nil => exact absurd rfl hne
    | cons a t => simp
  refine ⟨⟨_, _, hch, ?_, ?_, ?_⟩, ?_, ?_, rfl, ?_⟩
  · simp only [Chunk.data_sz, List.length_take]
    omega
  · simp [Chunk.data_sz]
  · obtain ⟨a, t, hat⟩ := List.exists_cons_of_ne_nil h0
    have hat2 : fw.take 2048 = a :: t := hat
    rw [hat2]
    simp
  · have hfit : ∀ x ∈ cmds_of (write_steps fw), x.fits := by
      rw [cmds_of_write_steps]
      exact write_cmds_fit fw
    rw [before_verify_eq T c fw w _ _ hch h0]
    rcases exec_cases T c (write_steps fw) w hfit with
      ⟨d, w1, hr, -, -⟩ | ⟨pre, x, post, e, w1, -, hr, -, -, -⟩
    · rw [hr]
      simp [discard]
    · rw [hr]
      simp [discard]
  · rcases write_firmware_cases T c fw w hne with
      ⟨d, w2, hr, -, -⟩ | ⟨pre, x, post, e, w2, -, hr, -, -⟩
    · rw [hr]
      rcases compare_cases fw d with h | h <;> simp [h]
    · rw [hr]
      simp
  · intro hok
    have hfit : ∀ x ∈ cmds_of [Step.status .device_erase, .cmd .erase,
        .status .device_write, .cmd (.begin_write 0)], x.fits := by
      intro x hx
      apply fits_of_le
      simp only [cmds_of, List.mem_cons, List.mem_singleton, List.not_mem_nil, or_false] at hx
      rcases hx with h | h <;> simp [h, Cmd.payload]
    rw [before_verify_empty] at hok ⊢
    rcases exec_cases T c _ w hfit with
      ⟨d, w1, hr, -, -⟩ | ⟨pre, x, post, e, w1, -, hr, hg, -, -⟩
    · rw [hr]
    · exfalso
      rw [hr] at hok
      simp only [new_log_of_grows hg] at hok
      have := hok (x.request c, some e) (by
        rw [calls_append, calls_request_event]
        simp)
      simp at this

/-- C18 on a 3-byte image over the quiet transport. -/
theorem C18_block0_in_bounds_witness :
    (∃ chk0 rest, fu_chunk_array_new [1, 2, 3] 2048 = chk0 :: rest ∧ 1 ≤ chk0.data_sz ∧
      (chk0.data.set 0 0x00).length = chk0.data_sz ∧ (chk0.data.set 0 0x00)[0]? = some 0x00) ∧
    (fu_hailuck_kbd_device_write_firmware_before_verify quiet_transport sample_consts
      [1, 2, 3] (fresh_world ())).1 ≠ .error .out_of_bounds ∧
    (fu_hailuck_kbd_device_write_firmware quiet_transport sample_consts (some [1, 2, 3])
      (fresh_world ())).1 ≠ .error .out_of_bounds ∧
    fu_chunk_array_new [] 2048 = [] ∧
    (all_succeeded (new_log (fresh_world ()) (fu_hailuck_kbd_device_write_firmware_before_verify
        quiet_transport sample_consts [] (fresh_world ())).2) →
      (fu_hailuck_kbd_device_write_firmware_before_verify quiet_transport sample_consts []
        (fresh_world ())).1 = .error .out_of_bounds) :=
  C18_block0_in_bounds quiet_transport sample_consts [1, 2, 3] (fresh_world ()) (by decide)

/-- C19: for every non-empty image of length L, in a run in which every report call before
the verify step succeeds, both begin_write requests of `write_firmware` carry the length
L mod 65536, low byte in position 4 and high byte in position 5 (the argument of
`write_block_start` is narrowed to 16 bits); the announced length is L exactly when
L < 65536, so for every image of at most 16 KiB. -/
theorem C19_announced_length_narrowed {σ : Type} (T : Transport σ) (c : Consts)
    (fw : List Nat) (w : World σ) (hne : fw ≠ [])
    (hok : all_succeeded
      (new_log w (fu_hailuck_kbd_device_write_firmware_before_verify T c fw w).2)) :
    (∃ b0 rest, (fu_chunk_array_new fw 2048).map Chunk.data = b0 :: rest ∧
      sent (new_log w (fu_hailuck_kbd_device_write_firmware_before_verify T c fw w).2) =
        ([Cmd.erase, Cmd.begin_write (fw.length % 65536), Cmd.write_block (b0.set 0 0x00)] ++
          rest.map Cmd.write_block ++
          [Cmd.begin_write (fw.length % 65536), Cmd.write_block b0]).map (Cmd.request c)) ∧
    (∃ err, new_log w (fu_hailuck_kbd_device_write_block_start T c fw.length w).2 =
      [Event.set_report 0x05 ((Cmd.begin_write (fw.length % 65536)).request c).buf 100 err]) ∧
    ((Cmd.begin_write (fw.length % 65536)).request c).buf =
      [c.FU_HAILUCK_KBD_REPORT_ID_SHORT, c.FU_HAILUCK_CMD_WRITE_BLOCK_START, 0x00, 0x00,
        fw.length % 65536 % 256, fw.length % 65536 / 256 % 256] ∧
    fw.length % 65536 % 256 + 256 * (fw.length % 65536 / 256 % 256) = fw.length % 65536 ∧
    (fw.length % 65536 = fw.length ↔ fw.length < 65536) ∧
    (fw.length ≤ 16384 → fw.length % 65536 = fw.length) := by
  obtain ⟨w1, hr, hg, -⟩ := before_verify_all_ok T c fw w hne hok
  refine ⟨?_, ?_, rfl, by omega, ?_, ?_⟩
  · rcases hm : (fu_chunk_array_new fw 2048).map Chunk.data with _ | ⟨b0, rest⟩
    · have := chunks_of_nonempty fw hne
      rw [this] at hm
      simp at hm
    · refine ⟨b0, rest, rfl, ?_⟩
      rw [hr, new_log_of_grows hg, sent_events, cmds_of_write_steps]
      unfold write_cmds
      rw [hm]
  · simp only [fu_hailuck_kbd_device_write_block_start, Cmd.request, short_frame, and_0xFF]
    have h4 : (fw.length % 65536) >>> 8 % 256 = fw.length % 65536 / 256 % 256 := by
      rw [Nat.shiftRight_eq_div_pow]
    rw [h4]
    rcases set_report_cases T 0x05 [c.FU_HAILUCK_KBD_REPORT_ID_SHORT,
      c.FU_HAILUCK_CMD_WRITE_BLOCK_START, 0x00, 0x00, fw.length % 65536 % 256,
      fw.length % 65536 / 256 % 256] 100 w with ⟨w2, hr2, hg2, -⟩ | ⟨e, w2, hr2, hg2, -⟩
    · exact ⟨none, by rw [hr2, new_log_of_grows hg2]⟩
    · exact ⟨some e, by rw [hr2, new_log_of_grows hg2]⟩
  · constructor
    · intro h
      have := Nat.mod_lt fw.length (show 0 < 65536 by decide)
      omega
    · intro h
      exact Nat.mod_eq_of_lt h
  · intro h
    exact Nat.mod_eq_of_lt (by omega)

/-- C19 on a 3-byte image over the quiet transport. -/
theorem C19_announced_length_narrowed_witness :
    (∃ b0 rest, (fu_chunk_array_new [1, 2, 3] 2048).map Chunk.data = b0 :: rest ∧
      sent (new_log (fresh_world ()) (fu_hailuck_kbd_device_write_firmware_before_verify
          quiet_transport sample_consts [1, 2, 3] (fresh_world ())).2) =
        ([Cmd.erase, Cmd.begin_write ([1, 2, 3].length % 65536),
            Cmd.write_block (b0.set 0 0x00)] ++
          rest.map Cmd.write_block ++
          [Cmd.begin_write ([1, 2, 3].length % 65536), Cmd.write_block b0]).map
            (Cmd.request sample_consts)) ∧
    (∃ err, new_log (fresh_world ()) (fu_hailuck_kbd_device_write_block_start quiet_transport
        sample_consts [1, 2, 3].length (fresh_world ())).2 =
      [Event.set_report 0x05
        ((Cmd.begin_write ([1, 2, 3].length % 65536)).request sample_consts).buf 100 err]) ∧
    ((Cmd.begin_write ([1, 2, 3].length % 65536)).request sample_consts).buf =
      [sample_consts.FU_HAILUCK_KBD_REPORT_ID_SHORT,
        sample_consts.FU_HAILUCK_CMD_WRITE_BLOCK_START, 0x00, 0x00,
        [1, 2, 3].length % 65536 % 256, [1, 2, 3].length % 65536 / 256 % 256] ∧
    [1, 2, 3].length % 65536 % 256 + 256 * ([1, 2, 3].length % 65536 / 256 % 256) =
      [1, 2, 3].length % 65536 ∧
    ([1, 2, 3].length % 65536 = [1, 2, 3].length ↔ [1, 2, 3].length < 65536) ∧
    ([1, 2, 3].length ≤ 16384 → [1, 2, 3].length % 65536 = [1, 2, 3].length) :=
  C19_announced_length_narrowed quiet_transport sample_consts [1, 2, 3] (fresh_world ())
    (by decide) (by decide)

/-- A run of erase over the quiet transport: the frame, then the 2 s wait, and success. -/
theorem erase_accepted_example :
    fu_hailuck_kbd_device_erase quiet_transport sample_consts (fresh_world ()) =
      (.ok (), { hid := (), wait_for_replug := false, firmware_size_max := 0x4000,
                 log := [Event.set_report 0x05 [0x05, 0x45, 0x45, 0x45, 0x45, 0x45] 100 none,
                   Event.sleep_with_progress 2] }) := by
  rfl

/-- A run of erase over a transport whose first call fails with error 7: the frame is
logged as failed, no wait is taken and the transport's error is returned. -/
theorem erase_refused_example :
    fu_hailuck_kbd_device_erase (failing_transport 1 7) sample_consts (fresh_world 0) =
      (.error (.transport 7),
               { hid := 1, wait_for_replug := false, firmware_size_max := 0x4000,
                 log := [Event.set_report 0x05 [0x05, 0x45, 0x45, 0x45, 0x45, 0x45] 100
                   (some 7)] }) := by
  rfl

/-- A run of attach over the quiet transport: the frame, the reset, the mark, success. -/
theorem attach_accepted_example :
    fu_hailuck_kbd_device_attach quiet_transport sample_consts (fresh_world ()) =
      (.ok (), { hid := (), wait_for_replug := true, firmware_size_max := 0x4000,
                 log := [Event.set_status .device_restart,
                   Event.set_report 0x05 [0x05, 0x55, 0x55, 0x55, 0x55, 0x55] 1000 none,
                   Event.usb_reset none] }) := by
  rfl

/-- A run of attach over a transport whose first call fails with error 7: no reset is
issued, the mark is not set and the transport's error is returned. -/
theorem attach_refused_example :
    fu_hailuck_kbd_device_attach (failing_transport 1 7) sample_consts (fresh_world 0) =
      (.error (.transport 7),
               { hid := 1, wait_for_replug := false, firmware_size_max := 0x4000,
                 log := [Event.set_status .device_restart,
                   Event.set_report 0x05 [0x05, 0x55, 0x55, 0x55, 0x55, 0x55] 1000
                     (some 7)] }) := by
  rfl

/-- A run of detach over the quiet transport: the frame, the mark, success. -/
theorem detach_accepted_example :
    fu_hailuck_kbd_device_detach quiet_transport sample_consts (fresh_world ()) =
      (.ok (), { hid := (), wait_for_replug := true, firmware_size_max := 0x4000,
                 log := [Event.set_status .device_restart,
                   Event.set_report 0x05 [0x05, 0x75, 0x00, 0x00, 0x00, 0x00] 1000 none] }) := by
  rfl

/-- A run of detach over a transport whose first call fails with error 7: the mark is not
set and the transport's error is returned. -/
theorem detach_refused_example :
    fu_hailuck_kbd_device_detach (failing_transport 1 7) sample_consts (fresh_world 0) =
      (.error (.transport 7),
               { hid := 1, wait_for_replug := false, firmware_size_max := 0x4000,
                 log := [Event.set_status .device_restart,
                   Event.set_report 0x05 [0x05, 0x75, 0x00, 0x00, 0x00, 0x00] 1000
                     (some 7)] }) := by
  rfl

end Hailuck
